import Mathlib

/-!
# Motion correction (`cv.motionCorrect`): shallow embedding and verified properties

The development embeds the parts of `mex/src/lib/manipulateImage.h` and
`mex/src/motionCorrect.cpp` that the verified properties talk about.

Conventions of the embedding:

* A `cv::Mat` is a `Mat α`: its `rows`, its `cols` and a pixel store `px`.  Only the
  cells `(r, c)` with `r < rows` and `c < cols` belong to the image.  Accesses made
  through a row pointer in the source (`srcRow[sCol]`, `tgtRow[tCol]`) go through
  `Mat.read` and `Mat.write`, which fail (`none`) on an index outside the image, so a
  result `some _` certifies that every access was in range.
* C `int` arithmetic that can leave the 32-bit range is wrapped with `wrap32`.
* `double` values are idealised as rationals (exact arithmetic, no NaN).
* `while` loops carry a fuel argument; the top-level definitions supply enough fuel and
  the theorems prove that they return.
-/

namespace MotionCorrect

/-! ## Images -/

/-- Image buffer in the style of `cv::Mat`. -/
structure Mat (α : Type) where
  rows : Nat
  cols : Nat
  px : Nat → Nat → α

/-- Checked read of the cell `(r, c)`: `none` when the index is outside the image. -/
def Mat.read {α : Type} (m : Mat α) (r c : Int) : Option α :=
  if 0 ≤ r ∧ r < m.rows ∧ 0 ≤ c ∧ c < m.cols then some (m.px r.toNat c.toNat) else none

/-- Checked write of the cell `(r, c)`: `none` when the index is outside the image. -/
def Mat.write {α : Type} (m : Mat α) (r c : Int) (v : α) : Option (Mat α) :=
  if 0 ≤ r ∧ r < m.rows ∧ 0 ≤ c ∧ c < m.cols then
    some { m with px := fun i j => if i = r.toNat ∧ j = c.toNat then v else m.px i j }
  else none

/-- Value of a C `int` expression whose mathematical value is `x` (two's complement). -/
def wrap32 (x : Int) : Int := (x + 2147483648) % 4294967296 - 2147483648

/-- Rounding of `cvRound` (OpenCV): nearest integer, ties to the even neighbour. -/
def cvRound (x : ℚ) : Int :=
  let f := ⌊x⌋
  if x - f < 1 / 2 then f
  else if 1 / 2 < x - f then f + 1
  else if f % 2 = 0 then f else f + 1

/-! ## `CopyShiftedImage32` (manipulateImage.h) -/

/-- Row without a source row, lines 43-44:
`for (int tCol = 0; tCol < target.cols; ++tCol) tgtRow[tCol] = Pixel(emptyValue);`
This is also the loop of lines 61-62, which starts from the current `tCol`. -/
def fillCols {α : Type} (emptyValue : α) (tRow : Int) :
    Nat → Mat α → Int → Option (Mat α)
  | 0, _, _ => none
  | fuel + 1, target, tCol =>
    if tCol < target.cols then
      (target.write tRow tCol emptyValue).bind fun t =>
        fillCols emptyValue tRow fuel t (tCol + 1)
    else some target

/-- Lines 53-54:
`for (; sCol < 0 && tCol < target.cols; ++tCol, ++sCol) tgtRow[tCol] = Pixel(emptyValue);`
Returns the target together with the final `tCol` and `sCol`. -/
def colsBefore {α : Type} (emptyValue : α) (tRow : Int) :
    Nat → Mat α → Int → Int → Option (Mat α × Int × Int)
  | 0, _, _, _ => none
  | fuel + 1, target, tCol, sCol =>
    if sCol < 0 ∧ tCol < target.cols then
      (target.write tRow tCol emptyValue).bind fun t =>
        colsBefore emptyValue tRow fuel t (tCol + 1) (sCol + 1)
    else some (target, tCol, sCol)

/-- Lines 57-58:
`for (; sCol < source.cols && tCol < target.cols; ++tCol, ++sCol) tgtRow[tCol] = Pixel(srcRow[sCol]);`
Returns the target together with the final `tCol` and `sCol`. -/
def colsInside {α : Type} (source : Mat α) (sRow tRow : Int) :
    Nat → Mat α → Int → Int → Option (Mat α × Int × Int)
  | 0, _, _, _ => none
  | fuel + 1, target, tCol, sCol =>
    if sCol < source.cols ∧ tCol < target.cols then
      (source.read sRow sCol).bind fun v =>
        (target.write tRow tCol v).bind fun t =>
          colsInside source sRow tRow fuel t (tCol + 1) (sCol + 1)
    else some (target, tCol, sCol)

/-- Body of the loop over rows, lines 38-63. -/
def shiftRow {α : Type} (source : Mat α) (dRow dCol : Int) (emptyValue : α)
    (target : Mat α) (tRow : Int) : Option (Mat α) :=
  let sRow := wrap32 (tRow - dRow)
  if sRow < 0 ∨ sRow ≥ source.rows then
    fillCols emptyValue tRow (target.cols + 1) target 0
  else
    (colsBefore emptyValue tRow (target.cols + 1) target 0 (wrap32 (-dCol))).bind fun s1 =>
      (colsInside source sRow tRow (target.cols + 1) s1.1 s1.2.1 s1.2.2).bind fun s2 =>
        fillCols emptyValue tRow (target.cols + 1) s2.1 s2.2.1

/-- Loop over rows, line 37: `for (int tRow = 0; tRow < target.rows; ++tRow)`. -/
def shiftRows {α : Type} (source : Mat α) (dRow dCol : Int) (emptyValue : α) :
    Nat → Mat α → Int → Option (Mat α)
  | 0, _, _ => none
  | fuel + 1, target, tRow =>
    if tRow < target.rows then
      (shiftRow source dRow dCol emptyValue target tRow).bind fun t =>
        shiftRows source dRow dCol emptyValue fuel t (tRow + 1)
    else some target

/-- The functor call `CopyShiftedImage32<Pixel>::operator()`.  `emptyValue` stands for `Pixel(emptyValue)`
and the source pixels have the type of the target pixels (`Pixel = float`, the only
instantiation the program uses), so `Pixel(srcRow[sCol])` is the pixel itself. -/
def CopyShiftedImage32 {α : Type} (target source : Mat α) (deltaRows deltaCols : ℚ)
    (emptyValue : α) : Option (Mat α) :=
  let dCol := cvRound deltaCols
  let dRow := cvRound deltaRows
  shiftRows source dRow dCol emptyValue (target.rows + 1) target 0

/-- Pixel that a shift by `(dRow, dCol)` puts at `(r, c)`: the source pixel
`(r - dRow, c - dCol)` when the source has it, the fill value otherwise. -/
def shiftedPixel {α : Type} (source : Mat α) (dRow dCol : Int) (emptyValue : α)
    (r c : Nat) : α :=
  if 0 ≤ (r : Int) - dRow ∧ (r : Int) - dRow < source.rows ∧
      0 ≤ (c : Int) - dCol ∧ (c : Int) - dCol < source.cols then
    source.px ((r : Int) - dRow).toNat ((c : Int) - dCol).toNat
  else emptyValue

/-- Pixel that the loops of `CopyShiftedImage32` put at `(r, c)`, in terms of the C `int`
values `sRow = tRow - dRow` and `sCol = -dCol + tCol`. -/
def wrappedPixel {α : Type} (source : Mat α) (dRow dCol : Int) (emptyValue : α)
    (r c : Nat) : α :=
  if 0 ≤ wrap32 ((r : Int) - dRow) ∧ wrap32 ((r : Int) - dRow) < source.rows ∧
      0 ≤ (c : Int) + wrap32 (-dCol) ∧ (c : Int) + wrap32 (-dCol) < source.cols then
    source.px (wrap32 ((r : Int) - dRow)).toNat ((c : Int) + wrap32 (-dCol)).toNat
  else emptyValue

/-- Loop invariant of one target row: `t` has the size of `t0`, agrees with `t0` outside
row `tRow`, and the cells of row `tRow` left of column `n` hold `spec`. -/
def RowInv {α : Type} (t0 t : Mat α) (tRow : Nat) (spec : Nat → α) (n : Int) : Prop :=
  t.rows = t0.rows ∧ t.cols = t0.cols ∧
  (∀ r c, r ≠ tRow → t.px r c = t0.px r c) ∧
  (∀ c : Nat, (c : Int) < n → t.px tRow c = spec c)


/-! ## Search radius and sizes (motionCorrect.cpp, lines 264-268 and 334-338) -/

/-- Line 265: `firstRefRow = std::min(maxShift, (imgStack[0].rows - 1)/2)`; the division
is the truncating division of C `int`. -/
def firstRefRow (maxShift rows : Int) : Int := min maxShift (Int.tdiv (rows - 1) 2)

/-- Line 266: `firstRefCol = std::min(maxShift, (imgStack[0].cols - 1)/2)`. -/
def firstRefCol (maxShift cols : Int) : Int := min maxShift (Int.tdiv (cols - 1) 2)

/-- Line 267: an extent of the metric surface, `2*firstRef + 1` (`metricSize[0]` for the
rows, `metricSize[1]` for the columns); line 337 allocates `metric` with these extents. -/
def metricSize (firstRef : Int) : Int := 2 * firstRef + 1

/-- Line 338: an extent of `refRegion`, the region of interest of the reference:
`imgStack[0].rows - 2*firstRefRow` (height) or `imgStack[0].cols - 2*firstRefCol` (width);
the region starts at `firstRef` on that axis. -/
def refRegionExtent (dim firstRef : Int) : Int := dim - 2 * firstRef

/-! ## `findLocalOptimum` (motionCorrect.cpp, lines 118-154) -/

/-- A `cv::Point` on the metric surface: `x` is the column and `y` the row. -/
structure Point where
  x : Nat
  y : Nat
deriving DecidableEq, Repr

/-- The type `typedef bool (*Comparator)(float, float)`. -/
abbrev Comparator (α : Type) := α → α → Bool

/-- The comparator `lessThan(float a, float b)`, which returns `a < b`. -/
def lessThan {α : Type} [LinearOrder α] : Comparator α := fun a b => decide (a < b)

/-- The comparator `greaterThan(float a, float b)`, which returns `a > b`. -/
def greaterThan {α : Type} [LinearOrder α] : Comparator α := fun a b => decide (a > b)

/-- Line 415: `optimReject = useMinimum ? greaterThan : lessThan`. -/
def optimReject {α : Type} [LinearOrder α] (useMinimum : Bool) : Comparator α :=
  if useMinimum then greaterThan else lessThan

/-- Body of the loop over columns, lines 136-150, on the state `(bestRadius2, optimum)`:
the cell `(iY, iX)` is skipped when `reject` holds against one of its 8 neighbours or
when `bestRadius2 < radius2[index]`, and becomes the optimum otherwise.  `row0`, `row1`
and `row2` of the source are the rows `iY - 1`, `iY` and `iY + 1` of `metric`. -/
def visitCell {α ρ : Type} [LinearOrder ρ] (metric : Mat α) (radius2 : Nat → ρ)
    (reject : Comparator α) (iY iX index : Nat) (s : ρ × Point) : ρ × Point :=
  if reject (metric.px iY iX) (metric.px (iY - 1) iX)
      || reject (metric.px iY iX) (metric.px (iY + 1) iX)
      || reject (metric.px iY iX) (metric.px iY (iX + 1))
      || reject (metric.px iY iX) (metric.px iY (iX - 1))
      || reject (metric.px iY iX) (metric.px (iY - 1) (iX + 1))
      || reject (metric.px iY iX) (metric.px (iY - 1) (iX - 1))
      || reject (metric.px iY iX) (metric.px (iY + 1) (iX + 1))
      || reject (metric.px iY iX) (metric.px (iY + 1) (iX - 1))
      || decide (s.1 < radius2 index)
  then s
  else (radius2 index, ⟨iX, iY⟩)

/-- Loop over columns, line 135: `for (int iX = 1; iX < lastCol; ++iX, ++index)`.
Returns the state and the final `index`. -/
def scanCols {α ρ : Type} [LinearOrder ρ] (metric : Mat α) (radius2 : Nat → ρ)
    (reject : Comparator α) (lastCol : Int) (iY : Nat) :
    Nat → Nat → Nat → ρ × Point → Option ((ρ × Point) × Nat)
  | 0, _, _, _ => none
  | fuel + 1, iX, index, s =>
    if (iX : Int) < lastCol then
      scanCols metric radius2 reject lastCol iY fuel (iX + 1) (index + 1)
        (visitCell metric radius2 reject iY iX index s)
    else some (s, index)

/-- Loop over rows, lines 128-153: `for (int iY = 1, index = metric.cols; iY < lastRow; ++iY)`
with `++index` before and after the loop over columns. -/
def scanRows {α ρ : Type} [LinearOrder ρ] (metric : Mat α) (radius2 : Nat → ρ)
    (reject : Comparator α) (lastRow lastCol : Int) :
    Nat → Nat → Nat → ρ × Point → Option (ρ × Point)
  | 0, _, _, _ => none
  | fuel + 1, iY, index, s =>
    if (iY : Int) < lastRow then
      (scanCols metric radius2 reject lastCol iY (metric.cols + 1) 1 (index + 1) s).bind
        fun r => scanRows metric radius2 reject lastRow lastCol fuel (iY + 1) (r.2 + 1) r.1
    else some s

/-- The function `findLocalOptimum(metric, radius2, optimum, reject)`; the result is the final value of
the in-out parameter `optimum`.  `radius2` is the vector as a map from index to entry and
the surface cells are read unchecked. -/
def findLocalOptimum {α ρ : Type} [LinearOrder ρ] (metric : Mat α) (radius2 : Nat → ρ)
    (optimum : Point) (reject : Comparator α) : Option Point :=
  let lastRow : Int := (metric.rows : Int) - 1
  let lastCol : Int := (metric.cols : Int) - 1
  let bestRadius2 := radius2 (optimum.x + metric.cols * optimum.y)
  (scanRows metric radius2 reject lastRow lastCol (metric.rows + 1) 1 metric.cols
    (bestRadius2, optimum)).map fun s => s.2

/-- Modelled from the spec: `sqr` (lib/matUtils.h, not among the sources) squares its
argument, the table it fills being one of squared distances. -/
def sqr (x : ℚ) : ℚ := x * x

/-- Lines 347-352, the precomputed table `radius2` of a `rows x cols` metric surface:
`radius2[index] = sqr(row - 0.5*metric.rows) + sqr(col - 0.5*metric.cols)` in row-major
order of `index`. -/
def radius2Table (rows cols : Nat) : List ℚ :=
  (List.range rows).flatMap fun row =>
    (List.range cols).map fun col =>
      sqr ((row : ℚ) - (1 / 2) * (rows : ℚ)) + sqr ((col : ℚ) - (1 / 2) * (cols : ℚ))

/-- Entry `radius2[index]` of a vector (0 outside the vector). -/
def entry (v : List ℚ) (index : Nat) : ℚ := v.getD index 0

/-- The cell `p` is not on the outer border of the surface. -/
def Interior {α : Type} (metric : Mat α) (p : Point) : Prop :=
  1 ≤ p.x ∧ (p.x : Int) < (metric.cols : Int) - 1 ∧
  1 ≤ p.y ∧ (p.y : Int) < (metric.rows : Int) - 1

/-- The cell `p` is not worse, under the comparator `reject`, than any of its 8
neighbours: `reject` is false against each of them. -/
def NotWorseThanNeighbours {α : Type} (metric : Mat α) (reject : Comparator α)
    (p : Point) : Prop :=
  reject (metric.px p.y p.x) (metric.px (p.y - 1) p.x) = false ∧
  reject (metric.px p.y p.x) (metric.px (p.y + 1) p.x) = false ∧
  reject (metric.px p.y p.x) (metric.px p.y (p.x + 1)) = false ∧
  reject (metric.px p.y p.x) (metric.px p.y (p.x - 1)) = false ∧
  reject (metric.px p.y p.x) (metric.px (p.y - 1) (p.x + 1)) = false ∧
  reject (metric.px p.y p.x) (metric.px (p.y - 1) (p.x - 1)) = false ∧
  reject (metric.px p.y p.x) (metric.px (p.y + 1) (p.x + 1)) = false ∧
  reject (metric.px p.y p.x) (metric.px (p.y + 1) (p.x - 1)) = false

/-- Index of the cell `p` in the row-major table `radius2`. -/
def cellIndex {α : Type} (metric : Mat α) (p : Point) : Nat := p.x + metric.cols * p.y

/-- The cell `optimum` is strictly better than every other cell of the surface: the
comparator rejects every other cell against it (`reject = lessThan` when maximising,
`greaterThan` when minimising). -/
def StrictlyBest {α : Type} (metric : Mat α) (reject : Comparator α) (optimum : Point) :
    Prop :=
  ∀ q : Point, q.x < metric.cols → q.y < metric.rows → q ≠ optimum →
    reject (metric.px q.y q.x) (metric.px optimum.y optimum.x) = true

/-- The cell `q` is one of the 8 neighbours of `p`. -/
def Adjacent (p q : Point) : Prop :=
  q ≠ p ∧ p.x ≤ q.x + 1 ∧ q.x ≤ p.x + 1 ∧ p.y ≤ q.y + 1 ∧ q.y ≤ p.y + 1

/-! ## The main loop of `mexFunction` (motionCorrect.cpp, lines 365-597)

The operations of OpenCV and of the `lib/` headers whose code is not among the sources
are parameters (`Prims`).  Progress display and the metric outputs (`stackMetric`,
`optimMetric`) are left out; they do not feed back into the loop. -/

/-- External operations used by the main loop. -/
structure Prims (Pix : Type) where
  /-- The pixel value of `cv::Scalar(0)`. -/
  zero : Pix
  /-- The pixel value of `cv::Scalar(mxGetNaN())`. -/
  nan : Pix
  /-- The call `cvCall<MedianVecMat32>(stack, out, traceTemp)`: the value written to `out`. -/
  MedianVecMat32 : List (Mat Pix) → Mat Pix
  /-- The calls `cvCall<AddImage32>(src, dst)` and `dst += src`: the new value of `dst`, given
  `src` and the old `dst`. -/
  AddImage32 : Mat Pix → Mat Pix → Mat Pix
  /-- The statement `image *= weight`: the new value of `image`. -/
  scale : Mat Pix → ℚ → Mat Pix
  /-- The call `cv::warpAffine(src, dst, translator, dst.size(), methodInterp, BORDER_CONSTANT,
  emptyValue)` with `xTrans[2]`, `yTrans[2]` as second and third argument: the value
  written to `dst`. -/
  warpAffine : Mat Pix → ℚ → ℚ → Pix → Mat Pix
  /-- Lines 490-523 and 534-535 for the frame `frmInput` (first argument) and the
  reference `imgRef` (second argument): `cv::matchTemplate`, `cv::minMaxLoc`, the
  optional `findLocalOptimum` and the optional peak fit, giving `(colShift, rowShift)`. -/
  estimateShift : Mat Pix → Mat Pix → ℚ × ℚ

/-- The parsed arguments and the loaded stack. -/
structure Params (Pix : Type) where
  maxIter : Int
  stopBelowShift : ℚ
  medianRebin : Nat
  /-- The argument `centerShifts` (line 182). -/
  centerShiftsArg : Bool
  /-- The flag `subPixelReg = (methodInterp >= 0)` (line 188). -/
  subPixelReg : Bool
  /-- The fill value `emptyValue[0]` (line 403). -/
  emptyValue : Pix
  /-- The frame count `numFrames = imgStack.size()` (line 259). -/
  numFrames : Nat
  /-- The frames `imgStack[iFrame]`, already converted to `CV_32F` (line 485). -/
  imgStack : Nat → Mat Pix
  /-- The flags `isEmpty[iFrame]` (lines 271-278). -/
  isEmpty : Nat → Bool
  /-- The template of a call `{input, template}`; empty when none is given. -/
  refStack : List (Mat Pix)

/-- Line 206: `centerShifts = false` when a template is explicitly provided. -/
def Params.centerShifts {Pix : Type} (prm : Params Pix) : Bool :=
  if prm.refStack.isEmpty then prm.centerShiftsArg else false

/-- Line 260: `numMedian = ceil(1.0 * imgStack.size() / medianRebin)`, meaningful for
`medianRebin ≥ 1` (the C++ value is undefined for `medianRebin = 0`). -/
def Params.numMedian {Pix : Type} (prm : Params Pix) : Nat :=
  ⌈(prm.numFrames : ℚ) / (prm.medianRebin : ℚ)⌉₊

/-- The constant `1e308`. -/
def huge : ℚ := 10 ^ 308

/-- An image of the size of the frames with every pixel equal to `v`
(`create(imgStack[0].rows, imgStack[0].cols, CV_32F)` followed by `= cv::Scalar(v)`). -/
def constImage {Pix : Type} (prm : Params Pix) (v : Pix) : Mat Pix :=
  ⟨(prm.imgStack 0).rows, (prm.imgStack 0).cols, fun _ _ => v⟩

/-- The loop `for (i = 0; i < n; ++i) body(i)` on a state, where the body may abort the run. -/
def forLoop {σ : Type} (body : Nat → σ → Option σ) : Nat → σ → Option σ
  | 0, s => some s
  | n + 1, s => (forLoop body n s).bind (body n)

/-- Lines 371-375: `for (int iBin = 0; iBin < medianRebin && iFrame < numFrames; ++iBin,
++iFrame)`, adding the non-empty frames to the group image and counting them.  The state
is `(iFrame, count, imgShifted[iMedian])`. -/
def initBin {Pix : Type} (P : Prims Pix) (prm : Params Pix) :
    Nat → Nat → Nat × Nat × Mat Pix → Option (Nat × Nat × Mat Pix)
  | 0, _, _ => none
  | fuel + 1, iBin, (iFrame, count, img) =>
    if iBin < prm.medianRebin ∧ iFrame < prm.numFrames then
      if prm.isEmpty iFrame then initBin P prm fuel (iBin + 1) (iFrame + 1, count, img)
      else initBin P prm fuel (iBin + 1)
        (iFrame + 1, count + 1, P.AddImage32 (prm.imgStack iFrame) img)
    else some (iFrame, count, img)

/-- Body of the loop of lines 367-380 on the state `(iFrame, imgShifted, medWeight)`. -/
def initGroup {Pix : Type} (P : Prims Pix) (prm : Params Pix) (iMedian : Nat)
    (s : Nat × List (Mat Pix) × List ℚ) : Option (Nat × List (Mat Pix) × List ℚ) :=
  (initBin P prm (prm.medianRebin + 1) 0 (s.1, 0, constImage prm P.zero)).bind fun r =>
    if r.2.1 ≠ 0 then
      some (r.1, s.2.1.set iMedian r.2.2, s.2.2.set iMedian (1 / (r.2.1 : ℚ)))
    else
      some (r.1, s.2.1.set iMedian (constImage prm P.nan), s.2.2)

/-- Lines 366-380: the group images `imgShifted` of the raw frames and the weights
`medWeight`. -/
def initGroups {Pix : Type} (P : Prims Pix) (prm : Params Pix) :
    Option (List (Mat Pix) × List ℚ) :=
  (forLoop (initGroup P prm) prm.numMedian
    (0, List.replicate prm.numMedian (constImage prm P.zero),
      List.replicate prm.numMedian 1)).map fun s => s.2

/-- State of the loop over iterations. -/
structure LoopState (Pix : Type) where
  /-- Number of passes started so far (`iteration`). -/
  iteration : Nat
  midXShift : ℚ
  midYShift : ℚ
  maxRelShift : ℚ
  /-- The data of `outXShifts`, column-major with `numFrames` rows, zero-initialised. -/
  xData : Nat → ℚ
  /-- The data of `outYShifts`. -/
  yData : Nat → ℚ
  /-- Offset of the pointers `xShifts` and `yShifts` into the data (`xShifts +=
  numFrames` at the end of every pass). -/
  base : Nat
  imgRef : Mat Pix
  frmTemp : Mat Pix
  imgShifted : List (Mat Pix)
  /-- History variable: the reference image `imgRef` each pass was run against, first
  pass first. -/
  refLog : List (Mat Pix)
  /-- History variable: the values of `maxRelShift` tested at line 450, one per
  iteration of the loop, first iteration first. -/
  relLog : List ℚ

/-- State of the loop over frames of one pass. -/
structure PassState (Pix : Type) where
  maxRelShift : ℚ
  minXShift : ℚ
  maxXShift : ℚ
  minYShift : ℚ
  maxYShift : ℚ
  xData : Nat → ℚ
  yData : Nat → ℚ
  imgShifted : List (Mat Pix)
  frmTemp : Mat Pix
  iMedian : Nat
  iBin : Nat
  isFirst : Bool

/-- Lines 427-446: the reference image for the next pass.  Returns the new values of
`(imgShifted, frmTemp, imgRef)`. -/
def buildReference {Pix : Type} (P : Prims Pix) (prm : Params Pix) (medWeight : List ℚ)
    (st : LoopState Pix) : Option (List (Mat Pix) × Mat Pix × Mat Pix) :=
  if st.iteration > 1 ∨ prm.refStack.isEmpty then
    let imgShifted := (List.range prm.numMedian).foldl
      (fun l iMedian =>
        l.set iMedian
          (P.scale (l.getD iMedian (constImage prm P.zero)) (medWeight.getD iMedian 1)))
      st.imgShifted
    if st.midXShift ≠ 0 ∨ st.midYShift ≠ 0 then
      let frmTemp := P.MedianVecMat32 imgShifted
      if prm.subPixelReg then
        some (imgShifted, frmTemp,
          P.warpAffine frmTemp (-st.midXShift) (-st.midYShift) prm.emptyValue)
      else
        (CopyShiftedImage32 st.imgRef frmTemp st.midYShift st.midXShift prm.emptyValue).map
          fun imgRef => (imgShifted, frmTemp, imgRef)
    else some (imgShifted, st.frmTemp, P.MedianVecMat32 imgShifted)
  else some (st.imgShifted, st.frmTemp, P.MedianVecMat32 prm.refStack)

/-- Lines 475-482 and 566-570: when `++iBin >= medianRebin`, then `iBin = 0`,
`isFirst = true` and `++iMedian`. -/
def advanceBin {Pix : Type} (prm : Params Pix) (st : PassState Pix) : PassState Pix :=
  if st.iBin + 1 ≥ prm.medianRebin then
    { st with iBin := 0, isFirst := true, iMedian := st.iMedian + 1 }
  else { st with iBin := st.iBin + 1 }

/-- Lines 501-537: the corrected frame `frmShifted`, written to `frmTemp` when
`medianRebin > 1` and to `imgShifted[iMedian]` otherwise.  Returns the new values of
`(imgShifted, frmTemp)` and the corrected frame. -/
def correctFrame {Pix : Type} (P : Prims Pix) (prm : Params Pix) (st : PassState Pix)
    (frmInput : Mat Pix) (colShift rowShift : ℚ) :
    Option (List (Mat Pix) × Mat Pix × Mat Pix) :=
  let target := if prm.medianRebin > 1 then st.frmTemp
    else st.imgShifted.getD st.iMedian (constImage prm P.zero)
  let result := if prm.subPixelReg then
      some (P.warpAffine frmInput colShift rowShift prm.emptyValue)
    else CopyShiftedImage32 target frmInput rowShift colShift prm.emptyValue
  result.map fun frmShifted =>
    if prm.medianRebin > 1 then (st.imgShifted, frmShifted, frmShifted)
    else (st.imgShifted.set st.iMedian frmShifted, st.frmTemp, frmShifted)

/-- Body of the loop over frames, lines 473-571.  `base` is the offset of the pointers
`xShifts`, `yShifts` into the shift data and `iPrev` is `iPrevX = iPrevY`.  The sanity
check of lines 558-559 aborts the run (`none`); it is made before `imgShifted[iMedian]`
is touched. -/
def frameStep {Pix : Type} (P : Prims Pix) (prm : Params Pix) (imgRef : Mat Pix)
    (base iPrev : Nat) (iFrame : Nat) (st : PassState Pix) : Option (PassState Pix) :=
  if prm.isEmpty iFrame then
    some (advanceBin prm st)
  else if st.iMedian ≥ prm.numMedian then
    none
  else
    let frmInput := prm.imgStack iFrame
    let colShift := (P.estimateShift frmInput imgRef).1
    let rowShift := (P.estimateShift frmInput imgRef).2
    (correctFrame P prm st frmInput colShift rowShift).map fun r =>
      let maxRel1 := max st.maxRelShift |colShift - st.xData (base + iFrame - iPrev)|
      let maxRel2 := max maxRel1 |rowShift - st.yData (base + iFrame - iPrev)|
      advanceBin prm
        { st with
          maxRelShift := maxRel2
          xData := Function.update st.xData (base + iFrame) colShift
          yData := Function.update st.yData (base + iFrame) rowShift
          minXShift := min st.minXShift colShift
          minYShift := min st.minYShift rowShift
          maxXShift := max st.maxXShift colShift
          maxYShift := max st.maxYShift rowShift
          frmTemp := r.2.1
          imgShifted :=
            if st.isFirst then r.1.set st.iMedian r.2.2
            else r.1.set st.iMedian
              (P.AddImage32 r.2.2 (r.1.getD st.iMedian (constImage prm P.zero)))
          isFirst := false }

/-- Lines 468-472: the state in which the loop over frames starts. -/
def passStart {Pix : Type} (st : LoopState Pix) : PassState Pix :=
  { maxRelShift := -huge
    minXShift := huge
    maxXShift := -huge
    minYShift := huge
    maxYShift := -huge
    xData := st.xData
    yData := st.yData
    imgShifted := st.imgShifted
    frmTemp := st.frmTemp
    iMedian := 0
    iBin := 0
    isFirst := true }

/-- Lines 578-581: `xShifts[iFrame] -= mid` for `iFrame < numFrames`, on the data. -/
def subtractMid (numFrames base : Nat) (mid : ℚ) (data : Nat → ℚ) : Nat → ℚ :=
  fun i => if base ≤ i ∧ i < base + numFrames then data i - mid else data i

/-- One pass, lines 452-584: `++iteration`, the loop over frames, the centering of the
shifts and the advance of the pointers `xShifts`, `yShifts`.  `st` already holds the
reference built for this pass; `iPrev` was computed at the top of the loop. -/
def runPass {Pix : Type} (P : Prims Pix) (prm : Params Pix) (iPrev : Nat)
    (st : LoopState Pix) : Option (LoopState Pix) :=
  (forLoop (frameStep P prm st.imgRef st.base iPrev) prm.numFrames (passStart st)).map
    fun ps =>
      let midX := if prm.centerShifts then (ps.minXShift + ps.maxXShift) / 2
        else st.midXShift
      let midY := if prm.centerShifts then (ps.minYShift + ps.maxYShift) / 2
        else st.midYShift
      { iteration := st.iteration + 1
        midXShift := midX
        midYShift := midY
        maxRelShift := ps.maxRelShift
        xData := if prm.centerShifts then subtractMid prm.numFrames st.base midX ps.xData
          else ps.xData
        yData := if prm.centerShifts then subtractMid prm.numFrames st.base midY ps.yData
          else ps.yData
        base := st.base + prm.numFrames
        imgRef := st.imgRef
        frmTemp := ps.frmTemp
        imgShifted := ps.imgShifted
        refLog := st.refLog ++ [st.imgRef]
        relLog := st.relLog }

/-- The loop `while (true)` of lines 420-585.  It returns the state at the `break`. -/
def iterate {Pix : Type} (P : Prims Pix) (prm : Params Pix) (medWeight : List ℚ) :
    Nat → LoopState Pix → Option (LoopState Pix)
  | 0, _ => none
  | fuel + 1, st =>
    let iPrev := if st.iteration < 1 then 0 else prm.numFrames
    (buildReference P prm medWeight st).bind fun r =>
      let st1 := { st with
        imgShifted := r.1, frmTemp := r.2.1, imgRef := r.2.2
        relLog := st.relLog ++ [st.maxRelShift] }
      if st1.maxRelShift < prm.stopBelowShift then some st1
      else if (st1.iteration : Int) ≥ prm.maxIter then some st1
      else (runPass P prm iPrev st1).bind fun st2 => iterate P prm medWeight fuel st2

/-- Lines 416-419 and 320-336: the state before the first iteration.  The shift data are
zero-initialised by `mxCreateDoubleMatrix`; the buffers `imgRef` and `frmTemp` are
allocated with the size of the frames and their initial contents, which the source
leaves unspecified and overwrites before use, are taken as zero. -/
def loopStart {Pix : Type} (P : Prims Pix) (prm : Params Pix)
    (imgShifted : List (Mat Pix)) : LoopState Pix :=
  { iteration := 0
    midXShift := 0
    midYShift := 0
    maxRelShift := huge
    xData := fun _ => 0
    yData := fun _ => 0
    base := 0
    imgRef := constImage prm P.zero
    frmTemp := constImage prm P.zero
    imgShifted := imgShifted
    refLog := []
    relLog := [] }

/-- What `mexFunction` returns, as far as the loop determines it. -/
structure Output (Pix : Type) where
  /-- Number of passes performed (`iteration` after the loop). -/
  iteration : Nat
  /-- Number of columns of `outXShifts` and `outYShifts` (lines 594-597). -/
  shiftCols : Int
  xShifts : Nat → ℚ
  yShifts : Nat → ℚ
  /-- The running offset `(midXShift, midYShift)` at the end of the loop. -/
  midXShift : ℚ
  midYShift : ℚ
  /-- The output `reference` (`imgRef`). -/
  reference : Mat Pix
  /-- The group images `imgShifted`. -/
  imgShifted : List (Mat Pix)
  /-- History variable: the reference image of each pass. -/
  refLog : List (Mat Pix)
  /-- History variable: the values of `maxRelShift` tested at line 450. -/
  relLog : List ℚ

/-- Lines 365-597 of `mexFunction`: group images of the raw frames, the loop over
iterations and the truncation of the shift arrays. -/
def motionCorrect {Pix : Type} (P : Prims Pix) (prm : Params Pix) : Option (Output Pix) :=
  (initGroups P prm).bind fun g =>
    (iterate P prm g.2 (prm.maxIter.toNat + 1) (loopStart P prm g.1)).map fun st =>
      { iteration := st.iteration
        shiftCols := if (st.iteration : Int) < prm.maxIter then st.iteration
          else prm.maxIter
        xShifts := st.xData
        yShifts := st.yData
        midXShift := st.midXShift
        midYShift := st.midYShift
        reference := st.imgRef
        imgShifted := st.imgShifted
        refLog := st.refLog
        relLog := st.relLog }

/-- Invariant of the loop over frames for one axis, before frame `k` is processed: `data`
is the shift data, `mn` and `mx` the running minimum and maximum, `val l` the shift
estimated for frame `l`, `b` the offset of the current column and `data0` the data at the
start of the pass. -/
def AxisInv (isEmpty : Nat → Bool) (b : Nat) (data0 : Nat → ℚ) (val : Nat → ℚ) (k : Nat)
    (data : Nat → ℚ) (mn mx : ℚ) : Prop :=
  (∀ i, data i =
    if b ≤ i ∧ i < b + k ∧ isEmpty (i - b) = false then val (i - b) else data0 i) ∧
  (∀ l, l < k → isEmpty l = false → mn ≤ val l ∧ val l ≤ mx) ∧
  ((∀ l, l < k → |val l| ≤ huge) → (∃ l, l < k ∧ isEmpty l = false) →
    ∃ i j, i < k ∧ j < k ∧ isEmpty i = false ∧ isEmpty j = false ∧
      mn = val i ∧ mx = val j) ∧
  ((¬ ∃ l, l < k ∧ isEmpty l = false) → mn = huge ∧ mx = -huge)

/-- Invariant of the loop over frames of the pass started in the state `st`, before frame
`k` is processed: the bin counters count the frames, and each axis satisfies `AxisInv`. -/
def PassInv {Pix : Type} (P : Prims Pix) (prm : Params Pix) (st : LoopState Pix) (k : Nat)
    (ps : PassState Pix) : Prop :=
  ps.iMedian * prm.medianRebin + ps.iBin = k ∧ ps.iBin < prm.medianRebin ∧
  AxisInv prm.isEmpty st.base st.xData
    (fun l => (P.estimateShift (prm.imgStack l) st.imgRef).1) k
    ps.xData ps.minXShift ps.maxXShift ∧
  AxisInv prm.isEmpty st.base st.yData
    (fun l => (P.estimateShift (prm.imgStack l) st.imgRef).2) k
    ps.yData ps.minYShift ps.maxYShift

/-- The shifts stored in column `k` (pass `k + 1`) of the shift data for the non-empty
frames span a range symmetric about zero: their minimum (at frame `i`) and their maximum
(at frame `j`) add up to 0. -/
def SymmetricSpan (isEmpty : Nat → Bool) (numFrames : Nat) (data : Nat → ℚ) (k : Nat) :
    Prop :=
  ∃ i j, i < numFrames ∧ j < numFrames ∧ isEmpty i = false ∧ isEmpty j = false ∧
    (∀ l, l < numFrames → isEmpty l = false →
      data (k * numFrames + i) ≤ data (k * numFrames + l) ∧
      data (k * numFrames + l) ≤ data (k * numFrames + j)) ∧
    data (k * numFrames + i) + data (k * numFrames + j) = 0

/-! ## Fill value (motionCorrect.cpp, lines 166-188 and 386-403) -/

/-- Line 166: the argument counts `nrhs`, `nlhs` with which the function does not stop
with the usage error. -/
def argsAccepted (nrhs nlhs : Int) : Bool :=
  !(decide (nrhs < 3) || decide (nrhs > 13) || decide (nlhs < 1) || decide (nlhs > 2))

/-- Line 186: `usrEmptyValue = (nrhs > 12 ? mxGetScalar(prhs[12]) : 0.)`; `prhs12` is the
value of the 13th argument. -/
def usrEmptyValue (nrhs : Int) (prhs12 : ℚ) : ℚ := if nrhs > 12 then prhs12 else 0

/-- Line 187: `emptyIsMean = (nrhs <= 13)`. -/
def emptyIsMean (nrhs : Int) : Bool := decide (nrhs ≤ 13)

/-- Lines 385-403: `emptyValue(emptyIsMean ? inputStats.getMean() : usrEmptyValue)`.
The statistics `inputStats` are accumulated over the stack only when `displayProgress ||
emptyIsMean`; `stackMean` is the mean they then hold (the global mean intensity of the
input stack) and `unsetMean` the mean of statistics that were never filled. -/
def emptyValueOf (nrhs : Int) (displayProgress : Bool) (stackMean unsetMean prhs12 : ℚ) :
    ℚ :=
  let statsMean := if displayProgress || emptyIsMean nrhs then stackMean else unsetMean
  if emptyIsMean nrhs then statsMean else usrEmptyValue nrhs prhs12

/-! ## Sub-pixel peak fit (motionCorrect.cpp, lines 503-523)

The `double` values of the fit are exact numbers of an ordered field extended with
not-a-number and the two infinities (`FVal`); operations follow IEEE 754 except that
results are not rounded and the sign of a zero is not tracked (a non-zero number divided
by zero takes the sign of the numerator). -/

/-- A `double`: not-a-number, an infinity, or a finite number. -/
inductive FVal (K : Type) where
  | nan : FVal K
  | inf (positive : Bool) : FVal K
  | fin (x : K) : FVal K
deriving DecidableEq

/-- Unary minus. -/
def FVal.neg {K : Type} [LinearOrderedField K] : FVal K → FVal K
  | .nan => .nan
  | .inf p => .inf (!p)
  | .fin x => .fin (-x)

/-- Addition. -/
def FVal.add {K : Type} [LinearOrderedField K] : FVal K → FVal K → FVal K
  | .nan, _ => .nan
  | _, .nan => .nan
  | .inf p, .inf q => if p = q then .inf p else .nan
  | .inf p, .fin _ => .inf p
  | .fin _, .inf q => .inf q
  | .fin x, .fin y => .fin (x + y)

/-- Subtraction. -/
def FVal.sub {K : Type} [LinearOrderedField K] (a b : FVal K) : FVal K := a.add b.neg

/-- Multiplication. -/
def FVal.mul {K : Type} [LinearOrderedField K] : FVal K → FVal K → FVal K
  | .nan, _ => .nan
  | _, .nan => .nan
  | .inf p, .inf q => .inf (p == q)
  | .inf p, .fin y => if y = 0 then .nan else .inf (p == decide (0 < y))
  | .fin x, .inf q => if x = 0 then .nan else .inf (decide (0 < x) == q)
  | .fin x, .fin y => .fin (x * y)

/-- Division. -/
def FVal.div {K : Type} [LinearOrderedField K] : FVal K → FVal K → FVal K
  | .nan, _ => .nan
  | _, .nan => .nan
  | .inf _, .inf _ => .nan
  | .inf p, .fin y => .inf (p == decide (0 ≤ y))
  | .fin _, .inf _ => .fin 0
  | .fin x, .fin y =>
    if y = 0 then (if x = 0 then .nan else .inf (decide (0 < x))) else .fin (x / y)

/-- The comparison `a != b` of two `double`s: true as soon as one of them is
not-a-number. -/
def FVal.ne {K : Type} [LinearOrderedField K] : FVal K → FVal K → Bool
  | .nan, _ => true
  | _, .nan => true
  | .inf p, .inf q => p != q
  | .inf _, .fin _ => true
  | .fin _, .inf _ => true
  | .fin x, .fin y => decide (x ≠ y)

/-- Lines 518-519: `( lnA - lnB ) / ( 2 * lnA - 4 * ln11 + 2 * lnB )`. -/
def gaussPeak {K : Type} [LinearOrderedField K] (lnA ln11 lnB : FVal K) : FVal K :=
  (lnA.sub lnB).div
    ((((FVal.fin 2).mul lnA).sub ((FVal.fin 4).mul ln11)).add ((FVal.fin 2).mul lnB))

/-- Lines 520-521: `if (peak != peak) peak = 0`. -/
def zeroIfNaN {K : Type} [LinearOrderedField K] (peak : FVal K) : FVal K :=
  if peak.ne peak then .fin 0 else peak

/-- Lines 506-518: the value of `xPeak` before the test of line 520.  `ln` stands for
`log` applied to a cell of the surface; the cell left of the optimum exists when
`optimum.x > 0` and the cell right of it when `optimum.x < metric.cols - 1`. -/
def xPeakRaw {α K : Type} [LinearOrderedField K] (ln : α → FVal K) (metric : Mat α)
    (optimum : Point) : FVal K :=
  let ln10 := if optimum.x > 0 then ln (metric.px optimum.y (optimum.x - 1)) else .nan
  let ln11 := ln (metric.px optimum.y optimum.x)
  let ln12 := if (optimum.x : Int) < (metric.cols : Int) - 1 then
    ln (metric.px optimum.y (optimum.x + 1)) else .nan
  gaussPeak ln10 ln11 ln12

/-- Lines 506-519: the value of `yPeak` before the test of line 521; `row0` exists when
`optimum.y > 0` and `row2` when `optimum.y < metric.rows - 1`. -/
def yPeakRaw {α K : Type} [LinearOrderedField K] (ln : α → FVal K) (metric : Mat α)
    (optimum : Point) : FVal K :=
  let ln11 := ln (metric.px optimum.y optimum.x)
  let ln01 := if optimum.y > 0 then ln (metric.px (optimum.y - 1) optimum.x) else .nan
  let ln21 := if (optimum.y : Int) < (metric.rows : Int) - 1 then
    ln (metric.px (optimum.y + 1) optimum.x) else .nan
  gaussPeak ln01 ln11 ln21

/-- Line 520: the value of `xPeak` used for the shift. -/
def xPeakOf {α K : Type} [LinearOrderedField K] (ln : α → FVal K) (metric : Mat α)
    (optimum : Point) : FVal K :=
  zeroIfNaN (xPeakRaw ln metric optimum)

/-- Line 521: the value of `yPeak` used for the shift. -/
def yPeakOf {α K : Type} [LinearOrderedField K] (ln : α → FVal K) (metric : Mat α)
    (optimum : Point) : FVal K :=
  zeroIfNaN (yPeakRaw ln metric optimum)

/-- Lines 522-523: `(colShift, rowShift)` in sub-pixel mode,
`colShift = -( optimum.x - firstRefCol + xPeak )` and
`rowShift = -( optimum.y - firstRefRow + yPeak )`. -/
def subPixelShift {α K : Type} [LinearOrderedField K] (ln : α → FVal K) (metric : Mat α)
    (optimum : Point) (firstRefCol firstRefRow : Int) : FVal K × FVal K :=
  (((FVal.fin ((((optimum.x : Int) - firstRefCol : Int) : K))).add
      (xPeakOf ln metric optimum)).neg,
   ((FVal.fin ((((optimum.y : Int) - firstRefRow : Int) : K))).add
      (yPeakOf ln metric optimum)).neg)

/-- Lines 534-535: `(colShift, rowShift)` in integer-only mode. -/
def integerShift (optimum : Point) (firstRefCol firstRefRow : Int) : Int × Int :=
  (-((optimum.x : Int) - firstRefCol), -((optimum.y : Int) - firstRefRow))

/-- The fitted peak of lines 518-519 on finite values, as a number:
`(lm - lp) / (2*lm - 4*l0 + 2*lp)`. -/
def peakFormula {K : Type} [LinearOrderedField K] (lm l0 lp : K) : K :=
  (lm - lp) / (2 * lm - 4 * l0 + 2 * lp)

/-! ## Frame subsampling (motionCorrect.cpp, lines 240-246) -/

/-- Conversion of a C `int` to `size_t`, as in the comparison `iInput < imgStack.size()`
and in the index of `imgStack[iInput]`. -/
def toSizeT (x : Int) : Int := x % 18446744073709551616

/-- Lines 243-244: `for (int iInput = firstFrame; iInput < imgStack.size();
iInput += 1 + skipFrames, ++iOutput) imgStack[iOutput] = imgStack[iInput];` on the state
`(imgStack, iInput, iOutput)`.  The accesses are checked: an index outside the vector
aborts (`none`). -/
def subsampleLoop {α : Type} (skipFrames : Int) :
    Nat → List α → Int → Nat → Option (List α × Nat)
  | 0, _, _, _ => none
  | fuel + 1, imgStack, iInput, iOutput =>
    if toSizeT iInput < imgStack.length then
      (imgStack.get? (toSizeT iInput).toNat).bind fun frame =>
        if iOutput < imgStack.length then
          subsampleLoop skipFrames fuel (imgStack.set iOutput frame)
            (wrap32 (iInput + wrap32 (1 + skipFrames))) (iOutput + 1)
        else none
    else some (imgStack, iOutput)

/-- Lines 242-245: the subsampling of a loaded stack, ending with
`imgStack.resize(iOutput)`. -/
def subsampleFrames {α : Type} (imgStack : List α) (firstFrame skipFrames : Int) :
    Option (List α) :=
  (subsampleLoop skipFrames (imgStack.length + 1) imgStack firstFrame 0).map
    fun r => r.1.take r.2

/-- One axis after the centering step of a pass: `val l` is the shift estimated for frame
`l`, `mid` the running offset and `data` the shift data, whose current column starts at
`base`.  The offset is the midpoint of the smallest (frame `i`) and the largest (frame
`j`) estimate of the non-empty frames, every non-empty frame stores its estimate minus
the offset, and the stored minimum and maximum add up to 0. -/
def RecentredAxis (isEmpty : Nat → Bool) (numFrames base : Nat) (val : Nat → ℚ)
    (mid : ℚ) (data : Nat → ℚ) : Prop :=
  ∃ i j, i < numFrames ∧ j < numFrames ∧ isEmpty i = false ∧ isEmpty j = false ∧
    (∀ l, l < numFrames → isEmpty l = false → val i ≤ val l ∧ val l ≤ val j) ∧
    mid = (val i + val j) / 2 ∧
    (∀ l, l < numFrames → isEmpty l = false → data (base + l) = val l - mid) ∧
    (∀ l, l < numFrames → isEmpty l = false →
      data (base + i) ≤ data (base + l) ∧ data (base + l) ≤ data (base + j)) ∧
    data (base + i) + data (base + j) = 0

/-! ## Group images of a pass (for lines 365-380, 426-430 and 557-570) -/

/-- The corrected frame `frmShifted` of frame `i` in the pass started in the loop state
`st`: what lines 501-537 produce for that frame, in the state the loop over frames has
reached before it. -/
def frmShiftedAt {Pix : Type} (P : Prims Pix) (prm : Params Pix) (st : LoopState Pix)
    (iPrev i : Nat) : Mat Pix :=
  match forLoop (frameStep P prm st.imgRef st.base iPrev) i (passStart st) with
  | some ps =>
    match correctFrame P prm ps (prm.imgStack i)
        (P.estimateShift (prm.imgStack i) st.imgRef).1
        (P.estimateShift (prm.imgStack i) st.imgRef).2 with
    | some r => r.2.2
    | none => constImage prm P.zero
  | none => constImage prm P.zero

/-- Whether frame `k` is a non-empty member of the group `grp`, the group of the frames
`i` with `floor(i / medianRebin) = grp`. -/
def memberOf {Pix : Type} (prm : Params Pix) (grp k : Nat) : Bool :=
  decide (k / prm.medianRebin = grp) && !prm.isEmpty k

/-- Sum of the images `F i` over the non-empty members `i < k` of the group `grp`, added
in the order of the frames with `AddImage32`; `none` when there is no such member. -/
def groupSum {Pix : Type} (P : Prims Pix) (prm : Params Pix) (F : Nat → Mat Pix)
    (grp : Nat) : Nat → Option (Mat Pix)
  | 0 => none
  | k + 1 =>
    if memberOf prm grp k then
      some (match groupSum P prm F grp k with
        | none => F k
        | some a => P.AddImage32 (F k) a)
    else groupSum P prm F grp k

/-- Number of non-empty members `i < k` of the group `grp`. -/
def groupCount {Pix : Type} (prm : Params Pix) (grp : Nat) : Nat → Nat
  | 0 => 0
  | k + 1 => groupCount prm grp k + (if memberOf prm grp k then 1 else 0)

/-- Invariant of the loop over frames for the group images, before frame `k` is
processed: the images of the groups are the sums over the non-empty members processed so
far, or the images from the start of the pass where there is no such member, and
`isFirst` tells whether the current group has had a non-empty member. -/
def GroupInv {Pix : Type} (P : Prims Pix) (prm : Params Pix) (st : LoopState Pix)
    (iPrev k : Nat) (ps : PassState Pix) : Prop :=
  forLoop (frameStep P prm st.imgRef st.base iPrev) k (passStart st) = some ps ∧
  ps.imgShifted.length = prm.numMedian ∧
  (∀ grp, grp < prm.numMedian →
    ps.imgShifted.getD grp (constImage prm P.zero) =
      (groupSum P prm (frmShiftedAt P prm st iPrev) grp k).getD
        (st.imgShifted.getD grp (constImage prm P.zero))) ∧
  (ps.isFirst = true ↔
    groupSum P prm (frmShiftedAt P prm st iPrev) (k / prm.medianRebin) k = none)

/-- The weight of lines 366-378 for a group with `count` non-empty members: `1 / count`,
and 1 for a group without non-empty member. -/
def groupWeight (count : Nat) : ℚ := if count = 0 then 1 else 1 / (count : ℚ)

/-- Invariant of the loop of lines 367-380 before the group `i` is set up, on the state
`(iFrame, imgShifted, medWeight)`: the frame counter has passed the groups below `i`, these
groups have their weight, those without non-empty member are filled with not-a-number,
and the other weights are still 1. -/
def InitInv {Pix : Type} (P : Prims Pix) (prm : Params Pix) (i : Nat)
    (s : Nat × List (Mat Pix) × List ℚ) : Prop :=
  s.1 = min (i * prm.medianRebin) prm.numFrames ∧ s.2.1.length = prm.numMedian ∧
  s.2.2.length = prm.numMedian ∧
  ∀ grp, grp < prm.numMedian →
    (grp < i → s.2.2.getD grp 1 = groupWeight (groupCount prm grp prm.numFrames) ∧
      (groupCount prm grp prm.numFrames = 0 →
        s.2.1.getD grp (constImage prm P.zero) = constImage prm P.nan)) ∧
    (i ≤ grp → s.2.2.getD grp 1 = 1)

/-- Invariant of the loop over iterations for the groups without non-empty member, with
the weights `w`: there are `numMedian` group images, and every such group has the weight 1
and an image filled with not-a-number. -/
def EmptyGroupsInv {Pix : Type} (P : Prims Pix) (prm : Params Pix) (w : List ℚ)
    (st : LoopState Pix) : Prop :=
  st.imgShifted.length = prm.numMedian ∧
  ∀ grp, grp < prm.numMedian → groupCount prm grp prm.numFrames = 0 →
    w.getD grp 1 = 1 ∧ st.imgShifted.getD grp (constImage prm P.zero) = constImage prm P.nan

/-! ## Sample data -/

/-- A 2 x 3 image with the pixels 11 12 13 / 21 22 23. -/
def sampleImage : Mat Int := ⟨2, 3, fun r c => 10 * (r + 1) + (c + 1)⟩

/-- A 2 x 3 buffer of zeros. -/
def sampleBuffer : Mat Int := ⟨2, 3, fun _ _ => 0⟩

/-- A 5 x 5 metric surface whose global maximum 10 sits in the corner cell (0, 0), with
a local maximum 5 at the cell (2, 2) and 0 everywhere else. -/
def cornerPeak : Mat Int :=
  ⟨5, 5, fun r c => if r = 0 ∧ c = 0 then 10 else if r = 2 ∧ c = 2 then 5 else 0⟩

/-- A 3 x 3 metric surface with the value 10 at the centre cell (1, 1) and 0 elsewhere. -/
def centrePeak : Mat Int := ⟨3, 3, fun r c => if r = 1 ∧ c = 1 then 10 else 0⟩

/-- Column of the largest pixel of row 0 among the columns below `n` (the first one on
ties). -/
def peakCol (m : Mat ℚ) : Nat → Nat
  | 0 => 0
  | n + 1 => if m.px 0 (peakCol m n) < m.px 0 n then n else peakCol m n

/-- Per-pixel median of a list of values (the lower median on an even count). -/
def medianOf (vals : List ℚ) : ℚ :=
  (vals.insertionSort (· ≤ ·)).getD ((vals.length - 1) / 2) 0

/-- Concrete operations for the sample runs: pixels are rationals, images are added and
scaled pixel by pixel, the median is the per-pixel median, a translation copies whole
pixels, and the estimated shift of a frame is the column offset that moves its brightest
pixel of row 0 onto that of the reference, limited to a search radius of 2 pixels.  The
sample runs have no group without a
non-empty frame, so the stand-in `-1` for the not-a-number pixel never occurs in them. -/
def samplePrims : Prims ℚ :=
  { zero := 0
    nan := -1
    MedianVecMat32 := fun l =>
      ⟨(l.headD ⟨0, 0, fun _ _ => 0⟩).rows, (l.headD ⟨0, 0, fun _ _ => 0⟩).cols,
        fun r c => medianOf (l.map fun m => m.px r c)⟩
    AddImage32 := fun src dst => ⟨dst.rows, dst.cols, fun r c => dst.px r c + src.px r c⟩
    scale := fun img w => ⟨img.rows, img.cols, fun r c => img.px r c * w⟩
    warpAffine := fun src tx ty fill =>
      ⟨src.rows, src.cols, fun r c => shiftedPixel src (cvRound ty) (cvRound tx) fill r c⟩
    estimateShift := fun frmInput imgRef =>
      (max (-2) (min 2
        (((peakCol imgRef imgRef.cols : Nat) : ℚ) - ((peakCol frmInput frmInput.cols : Nat) : ℚ))),
        0) }

/-- A 1 x 5 frame with the single bright pixel `v` at column `p` and 0 elsewhere. -/
def spot (p : Nat) (v : ℚ) : Mat ℚ := ⟨1, 5, fun _ c => if c = p then v else 0⟩

/-- A run on one frame: integer-only mode, no template, no centering, two iterations. -/
def sampleRun : Params ℚ :=
  { maxIter := 2
    stopBelowShift := 0
    medianRebin := 1
    centerShiftsArg := false
    subPixelReg := false
    emptyValue := 0
    numFrames := 1
    imgStack := fun _ => spot 2 9
    isEmpty := fun _ => false
    refStack := [] }

/-- A run on three non-empty frames, the third being the first translated by two
columns: integer-only mode, centering enabled, one iteration. -/
def centredRun : Params ℚ :=
  { maxIter := 1
    stopBelowShift := 0
    medianRebin := 1
    centerShiftsArg := true
    subPixelReg := false
    emptyValue := 0
    numFrames := 3
    imgStack := fun i => if i = 2 then spot 3 9 else spot 1 9
    isEmpty := fun _ => false
    refStack := [] }

/-- A run on four frames in one group of four, the first frame flagged empty, the fourth
being the second translated by two columns: integer-only mode, centering enabled, one
iteration. -/
def emptyFrameRun : Params ℚ :=
  { maxIter := 1
    stopBelowShift := 0
    medianRebin := 4
    centerShiftsArg := true
    subPixelReg := false
    emptyValue := 0
    numFrames := 4
    imgStack := fun i => if i = 0 then spot 0 0 else if i = 3 then spot 3 9 else spot 1 9
    isEmpty := fun i => decide (i = 0)
    refStack := [] }

/-- A run on one frame with an external template whose bright pixel is two columns to the
left of the frame's and has another value: integer-only mode, `maxIter` iterations. -/
def templateRun (maxIter : Int) : Params ℚ :=
  { maxIter := maxIter
    stopBelowShift := 0
    medianRebin := 1
    centerShiftsArg := false
    subPixelReg := false
    emptyValue := 0
    numFrames := 1
    imgStack := fun _ => spot 3 9
    isEmpty := fun _ => false
    refStack := [spot 1 5] }

/-- The pixels of row 0 of a 1 x 5 image. -/
def row0 (m : Mat ℚ) : List ℚ := (List.range 5).map fun c => m.px 0 c

/-- A stand-in for `log` on integer cells in the sample surfaces: defined (here as the
identity) on positive cells, not-a-number on the others. -/
def sampleLn (v : Int) : FVal ℚ := if 0 < v then .fin (v : ℚ) else .nan


/-- A run on four frames in groups of two, the last two frames flagged empty, so that the
second group has no non-empty member; the second frame is the first translated by two
columns: integer-only mode, no template, no centering, one iteration. -/
def emptyGroupRun : Params ℚ :=
  { maxIter := 1
    stopBelowShift := 0
    medianRebin := 2
    centerShiftsArg := false
    subPixelReg := false
    emptyValue := 0
    numFrames := 4
    imgStack := fun i => if i = 1 then spot 3 9 else spot 1 9
    isEmpty := fun i => decide (2 ≤ i)
    refStack := [] }

/-- A loop state of `emptyGroupRun` before a pass, with one image per group. -/
def emptyGroupState : LoopState ℚ :=
  loopStart samplePrims emptyGroupRun
    [spot 1 9, constImage emptyGroupRun samplePrims.nan]
/-! # Theorems -/

/-! ## Lemmas on `CopyShiftedImage32` -/

theorem Mat.write_eq {α : Type} (m : Mat α) (r c : Nat) (v : α)
    (hr : r < m.rows) (hc : c < m.cols) :
    m.write r c v =
      some { m with px := fun i j => if i = r ∧ j = c then v else m.px i j } := by
  unfold Mat.write
  rw [if_pos]
  · simp
  · omega

theorem Mat.read_eq {α : Type} (m : Mat α) (r c : Int)
    (hr : 0 ≤ r ∧ r < m.rows) (hc : 0 ≤ c ∧ c < m.cols) :
    m.read r c = some (m.px r.toNat c.toNat) := by
  unfold Mat.read
  rw [if_pos]
  omega

theorem RowInv.step {α : Type} {t0 t : Mat α} {tRow : Nat} {spec : Nat → α} {c : Nat}
    (h : RowInv t0 t tRow spec c) (v : α) (hv : spec c = v) :
    RowInv t0 { t with px := fun i j => if i = tRow ∧ j = c then v else t.px i j }
      tRow spec ((c : Int) + 1) := by
  obtain ⟨h1, h2, h3, h4⟩ := h
  refine ⟨h1, h2, ?_, ?_⟩
  · intro r c' hr
    simp [hr, h3 r c' hr]
  · intro c' hc'
    by_cases hcc : c' = c
    · subst hcc
      simp [hv]
    · have : (c' : Int) < c := by omega
      simp [hcc, h4 c' this]

theorem fillCols_spec {α : Type} (emptyValue : α) (t0 : Mat α) (tRow : Nat)
    (spec : Nat → α) (htRow : tRow < t0.rows) :
    ∀ (fuel : Nat) (t : Mat α) (tCol : Nat), tCol ≤ t0.cols → t0.cols - tCol < fuel →
      RowInv t0 t tRow spec tCol →
      (∀ c : Nat, tCol ≤ c → c < t0.cols → spec c = emptyValue) →
      ∃ t1, fillCols emptyValue tRow fuel t tCol = some t1 ∧
        RowInv t0 t1 tRow spec t0.cols := by
  intro fuel
  induction fuel with
  | zero => intro t tCol _ h; omega
  | succ n ih =>
    intro t tCol hle hfuel hinv hspec
    unfold fillCols
    by_cases hlt : tCol < t0.cols
    · have hc : ((tCol : Int) < (t.cols : Int)) := by rw [hinv.2.1]; omega
      rw [if_pos hc, Mat.write_eq t tRow tCol emptyValue (by rw [hinv.1]; exact htRow)
        (by rw [hinv.2.1]; exact hlt)]
      simp only [Option.some_bind]
      have := ih _ (tCol + 1) (by omega) (by omega)
        (by simpa using hinv.step emptyValue (hspec tCol (le_refl _) hlt))
        (fun c h1 h2 => hspec c (by omega) h2)
      simpa using this
    · have hc : ¬ ((tCol : Int) < (t.cols : Int)) := by rw [hinv.2.1]; omega
      rw [if_neg hc]
      have : tCol = t0.cols := by omega
      exact ⟨t, rfl, by simpa [this] using hinv⟩

theorem colsBefore_spec {α : Type} (emptyValue : α) (t0 : Mat α) (tRow : Nat)
    (spec : Nat → α) (e : Int) (htRow : tRow < t0.rows)
    (hspec : ∀ c : Nat, c < t0.cols → (c : Int) + e < 0 → spec c = emptyValue) :
    ∀ (fuel : Nat) (t : Mat α) (tCol : Nat), tCol ≤ t0.cols → t0.cols - tCol < fuel →
      RowInv t0 t tRow spec tCol →
      ∃ (t1 : Mat α) (tCol1 : Nat),
        colsBefore emptyValue tRow fuel t tCol ((tCol : Int) + e)
          = some (t1, (tCol1 : Int), (tCol1 : Int) + e) ∧
        RowInv t0 t1 tRow spec tCol1 ∧ tCol1 ≤ t0.cols ∧
        (0 ≤ (tCol1 : Int) + e ∨ tCol1 = t0.cols) := by
  intro fuel
  induction fuel with
  | zero => intro t tCol _ h; omega
  | succ n ih =>
    intro t tCol hle hfuel hinv
    unfold colsBefore
    by_cases hcond : (tCol : Int) + e < 0 ∧ tCol < t0.cols
    · have hc : ((tCol : Int) + e < 0 ∧ (tCol : Int) < (t.cols : Int)) := by
        rw [hinv.2.1]; omega
      rw [if_pos hc, Mat.write_eq t tRow tCol emptyValue (by rw [hinv.1]; exact htRow)
        (by rw [hinv.2.1]; exact hcond.2)]
      simp only [Option.some_bind]
      obtain ⟨t1, tCol1, h1, h2, h3, h4⟩ := ih _ (tCol + 1) (by omega) (by omega)
        (by simpa using hinv.step emptyValue (hspec tCol hcond.2 hcond.1))
      refine ⟨t1, tCol1, ?_, h2, h3, h4⟩
      rw [← h1]
      congr 1
      push_cast
      ring
    · have hc : ¬ ((tCol : Int) + e < 0 ∧ (tCol : Int) < (t.cols : Int)) := by
        rw [hinv.2.1]; omega
      rw [if_neg hc]
      exact ⟨t, tCol, rfl, hinv, hle, by omega⟩

theorem colsInside_spec {α : Type} (source : Mat α) (sRow : Int) (t0 : Mat α) (tRow : Nat)
    (spec : Nat → α) (e : Int) (htRow : tRow < t0.rows)
    (hsRow : 0 ≤ sRow ∧ sRow < source.rows)
    (hspec : ∀ c : Nat, c < t0.cols → 0 ≤ (c : Int) + e → (c : Int) + e < source.cols →
      spec c = source.px sRow.toNat ((c : Int) + e).toNat) :
    ∀ (fuel : Nat) (t : Mat α) (tCol : Nat), tCol ≤ t0.cols → t0.cols - tCol < fuel →
      RowInv t0 t tRow spec tCol → (0 ≤ (tCol : Int) + e ∨ tCol = t0.cols) →
      ∃ (t1 : Mat α) (tCol1 : Nat),
        colsInside source sRow tRow fuel t tCol ((tCol : Int) + e)
          = some (t1, (tCol1 : Int), (tCol1 : Int) + e) ∧
        RowInv t0 t1 tRow spec tCol1 ∧ tCol1 ≤ t0.cols ∧
        ((source.cols : Int) ≤ (tCol1 : Int) + e ∨ tCol1 = t0.cols) := by
  intro fuel
  induction fuel with
  | zero => intro t tCol _ h; omega
  | succ n ih =>
    intro t tCol hle hfuel hinv hpre
    unfold colsInside
    by_cases hcond : (tCol : Int) + e < source.cols ∧ tCol < t0.cols
    · have hc : ((tCol : Int) + e < (source.cols : Int) ∧ (tCol : Int) < (t.cols : Int)) := by
        rw [hinv.2.1]; omega
      have hnn : 0 ≤ (tCol : Int) + e := by omega
      rw [if_pos hc, Mat.read_eq source sRow _ hsRow ⟨hnn, hcond.1⟩]
      simp only [Option.some_bind]
      rw [Mat.write_eq t tRow tCol _ (by rw [hinv.1]; exact htRow)
        (by rw [hinv.2.1]; exact hcond.2)]
      simp only [Option.some_bind]
      obtain ⟨t1, tCol1, h1, h2, h3, h4⟩ := ih _ (tCol + 1) (by omega) (by omega)
        (by simpa using hinv.step _ (hspec tCol hcond.2 hnn hcond.1)) (by omega)
      refine ⟨t1, tCol1, ?_, h2, h3, h4⟩
      rw [← h1]
      congr 1
      push_cast
      ring
    · have hc : ¬ ((tCol : Int) + e < (source.cols : Int) ∧ (tCol : Int) < (t.cols : Int)) := by
        rw [hinv.2.1]; omega
      rw [if_neg hc]
      exact ⟨t, tCol, rfl, hinv, hle, by omega⟩

theorem shiftRow_wrapped {α : Type} (source t : Mat α) (dRow dCol : Int) (emptyValue : α)
    (tRow : Nat) (htRow : tRow < t.rows) :
    ∃ t1, shiftRow source dRow dCol emptyValue t tRow = some t1 ∧
      RowInv t t1 tRow (wrappedPixel source dRow dCol emptyValue tRow) t.cols := by
  have hinit : RowInv t t tRow (wrappedPixel source dRow dCol emptyValue tRow)
      ((0 : Nat) : Int) := ⟨rfl, rfl, fun _ _ _ => rfl, fun c hc => by omega⟩
  unfold shiftRow
  by_cases hrow : wrap32 ((tRow : Int) - dRow) < 0 ∨
      wrap32 ((tRow : Int) - dRow) ≥ (source.rows : Int)
  · simp only [hrow, if_true]
    have := fillCols_spec emptyValue t tRow (wrappedPixel source dRow dCol emptyValue tRow)
      htRow (t.cols + 1) t 0 (by omega) (by omega) hinit
      (fun c _ _ => by
        unfold wrappedPixel
        rw [if_neg]
        omega)
    simpa using this
  · simp only [hrow, if_false]
    have hin : 0 ≤ wrap32 ((tRow : Int) - dRow) ∧
        wrap32 ((tRow : Int) - dRow) < source.rows := by omega
    obtain ⟨t1, c1, e1, i1, l1, p1⟩ := colsBefore_spec emptyValue t tRow
      (wrappedPixel source dRow dCol emptyValue tRow) (wrap32 (-dCol)) htRow
      (fun c hc hneg => by
        unfold wrappedPixel
        rw [if_neg]
        omega)
      (t.cols + 1) t 0 (by omega) (by omega) hinit
    obtain ⟨t2, c2, e2, i2, l2, p2⟩ := colsInside_spec source (wrap32 ((tRow : Int) - dRow))
      t tRow (wrappedPixel source dRow dCol emptyValue tRow) (wrap32 (-dCol)) htRow hin
      (fun c hc h0 h1 => by
        unfold wrappedPixel
        rw [if_pos ⟨hin.1, hin.2, h0, h1⟩])
      (t.cols + 1) t1 c1 l1 (by omega) i1 p1
    obtain ⟨t3, e3, i3⟩ := fillCols_spec emptyValue t tRow
      (wrappedPixel source dRow dCol emptyValue tRow) htRow (t.cols + 1) t2 c2 l2 (by omega) i2
      (fun c h1 h2 => by
        unfold wrappedPixel
        rw [if_neg]
        omega)
    refine ⟨t3, ?_, i3⟩
    simp only [Nat.cast_zero, zero_add] at e1
    rw [e1]
    simp only [Option.some_bind]
    rw [e2]
    simp only [Option.some_bind]
    rw [e3]

theorem shiftRows_wrapped {α : Type} (source t0 : Mat α) (dRow dCol : Int)
    (emptyValue : α) :
    ∀ (fuel : Nat) (t : Mat α) (tRow : Nat), tRow ≤ t0.rows → t0.rows - tRow < fuel →
      t.rows = t0.rows → t.cols = t0.cols →
      (∀ r c, r < tRow → c < t0.cols →
        t.px r c = wrappedPixel source dRow dCol emptyValue r c) →
      ∃ t1, shiftRows source dRow dCol emptyValue fuel t tRow = some t1 ∧
        t1.rows = t0.rows ∧ t1.cols = t0.cols ∧
        ∀ r c, r < t0.rows → c < t0.cols →
          t1.px r c = wrappedPixel source dRow dCol emptyValue r c := by
  intro fuel
  induction fuel with
  | zero => intro t tRow _ h; omega
  | succ n ih =>
    intro t tRow hle hfuel hrows hcols hdone
    unfold shiftRows
    by_cases hlt : tRow < t0.rows
    · have hc : ((tRow : Int) < (t.rows : Int)) := by rw [hrows]; omega
      rw [if_pos hc]
      obtain ⟨t1, e1, i1⟩ := shiftRow_wrapped source t dRow dCol emptyValue tRow
        (by rw [hrows]; exact hlt)
      rw [e1]
      simp only [Option.some_bind]
      have := ih t1 (tRow + 1) (by omega) (by omega) (by rw [i1.1, hrows])
        (by rw [i1.2.1, hcols])
        (fun r c hr hcc => by
          by_cases hrr : r = tRow
          · subst hrr
            exact i1.2.2.2 c (by rw [hcols]; exact_mod_cast hcc)
          · rw [i1.2.2.1 r c hrr]
            exact hdone r c (by omega) hcc)
      simpa using this
    · have hc : ¬ ((tRow : Int) < (t.rows : Int)) := by rw [hrows]; omega
      rw [if_neg hc]
      have : tRow = t0.rows := by omega
      exact ⟨t, rfl, hrows, hcols, fun r c hr hcc => hdone r c (by omega) hcc⟩

/-- Totality: `CopyShiftedImage32` always returns, whatever the sizes and the shifts: the target
keeps its size and every target pixel is the `wrappedPixel` of the rounded shifts. -/
theorem CopyShiftedImage32_wrapped {α : Type} (target source : Mat α)
    (deltaRows deltaCols : ℚ) (emptyValue : α) :
    ∃ t, CopyShiftedImage32 target source deltaRows deltaCols emptyValue = some t ∧
      t.rows = target.rows ∧ t.cols = target.cols ∧
      ∀ r c, r < target.rows → c < target.cols →
        t.px r c =
          wrappedPixel source (cvRound deltaRows) (cvRound deltaCols) emptyValue r c := by
  have := shiftRows_wrapped source target (cvRound deltaRows) (cvRound deltaCols) emptyValue
    (target.rows + 1) target 0 (by omega) (by omega) rfl rfl
    (fun r c hr _ => by omega)
  simpa [CopyShiftedImage32] using this

theorem wrappedPixel_eq_shiftedPixel {α : Type} (source : Mat α) (dRow dCol : Int)
    (emptyValue : α) (r c : Nat)
    (hRi : source.rows < 2147483648) (hCi : source.cols < 2147483648)
    (hr : r < 2147483648) (hc : c < 2147483648)
    (hdR : -2147483648 ≤ dRow ∧ dRow < 2147483648)
    (hdC : -2147483648 ≤ dCol ∧ dCol < 2147483648) :
    wrappedPixel source dRow dCol emptyValue r c
      = shiftedPixel source dRow dCol emptyValue r c := by
  unfold wrappedPixel shiftedPixel
  by_cases hin : 0 ≤ (r : Int) - dRow ∧ (r : Int) - dRow < source.rows ∧
      0 ≤ (c : Int) - dCol ∧ (c : Int) - dCol < source.cols
  · have h1 : wrap32 ((r : Int) - dRow) = (r : Int) - dRow := by unfold wrap32; omega
    have h2 : (c : Int) + wrap32 (-dCol) = (c : Int) - dCol := by unfold wrap32; omega
    rw [h1, h2, if_pos hin]
  · rw [if_neg hin, if_neg]
    unfold wrap32
    omega

/-- Summary of `CopyShiftedImage32` for sizes and rounded shifts that are C `int` values:
the call returns and every target pixel is the `shiftedPixel` of the rounded shifts. -/
theorem CopyShiftedImage32_shiftedPixel {α : Type} (target source : Mat α)
    (deltaRows deltaCols : ℚ) (emptyValue : α)
    (hR : target.rows = source.rows) (hC : target.cols = source.cols)
    (hRi : source.rows < 2147483648) (hCi : source.cols < 2147483648)
    (hdR : -2147483648 ≤ cvRound deltaRows ∧ cvRound deltaRows < 2147483648)
    (hdC : -2147483648 ≤ cvRound deltaCols ∧ cvRound deltaCols < 2147483648) :
    ∃ t, CopyShiftedImage32 target source deltaRows deltaCols emptyValue = some t ∧
      t.rows = target.rows ∧ t.cols = target.cols ∧
      ∀ r c, r < target.rows → c < target.cols →
        t.px r c =
          shiftedPixel source (cvRound deltaRows) (cvRound deltaCols) emptyValue r c := by
  obtain ⟨t, e, h1, h2, h3⟩ := CopyShiftedImage32_wrapped target source deltaRows deltaCols
    emptyValue
  refine ⟨t, e, h1, h2, fun r c hr hc => ?_⟩
  rw [h3 r c hr hc]
  exact wrappedPixel_eq_shiftedPixel source _ _ emptyValue r c hRi hCi (by omega) (by omega)
    hdR hdC

theorem cvRound_intCast (n : Int) : cvRound (n : ℚ) = n := by
  simp [cvRound]

/-! ## C1 and C2: integer pixel relocation -/

/-- C1: for a source and a target image of the same size (sizes and rounded shifts being
C `int` values), `CopyShiftedImage32` returns, having read no source index outside the
image (a read outside makes the embedding return `none`), and afterwards the target pixel
`(r, c)` is the source pixel `(r - dRow, c - dCol)` when that index lies in the image and
the fill value for every other `(r, c)`. -/
theorem CopyShiftedImage32_correct {α : Type} (target source : Mat α)
    (deltaRows deltaCols : ℚ) (emptyValue : α)
    (hR : target.rows = source.rows) (hC : target.cols = source.cols)
    (hRi : source.rows < 2147483648) (hCi : source.cols < 2147483648)
    (hdR : -2147483648 ≤ cvRound deltaRows ∧ cvRound deltaRows < 2147483648)
    (hdC : -2147483648 ≤ cvRound deltaCols ∧ cvRound deltaCols < 2147483648) :
    ∃ t, CopyShiftedImage32 target source deltaRows deltaCols emptyValue = some t ∧
      t.rows = target.rows ∧ t.cols = target.cols ∧
      ∀ r c : Nat, r < target.rows → c < target.cols →
        ((0 ≤ (r : Int) - cvRound deltaRows ∧ (r : Int) - cvRound deltaRows < source.rows ∧
            0 ≤ (c : Int) - cvRound deltaCols ∧ (c : Int) - cvRound deltaCols < source.cols →
          t.px r c = source.px ((r : Int) - cvRound deltaRows).toNat
            ((c : Int) - cvRound deltaCols).toNat) ∧
         (¬ (0 ≤ (r : Int) - cvRound deltaRows ∧ (r : Int) - cvRound deltaRows < source.rows ∧
            0 ≤ (c : Int) - cvRound deltaCols ∧ (c : Int) - cvRound deltaCols < source.cols) →
          t.px r c = emptyValue)) := by
  obtain ⟨t, e, h1, h2, h3⟩ := CopyShiftedImage32_shiftedPixel target source deltaRows
    deltaCols emptyValue hR hC hRi hCi hdR hdC
  refine ⟨t, e, h1, h2, fun r c hr hc => ⟨fun hin => ?_, fun hout => ?_⟩⟩
  · rw [h3 r c hr hc, shiftedPixel, if_pos hin]
  · rw [h3 r c hr hc, shiftedPixel, if_neg hout]

/-- C1 at a concrete input: the 2 x 3 sample image shifted by one row and minus one
column into a buffer of zeros with fill value 7. -/
theorem CopyShiftedImage32_correct_witness :
    ∃ t, CopyShiftedImage32 sampleBuffer sampleImage 1 (-1) 7 = some t ∧
      t.rows = sampleBuffer.rows ∧ t.cols = sampleBuffer.cols ∧
      ∀ r c : Nat, r < sampleBuffer.rows → c < sampleBuffer.cols →
        ((0 ≤ (r : Int) - cvRound 1 ∧ (r : Int) - cvRound 1 < sampleImage.rows ∧
            0 ≤ (c : Int) - cvRound (-1) ∧ (c : Int) - cvRound (-1) < sampleImage.cols →
          t.px r c = sampleImage.px ((r : Int) - cvRound 1).toNat
            ((c : Int) - cvRound (-1)).toNat) ∧
         (¬ (0 ≤ (r : Int) - cvRound 1 ∧ (r : Int) - cvRound 1 < sampleImage.rows ∧
            0 ≤ (c : Int) - cvRound (-1) ∧ (c : Int) - cvRound (-1) < sampleImage.cols) →
          t.px r c = 7)) :=
  CopyShiftedImage32_correct sampleBuffer sampleImage 1 (-1) 7 rfl rfl
    (by decide) (by decide)
    (by have := cvRound_intCast 1; have h : cvRound 1 = 1 := by simpa using this
        rw [h]; decide)
    (by have := cvRound_intCast (-1); have h : cvRound (-1) = -1 := by simpa using this
        rw [h]; decide)

/-- C2: shifting a base image by the integers `(dy, dx)` and shifting the result by
`(-dy, -dx)` gives an image that equals the base at every pixel `(r, c)` of the overlap
region `0 ≤ r + dy < R`, `0 ≤ c + dx < C` and the fill value at every other pixel. -/
theorem CopyShiftedImage32_roundTrip {α : Type} (base buf1 buf2 : Mat α) (dy dx : Int)
    (emptyValue : α)
    (hR1 : buf1.rows = base.rows) (hC1 : buf1.cols = base.cols)
    (hR2 : buf2.rows = base.rows) (hC2 : buf2.cols = base.cols)
    (hRi : base.rows < 2147483648) (hCi : base.cols < 2147483648)
    (hdy : -2147483648 < dy ∧ dy < 2147483648)
    (hdx : -2147483648 < dx ∧ dx < 2147483648) :
    ∃ t1 t2, CopyShiftedImage32 buf1 base (dy : ℚ) (dx : ℚ) emptyValue = some t1 ∧
      CopyShiftedImage32 buf2 t1 ((-dy : Int) : ℚ) ((-dx : Int) : ℚ) emptyValue = some t2 ∧
      t2.rows = base.rows ∧ t2.cols = base.cols ∧
      ∀ r c : Nat, r < base.rows → c < base.cols →
        ((0 ≤ (r : Int) + dy ∧ (r : Int) + dy < base.rows ∧
            0 ≤ (c : Int) + dx ∧ (c : Int) + dx < base.cols → t2.px r c = base.px r c) ∧
         (¬ (0 ≤ (r : Int) + dy ∧ (r : Int) + dy < base.rows ∧
            0 ≤ (c : Int) + dx ∧ (c : Int) + dx < base.cols) → t2.px r c = emptyValue)) := by
  obtain ⟨t1, e1, r1, c1, p1⟩ := CopyShiftedImage32_shiftedPixel buf1 base (dy : ℚ) (dx : ℚ)
    emptyValue hR1 hC1 hRi hCi (by rw [cvRound_intCast]; omega)
    (by rw [cvRound_intCast]; omega)
  obtain ⟨t2, e2, r2, c2, p2⟩ := CopyShiftedImage32_shiftedPixel buf2 t1 ((-dy : Int) : ℚ)
    ((-dx : Int) : ℚ) emptyValue (by rw [hR2, r1, hR1]) (by rw [hC2, c1, hC1])
    (by rw [r1, hR1]; exact hRi) (by rw [c1, hC1]; exact hCi)
    (by rw [cvRound_intCast]; omega) (by rw [cvRound_intCast]; omega)
  rw [cvRound_intCast, cvRound_intCast] at p1 p2
  refine ⟨t1, t2, e1, e2, by rw [r2, hR2], by rw [c2, hC2], fun r c hr hc => ?_⟩
  rw [p2 r c (by rw [hR2]; exact hr) (by rw [hC2]; exact hc)]
  unfold shiftedPixel
  rw [r1, c1, hR1, hC1]
  constructor
  · intro hin
    have hin2 : 0 ≤ (r : Int) - -dy ∧ (r : Int) - -dy < base.rows ∧
        0 ≤ (c : Int) - -dx ∧ (c : Int) - -dx < base.cols := by omega
    rw [if_pos hin2, p1 _ _ (by rw [hR1]; omega) (by rw [hC1]; omega)]
    unfold shiftedPixel
    have hr2 : ((((r : Int) - -dy).toNat : Nat) : Int) - dy = r := by omega
    have hc2 : ((((c : Int) - -dx).toNat : Nat) : Int) - dx = c := by omega
    rw [hr2, hc2, if_pos (by omega)]
    simp
  · intro hout
    rw [if_neg (by omega)]

/-- C2 at a concrete input: the sample image shifted by `(1, -2)` and back. -/
theorem CopyShiftedImage32_roundTrip_witness :
    ∃ t1 t2, CopyShiftedImage32 sampleBuffer sampleImage ((1 : Int) : ℚ) ((-2 : Int) : ℚ) 7
        = some t1 ∧
      CopyShiftedImage32 sampleBuffer t1 ((-1 : Int) : ℚ) ((-(-2) : Int) : ℚ) 7 = some t2 ∧
      t2.rows = sampleImage.rows ∧ t2.cols = sampleImage.cols ∧
      ∀ r c : Nat, r < sampleImage.rows → c < sampleImage.cols →
        ((0 ≤ (r : Int) + 1 ∧ (r : Int) + 1 < sampleImage.rows ∧
            0 ≤ (c : Int) + -2 ∧ (c : Int) + -2 < sampleImage.cols →
          t2.px r c = sampleImage.px r c) ∧
         (¬ (0 ≤ (r : Int) + 1 ∧ (r : Int) + 1 < sampleImage.rows ∧
            0 ≤ (c : Int) + -2 ∧ (c : Int) + -2 < sampleImage.cols) → t2.px r c = 7)) :=
  CopyShiftedImage32_roundTrip sampleImage sampleBuffer sampleBuffer 1 (-2) 7 rfl rfl rfl rfl
    (by decide) (by decide) (by decide) (by decide)

/-! ## C3: search-radius clamp -/

theorem tdiv_pred_two (dim : Int) (h : 1 ≤ dim) : Int.tdiv (dim - 1) 2 = (dim - 1) / 2 :=
  Int.tdiv_eq_ediv (by omega) (by decide)

/-- C3: for a frame dimension `dim ≥ 1` and a requested `maxShift ≥ 0` the effective
radius on either axis is `min maxShift ⌊(dim-1)/2⌋`; it never exceeds `⌊(dim-1)/2⌋`, equals
it as soon as `maxShift ≥ ⌊dim/2⌋` (so also when `maxShift ≥ dim/2`), the region of
interest of the reference starts at a non-negative offset, keeps an extent
`dim - 2*radius ≥ 1` and ends inside the frame, and the metric surface extent `2*radius+1`
equals `dim - (dim - 2*radius) + 1`. -/
theorem searchRadius_clamp (maxShift dim : Int) (hdim : 1 ≤ dim) (hshift : 0 ≤ maxShift) :
    firstRefRow maxShift dim = min maxShift ((dim - 1) / 2) ∧
    firstRefCol maxShift dim = min maxShift ((dim - 1) / 2) ∧
    firstRefRow maxShift dim ≤ (dim - 1) / 2 ∧
    (dim / 2 ≤ maxShift → firstRefRow maxShift dim = (dim - 1) / 2) ∧
    0 ≤ firstRefRow maxShift dim ∧
    1 ≤ refRegionExtent dim (firstRefRow maxShift dim) ∧
    firstRefRow maxShift dim + refRegionExtent dim (firstRefRow maxShift dim) ≤ dim ∧
    metricSize (firstRefRow maxShift dim)
      = dim - refRegionExtent dim (firstRefRow maxShift dim) + 1 := by
  unfold firstRefRow firstRefCol refRegionExtent metricSize
  rw [tdiv_pred_two dim hdim]
  omega

/-- C3 at a concrete input: a dimension of 5 pixels with a requested radius of 7. -/
theorem searchRadius_clamp_witness :
    firstRefRow 7 5 = min 7 ((5 - 1) / 2) ∧
    firstRefCol 7 5 = min 7 ((5 - 1) / 2) ∧
    firstRefRow 7 5 ≤ (5 - 1) / 2 ∧
    (5 / 2 ≤ (7 : Int) → firstRefRow 7 5 = (5 - 1) / 2) ∧
    0 ≤ firstRefRow 7 5 ∧
    1 ≤ refRegionExtent 5 (firstRefRow 7 5) ∧
    firstRefRow 7 5 + refRegionExtent 5 (firstRefRow 7 5) ≤ 5 ∧
    metricSize (firstRefRow 7 5) = 5 - refRegionExtent 5 (firstRefRow 7 5) + 1 :=
  searchRadius_clamp 7 5 (by decide) (by decide)

/-! ## Lemmas on `findLocalOptimum` -/

theorem visitCell_take {α ρ : Type} [LinearOrder ρ] (metric : Mat α) (radius2 : Nat → ρ)
    (reject : Comparator α) (iY iX index : Nat) (s : ρ × Point)
    (h : NotWorseThanNeighbours metric reject ⟨iX, iY⟩ ∧ radius2 index ≤ s.1) :
    visitCell metric radius2 reject iY iX index s = (radius2 index, ⟨iX, iY⟩) := by
  obtain ⟨⟨h1, h2, h3, h4, h5, h6, h7, h8⟩, h9⟩ := h
  simp only at h1 h2 h3 h4 h5 h6 h7 h8
  unfold visitCell
  rw [h1, h2, h3, h4, h5, h6, h7, h8]
  simp [not_lt.mpr h9]

theorem visitCell_skip {α ρ : Type} [LinearOrder ρ] (metric : Mat α) (radius2 : Nat → ρ)
    (reject : Comparator α) (iY iX index : Nat) (s : ρ × Point)
    (h : ¬ (NotWorseThanNeighbours metric reject ⟨iX, iY⟩ ∧ radius2 index ≤ s.1)) :
    visitCell metric radius2 reject iY iX index s = s := by
  unfold visitCell
  split
  · rfl
  · rename_i hc
    exfalso
    apply h
    simp only [Bool.or_eq_true, decide_eq_true_eq, not_or, Bool.not_eq_true, not_lt] at hc
    obtain ⟨⟨⟨⟨⟨⟨⟨⟨h1, h2⟩, h3⟩, h4⟩, h5⟩, h6⟩, h7⟩, h8⟩, h9⟩ := hc
    exact ⟨⟨h1, h2, h3, h4, h5, h6, h7, h8⟩, h9⟩

theorem scanCols_inv {α ρ : Type} [LinearOrder ρ] (metric : Mat α) (radius2 : Nat → ρ)
    (reject : Comparator α) (lastCol : Int) (iY : Nat) (P : Nat → ρ × Point → Prop)
    (hstep : ∀ (iX : Nat) (s : ρ × Point), 1 ≤ iX → (iX : Int) < lastCol → P iX s →
      P (iX + 1) (visitCell metric radius2 reject iY iX (iX + metric.cols * iY) s)) :
    ∀ (fuel iX index : Nat) (s : ρ × Point), 1 ≤ iX → (lastCol - iX).toNat < fuel →
      ((iX : Int) < lastCol → index = iX + metric.cols * iY) → P iX s →
      ∃ (s1 : ρ × Point) (iX1 : Nat),
        scanCols metric radius2 reject lastCol iY fuel iX index s
          = some (s1, index + (iX1 - iX)) ∧
        P iX1 s1 ∧ iX ≤ iX1 ∧ ¬ ((iX1 : Int) < lastCol) ∧
        ((iX : Int) < lastCol → (iX1 : Int) = lastCol) ∧
        (¬ ((iX : Int) < lastCol) → iX1 = iX) := by
  intro fuel
  induction fuel with
  | zero => intro iX index s _ h; omega
  | succ n ih =>
    intro iX index s h1 hfuel hidx hP
    unfold scanCols
    by_cases hlt : (iX : Int) < lastCol
    · rw [if_pos hlt]
      obtain ⟨s1, iX1, e, p, l, hn, he, hs⟩ := ih (iX + 1) (index + 1)
        (visitCell metric radius2 reject iY iX index s) (by omega) (by omega)
        (fun _ => by rw [hidx hlt]; omega) (by rw [hidx hlt]; exact hstep iX s h1 hlt hP)
      refine ⟨s1, iX1, ?_, p, by omega, hn, fun _ => by omega, fun h => absurd hlt h⟩
      rw [e]
      congr 2
      omega
    · rw [if_neg hlt]
      exact ⟨s, iX, by simp, hP, le_refl _, hlt, fun h => absurd h hlt, fun _ => rfl⟩

theorem scanRows_inv {α ρ : Type} [LinearOrder ρ] (metric : Mat α) (radius2 : Nat → ρ)
    (reject : Comparator α) (lastRow : Int) (R : Nat → Nat → ρ × Point → Prop)
    (hstep : ∀ (iY iX : Nat) (s : ρ × Point), 1 ≤ iY → (iY : Int) < lastRow → 1 ≤ iX →
      (iX : Int) < (metric.cols : Int) - 1 → R iY iX s →
      R iY (iX + 1) (visitCell metric radius2 reject iY iX (iX + metric.cols * iY) s))
    (hrow : ∀ (iY iX : Nat) (s : ρ × Point), 1 ≤ iY → (iY : Int) < lastRow → 1 ≤ iX →
      ¬ ((iX : Int) < (metric.cols : Int) - 1) → R iY iX s → R (iY + 1) 1 s) :
    ∀ (fuel iY index : Nat) (s : ρ × Point), 1 ≤ iY → (lastRow - iY).toNat < fuel →
      (1 < (metric.cols : Int) - 1 → index = metric.cols * iY) → R iY 1 s →
      ∃ (s1 : ρ × Point) (iY1 : Nat),
        scanRows metric radius2 reject lastRow ((metric.cols : Int) - 1) fuel iY index s
          = some s1 ∧
        R iY1 1 s1 ∧ 1 ≤ iY1 ∧ ¬ ((iY1 : Int) < lastRow) := by
  intro fuel
  induction fuel with
  | zero => intro iY index s _ h; omega
  | succ n ih =>
    intro iY index s h1 hfuel hidx hR
    unfold scanRows
    by_cases hlt : (iY : Int) < lastRow
    · rw [if_pos hlt]
      obtain ⟨s1, iX1, e, p, l, hn, he, -⟩ := scanCols_inv metric radius2 reject
        ((metric.cols : Int) - 1) iY (fun iX s => R iY iX s)
        (fun iX s hx hxl hr => hstep iY iX s h1 hlt hx hxl hr)
        (metric.cols + 1) 1 (index + 1) s (le_refl _) (by omega)
        (fun h => by rw [hidx (by exact_mod_cast h)]; omega) hR
      rw [e]
      simp only [Option.some_bind]
      exact ih (iY + 1) _ s1 (by omega) (by omega)
        (fun h => by
          have h2 := he (by exact_mod_cast h)
          rw [hidx h, Nat.mul_succ]
          omega)
        (hrow iY iX1 s1 h1 hlt l hn p)
    · rw [if_neg hlt]
      exact ⟨s, iY, rfl, hR, h1, hlt⟩

theorem findLocalOptimum_inv {α ρ : Type} [LinearOrder ρ] (metric : Mat α)
    (radius2 : Nat → ρ) (optimum : Point) (reject : Comparator α)
    (R : Nat → Nat → ρ × Point → Prop)
    (hstep : ∀ (iY iX : Nat) (s : ρ × Point), 1 ≤ iY → (iY : Int) < (metric.rows : Int) - 1 → 1 ≤ iX →
      (iX : Int) < (metric.cols : Int) - 1 → R iY iX s →
      R iY (iX + 1) (visitCell metric radius2 reject iY iX (iX + metric.cols * iY) s))
    (hrow : ∀ (iY iX : Nat) (s : ρ × Point), 1 ≤ iY → (iY : Int) < (metric.rows : Int) - 1 → 1 ≤ iX →
      ¬ ((iX : Int) < (metric.cols : Int) - 1) → R iY iX s → R (iY + 1) 1 s)
    (h0 : R 1 1 (radius2 (cellIndex metric optimum), optimum)) :
    ∃ (s : ρ × Point) (iY : Nat),
      findLocalOptimum metric radius2 optimum reject = some s.2 ∧
      R iY 1 s ∧ 1 ≤ iY ∧ ¬ ((iY : Int) < (metric.rows : Int) - 1) := by
  obtain ⟨s, iY, e, r, l, hn⟩ := scanRows_inv metric radius2 reject ((metric.rows : Int) - 1)
    R hstep hrow (metric.rows + 1) 1 metric.cols (radius2 (cellIndex metric optimum), optimum)
    (le_refl _) (by omega) (fun _ => by simp) h0
  refine ⟨s, iY, ?_, r, l, hn⟩
  unfold findLocalOptimum
  simp only
  unfold cellIndex at e
  rw [e]
  rfl

/-- Invariant of the scan behind C4 and C5: before the cell `(iY, iX)` is visited the
state `(bestRadius2, optimum)` holds the table entry of its cell, that cell is the input
optimum or an interior cell passing the neighbour test, and the entry is at most the
entries of the input optimum and of every passing interior cell visited so far. -/
theorem nearest_inv {α ρ : Type} [LinearOrder ρ] (metric : Mat α) (radius2 : Nat → ρ)
    (optimum : Point) (reject : Comparator α) :
    ∃ p, findLocalOptimum metric radius2 optimum reject = some p ∧
      (p = optimum ∨ (Interior metric p ∧ NotWorseThanNeighbours metric reject p)) ∧
      radius2 (cellIndex metric p) ≤ radius2 (cellIndex metric optimum) ∧
      (∀ q, Interior metric q → NotWorseThanNeighbours metric reject q →
        radius2 (cellIndex metric p) ≤ radius2 (cellIndex metric q)) := by
  obtain ⟨s, iY, e, ⟨r1, r2, r3, r4⟩, l, hn⟩ := findLocalOptimum_inv metric radius2 optimum
    reject
    (fun iY iX s =>
      s.1 = radius2 (cellIndex metric s.2) ∧
      (s.2 = optimum ∨ (Interior metric s.2 ∧ NotWorseThanNeighbours metric reject s.2)) ∧
      s.1 ≤ radius2 (cellIndex metric optimum) ∧
      ∀ q, Interior metric q → NotWorseThanNeighbours metric reject q →
        (q.y < iY ∨ (q.y = iY ∧ q.x < iX)) → s.1 ≤ radius2 (cellIndex metric q))
    (fun iY iX s hy hyl hx hxl ⟨r1, r2, r3, r4⟩ => by
      by_cases h : NotWorseThanNeighbours metric reject ⟨iX, iY⟩ ∧
          radius2 (iX + metric.cols * iY) ≤ s.1
      · rw [visitCell_take metric radius2 reject iY iX _ s h]
        refine ⟨rfl, Or.inr ⟨⟨hx, hxl, hy, hyl⟩, h.1⟩, le_trans h.2 r3, ?_⟩
        intro q hq1 hq2 hq3
        by_cases hq : q = ⟨iX, iY⟩
        · subst hq
          exact le_refl _
        · refine le_trans h.2 (r4 q hq1 hq2 ?_)
          rcases hq3 with h3 | ⟨h3, h4⟩
          · exact Or.inl h3
          · refine Or.inr ⟨h3, ?_⟩
            rcases Nat.lt_succ_iff_lt_or_eq.mp h4 with h5 | h5
            · exact h5
            · exact absurd (by cases q; simp_all) hq
      · rw [visitCell_skip metric radius2 reject iY iX _ s h]
        refine ⟨r1, r2, r3, ?_⟩
        intro q hq1 hq2 hq3
        by_cases hq : q = ⟨iX, iY⟩
        · subst hq
          have : ¬ radius2 (iX + metric.cols * iY) ≤ s.1 := fun h' => h ⟨hq2, h'⟩
          exact le_of_lt (not_le.mp this)
        · refine r4 q hq1 hq2 ?_
          rcases hq3 with h3 | ⟨h3, h4⟩
          · exact Or.inl h3
          · refine Or.inr ⟨h3, ?_⟩
            rcases Nat.lt_succ_iff_lt_or_eq.mp h4 with h5 | h5
            · exact h5
            · exact absurd (by cases q; simp_all) hq)
    (fun iY iX s hy hyl hx hxl ⟨r1, r2, r3, r4⟩ => by
      refine ⟨r1, r2, r3, ?_⟩
      intro q hq1 hq2 hq3
      refine r4 q hq1 hq2 ?_
      have hqx := hq1.2.1
      have hqx1 := hq1.1
      omega)
    ⟨rfl, Or.inl rfl, le_refl _, fun q hq1 _ hq3 => by have := hq1.1; have := hq1.2.2.1; omega⟩
  refine ⟨s.2, e, r2, by rw [← r1]; exact r3, fun q hq1 hq2 => ?_⟩
  rw [← r1]
  refine r4 q hq1 hq2 (Or.inl ?_)
  have := hq1.2.2.2
  omega

/-! ## C4 and C5: the prefer-smallest-shift tie-break -/

/-- C4, the claim at a concrete input: on the 5 x 5 surface `cornerPeak`, maximised, the
corner cell (0, 0) is strictly better than every other cell, yet `findLocalOptimum`,
called with the table of lines 347-352, replaces it by the cell (2, 2). -/
theorem findLocalOptimum_overrides_distinct_best :
    StrictlyBest cornerPeak (optimReject false) ⟨0, 0⟩ ∧
    findLocalOptimum cornerPeak (entry (radius2Table 5 5)) ⟨0, 0⟩ (optimReject false)
      = some ⟨2, 2⟩ ∧
    findLocalOptimum cornerPeak (entry (radius2Table 5 5)) ⟨0, 0⟩ (optimReject false)
      ≠ some ⟨0, 0⟩ := by
  refine ⟨?_, by decide!, by decide!⟩
  rintro ⟨x, y⟩ hx hy hne
  have hxy : ¬ (y = 0 ∧ x = 0) := fun h => hne (by rw [h.1, h.2])
  by_cases h2 : y = 2 ∧ x = 2 <;> simp [cornerPeak, optimReject, lessThan, hxy, h2]

/-- C4 as amended: when the optimum passed to `findLocalOptimum` is strictly better than
every other cell, the function returns that cell or an interior cell that is not worse
than its 8 neighbours, is not adjacent to the optimum and has a squared distance at most
the optimum's; it returns the optimum itself whenever every other interior cell passing
the neighbour test has a strictly larger squared distance. -/
theorem findLocalOptimum_distinct_best {α ρ : Type} [LinearOrder α] [LinearOrder ρ]
    (metric : Mat α) (radius2 : Nat → ρ) (optimum : Point) (useMinimum : Bool)
    (hbest : StrictlyBest metric (optimReject useMinimum) optimum) :
    ∃ p, findLocalOptimum metric radius2 optimum (optimReject useMinimum) = some p ∧
      (p = optimum ∨
        (Interior metric p ∧ NotWorseThanNeighbours metric (optimReject useMinimum) p ∧
          ¬ Adjacent p optimum ∧
          radius2 (cellIndex metric p) ≤ radius2 (cellIndex metric optimum))) ∧
      ((∀ q, Interior metric q → NotWorseThanNeighbours metric (optimReject useMinimum) q →
          q ≠ optimum → radius2 (cellIndex metric optimum) < radius2 (cellIndex metric q)) →
        p = optimum) := by
  obtain ⟨p, e, h1, h2, -⟩ := nearest_inv metric radius2 optimum (optimReject useMinimum)
  refine ⟨p, e, ?_, ?_⟩
  · rcases h1 with h1 | ⟨hi, hn⟩
    · exact Or.inl h1
    · by_cases hp : p = optimum
      · exact Or.inl hp
      · refine Or.inr ⟨hi, hn, ?_, h2⟩
        rintro ⟨-, a1, a2, a3, a4⟩
        have hb := hbest p (by have := hi.2.1; omega) (by have := hi.2.2.2; omega) hp
        obtain ⟨n1, n2, n3, n4, n5, n6, n7, n8⟩ := hn
        obtain ⟨ox, oy⟩ := optimum
        obtain ⟨px, py⟩ := p
        simp only at a1 a2 a3 a4 hb n1 n2 n3 n4 n5 n6 n7 n8
        have hpx := hi.1
        have hpy := hi.2.2.1
        simp only at hpx hpy
        have hx : ox = px - 1 ∨ ox = px ∨ ox = px + 1 := by omega
        have hy : oy = py - 1 ∨ oy = py ∨ oy = py + 1 := by omega
        rcases hx with hx | hx | hx <;> rcases hy with hy | hy | hy <;> subst hx <;>
          subst hy <;> simp_all
  · intro hfar
    by_contra hp
    rcases h1 with h1 | ⟨hi, hn⟩
    · exact hp h1
    · exact absurd h2 (not_le.mpr (hfar p hi hn hp))

/-- C4 as amended, at a concrete input: the 3 x 3 surface `centrePeak`, maximised, with the
optimum at its centre cell. -/
theorem findLocalOptimum_distinct_best_witness :
    ∃ p, findLocalOptimum centrePeak (entry (radius2Table 3 3)) ⟨1, 1⟩ (optimReject false)
        = some p ∧
      (p = ⟨1, 1⟩ ∨
        (Interior centrePeak p ∧ NotWorseThanNeighbours centrePeak (optimReject false) p ∧
          ¬ Adjacent p ⟨1, 1⟩ ∧
          entry (radius2Table 3 3) (cellIndex centrePeak p)
            ≤ entry (radius2Table 3 3) (cellIndex centrePeak ⟨1, 1⟩))) ∧
      ((∀ q, Interior centrePeak q → NotWorseThanNeighbours centrePeak (optimReject false) q →
          q ≠ ⟨1, 1⟩ → entry (radius2Table 3 3) (cellIndex centrePeak ⟨1, 1⟩)
            < entry (radius2Table 3 3) (cellIndex centrePeak q)) →
        p = ⟨1, 1⟩) :=
  findLocalOptimum_distinct_best centrePeak (entry (radius2Table 3 3)) ⟨1, 1⟩ false
    (by
      rintro ⟨x, y⟩ hx hy hne
      have hxy : ¬ (y = 1 ∧ x = 1) := fun h => hne (by rw [h.1, h.2])
      simp [centrePeak, optimReject, lessThan, hxy])

/-- C5: `findLocalOptimum` returns, and the returned cell is the input optimum or an
interior cell that is not worse, under the comparator, than any of its 8 neighbours; its
table entry (squared distance) is the minimum of the entry of the input optimum and the
entries of all interior cells that pass the 8-neighbour test: it is at most each of them,
and it is the entry of one of them. -/
theorem findLocalOptimum_nearest {α ρ : Type} [LinearOrder ρ] (metric : Mat α)
    (radius2 : Nat → ρ) (optimum : Point) (reject : Comparator α) :
    ∃ p, findLocalOptimum metric radius2 optimum reject = some p ∧
      (p = optimum ∨ (Interior metric p ∧ NotWorseThanNeighbours metric reject p)) ∧
      radius2 (cellIndex metric p) ≤ radius2 (cellIndex metric optimum) ∧
      (∀ q, Interior metric q → NotWorseThanNeighbours metric reject q →
        radius2 (cellIndex metric p) ≤ radius2 (cellIndex metric q)) :=
  nearest_inv metric radius2 optimum reject

/-! ## Lemmas on the main loop -/

theorem forLoop_inv {σ : Type} (body : Nat → σ → Option σ) (Inv : Nat → σ → Prop) (n : Nat)
    (hstep : ∀ i s, i < n → Inv i s → ∃ s1, body i s = some s1 ∧ Inv (i + 1) s1)
    (s0 : σ) (h0 : Inv 0 s0) :
    ∀ k, k ≤ n → ∃ s1, forLoop body k s0 = some s1 ∧ Inv k s1 := by
  intro k
  induction k with
  | zero => intro _; exact ⟨s0, rfl, h0⟩
  | succ k ih =>
    intro hk
    obtain ⟨s1, e, i1⟩ := ih (by omega)
    obtain ⟨s2, e2, i2⟩ := hstep k s1 (by omega) i1
    exact ⟨s2, by simp [forLoop, e, e2], i2⟩

theorem huge_pos : (0 : ℚ) < huge := by
  unfold huge
  positivity

theorem AxisInv.init (isEmpty : Nat → Bool) (b : Nat) (data0 val : Nat → ℚ) :
    AxisInv isEmpty b data0 val 0 data0 huge (-huge) := by
  refine ⟨fun i => ?_, fun l hl => by omega, fun _ ⟨l, hl, _⟩ => by omega, fun _ => ⟨rfl, rfl⟩⟩
  rw [if_neg]
  omega

theorem AxisInv.empty {isEmpty : Nat → Bool} {b : Nat} {data0 val : Nat → ℚ} {k : Nat}
    {data : Nat → ℚ} {mn mx : ℚ} (h : AxisInv isEmpty b data0 val k data mn mx)
    (hk : isEmpty k = true) : AxisInv isEmpty b data0 val (k + 1) data mn mx := by
  obtain ⟨h1, h2, h3, h4⟩ := h
  have hlt : ∀ l, l < k + 1 → isEmpty l = false → l < k := by
    intro l hl he
    rcases Nat.lt_succ_iff_lt_or_eq.mp hl with h | h
    · exact h
    · rw [h, hk] at he; exact absurd he (by decide)
  refine ⟨fun i => ?_, fun l hl he => h2 l (hlt l hl he) he, ?_, ?_⟩
  · rw [h1 i]
    by_cases hc : b ≤ i ∧ i < b + k ∧ isEmpty (i - b) = false
    · rw [if_pos hc, if_pos ⟨hc.1, by omega, hc.2.2⟩]
    · rw [if_neg hc, if_neg]
      rintro ⟨c1, c2, c3⟩
      exact hc ⟨c1, by have := hlt (i - b) (by omega) c3; omega, c3⟩
  · rintro hb ⟨l, hl, he⟩
    obtain ⟨i, j, hi, hj, r⟩ := h3 (fun l hl => hb l (by omega)) ⟨l, hlt l hl he, he⟩
    exact ⟨i, j, by omega, by omega, r⟩
  · intro hn
    exact h4 fun ⟨l, hl, he⟩ => hn ⟨l, by omega, he⟩

theorem AxisInv.nonempty {isEmpty : Nat → Bool} {b : Nat} {data0 val : Nat → ℚ} {k : Nat}
    {data : Nat → ℚ} {mn mx : ℚ} (h : AxisInv isEmpty b data0 val k data mn mx)
    (hk : isEmpty k = false) :
    AxisInv isEmpty b data0 val (k + 1) (Function.update data (b + k) (val k))
      (min mn (val k)) (max mx (val k)) := by
  obtain ⟨h1, h2, h3, h4⟩ := h
  refine ⟨fun i => ?_, fun l hl he => ?_, ?_, ?_⟩
  · by_cases hi : i = b + k
    · subst hi
      rw [Function.update_same, if_pos]
      · simp
      · refine ⟨by omega, by omega, ?_⟩
        simpa using hk
    · rw [Function.update_noteq hi, h1 i]
      by_cases hc : b ≤ i ∧ i < b + k ∧ isEmpty (i - b) = false
      · rw [if_pos hc, if_pos ⟨hc.1, by omega, hc.2.2⟩]
      · rw [if_neg hc, if_neg]
        rintro ⟨c1, c2, c3⟩
        exact hc ⟨c1, by omega, c3⟩
  · rcases Nat.lt_succ_iff_lt_or_eq.mp hl with hl | hl
    · exact ⟨le_trans (min_le_left _ _) (h2 l hl he).1,
        le_trans (h2 l hl he).2 (le_max_left _ _)⟩
    · subst hl
      exact ⟨min_le_right _ _, le_max_right _ _⟩
  · intro hb _
    have hvk := hb k (by omega)
    rw [abs_le] at hvk
    by_cases hprev : ∃ l, l < k ∧ isEmpty l = false
    · obtain ⟨i, j, hi, hj, ei, ej, e1, e2⟩ := h3 (fun l hl => hb l (by omega)) hprev
      have hmin : min mn (val k) = val i ∨ min mn (val k) = val k := by
        rcases min_choice mn (val k) with h | h
        · exact Or.inl (by rw [h, e1])
        · exact Or.inr h
      have hmax : max mx (val k) = val j ∨ max mx (val k) = val k := by
        rcases max_choice mx (val k) with h | h
        · exact Or.inl (by rw [h, e2])
        · exact Or.inr h
      rcases hmin with hmin | hmin <;> rcases hmax with hmax | hmax
      · exact ⟨i, j, by omega, by omega, ei, ej, hmin, hmax⟩
      · exact ⟨i, k, by omega, by omega, ei, hk, hmin, hmax⟩
      · exact ⟨k, j, by omega, by omega, hk, ej, hmin, hmax⟩
      · exact ⟨k, k, by omega, by omega, hk, hk, hmin, hmax⟩
    · obtain ⟨e1, e2⟩ := h4 hprev
      refine ⟨k, k, by omega, by omega, hk, hk, ?_, ?_⟩
      · rw [e1]; exact min_eq_right hvk.2
      · rw [e2]; exact max_eq_right hvk.1
  · intro hn
    exact absurd ⟨k, by omega, hk⟩ hn

theorem advanceBin_fields {Pix : Type} (prm : Params Pix) (ps : PassState Pix) :
    (advanceBin prm ps).xData = ps.xData ∧ (advanceBin prm ps).yData = ps.yData ∧
    (advanceBin prm ps).minXShift = ps.minXShift ∧
    (advanceBin prm ps).maxXShift = ps.maxXShift ∧
    (advanceBin prm ps).minYShift = ps.minYShift ∧
    (advanceBin prm ps).maxYShift = ps.maxYShift ∧
    (advanceBin prm ps).maxRelShift = ps.maxRelShift ∧
    (advanceBin prm ps).imgShifted = ps.imgShifted ∧
    (advanceBin prm ps).frmTemp = ps.frmTemp := by
  unfold advanceBin
  split <;> simp

theorem advanceBin_bins {Pix : Type} (prm : Params Pix) (ps : PassState Pix) (k : Nat)
    (h : ps.iMedian * prm.medianRebin + ps.iBin = k) (hb : ps.iBin < prm.medianRebin) :
    (advanceBin prm ps).iMedian * prm.medianRebin + (advanceBin prm ps).iBin = k + 1 ∧
    (advanceBin prm ps).iBin < prm.medianRebin := by
  unfold advanceBin
  split
  · simp only [Nat.succ_mul]
    omega
  · simp only
    omega

theorem iMedian_lt_numMedian {Pix : Type} (prm : Params Pix) (iMedian k : Nat)
    (hr : 1 ≤ prm.medianRebin) (hk : k < prm.numFrames)
    (h : iMedian * prm.medianRebin ≤ k) : iMedian < prm.numMedian := by
  have hpos : (0 : ℚ) < (prm.medianRebin : ℚ) := by exact_mod_cast hr
  have h1 : (prm.numFrames : ℚ) / (prm.medianRebin : ℚ) ≤ (prm.numMedian : ℚ) :=
    Nat.le_ceil _
  rw [div_le_iff₀ hpos] at h1
  have h2 : prm.numFrames ≤ prm.numMedian * prm.medianRebin := by exact_mod_cast h1
  by_contra hge
  have h3 : prm.numMedian * prm.medianRebin ≤ iMedian * prm.medianRebin :=
    Nat.mul_le_mul_right _ (by omega)
  omega

theorem correctFrame_total {Pix : Type} (P : Prims Pix) (prm : Params Pix)
    (ps : PassState Pix) (frmInput : Mat Pix) (colShift rowShift : ℚ) :
    ∃ r, correctFrame P prm ps frmInput colShift rowShift = some r := by
  unfold correctFrame
  by_cases hs : prm.subPixelReg = true
  · simp [hs]
  · obtain ⟨t, e, -⟩ := CopyShiftedImage32_wrapped
      (if prm.medianRebin > 1 then ps.frmTemp
        else ps.imgShifted.getD ps.iMedian (constImage prm P.zero))
      frmInput rowShift colShift prm.emptyValue
    have hs' : prm.subPixelReg = false := by simpa using hs
    simp only [hs', Bool.false_eq_true, if_false, e, Option.map_some']
    exact ⟨_, rfl⟩

theorem frameStep_spec {Pix : Type} (P : Prims Pix) (prm : Params Pix) (st : LoopState Pix)
    (iPrev k : Nat) (ps : PassState Pix) (hr : 1 ≤ prm.medianRebin)
    (hk : k < prm.numFrames) (h : PassInv P prm st k ps) :
    ∃ ps1, frameStep P prm st.imgRef st.base iPrev k ps = some ps1 ∧
      PassInv P prm st (k + 1) ps1 := by
  obtain ⟨b1, b2, ax, ay⟩ := h
  unfold frameStep
  by_cases he : prm.isEmpty k = true
  · rw [if_pos he]
    refine ⟨_, rfl, ?_⟩
    obtain ⟨f1, f2, f3, f4, f5, f6, -⟩ := advanceBin_fields prm ps
    obtain ⟨c1, c2⟩ := advanceBin_bins prm ps k b1 b2
    refine ⟨c1, c2, ?_, ?_⟩
    · rw [f1, f3, f4]; exact ax.empty he
    · rw [f2, f5, f6]; exact ay.empty he
  · have he' : prm.isEmpty k = false := by simpa using he
    rw [if_neg he, if_neg (by
      have := iMedian_lt_numMedian prm ps.iMedian k hr hk (by omega)
      omega)]
    obtain ⟨r, er⟩ := correctFrame_total P prm ps (prm.imgStack k)
      (P.estimateShift (prm.imgStack k) st.imgRef).1
      (P.estimateShift (prm.imgStack k) st.imgRef).2
    simp only [er, Option.map_some']
    refine ⟨_, rfl, ?_⟩
    obtain ⟨f1, f2, f3, f4, f5, f6, -⟩ := advanceBin_fields prm
      { ps with
        maxRelShift := max (max ps.maxRelShift
            |(P.estimateShift (prm.imgStack k) st.imgRef).1 - ps.xData (st.base + k - iPrev)|)
          |(P.estimateShift (prm.imgStack k) st.imgRef).2 - ps.yData (st.base + k - iPrev)|
        xData := Function.update ps.xData (st.base + k)
          (P.estimateShift (prm.imgStack k) st.imgRef).1
        yData := Function.update ps.yData (st.base + k)
          (P.estimateShift (prm.imgStack k) st.imgRef).2
        minXShift := min ps.minXShift (P.estimateShift (prm.imgStack k) st.imgRef).1
        minYShift := min ps.minYShift (P.estimateShift (prm.imgStack k) st.imgRef).2
        maxXShift := max ps.maxXShift (P.estimateShift (prm.imgStack k) st.imgRef).1
        maxYShift := max ps.maxYShift (P.estimateShift (prm.imgStack k) st.imgRef).2
        frmTemp := r.2.1
        imgShifted :=
          if ps.isFirst then r.1.set ps.iMedian r.2.2
          else r.1.set ps.iMedian
            (P.AddImage32 r.2.2 (r.1.getD ps.iMedian (constImage prm P.zero)))
        isFirst := false }
    obtain ⟨c1, c2⟩ := advanceBin_bins prm
      { ps with
        maxRelShift := max (max ps.maxRelShift
            |(P.estimateShift (prm.imgStack k) st.imgRef).1 - ps.xData (st.base + k - iPrev)|)
          |(P.estimateShift (prm.imgStack k) st.imgRef).2 - ps.yData (st.base + k - iPrev)|
        xData := Function.update ps.xData (st.base + k)
          (P.estimateShift (prm.imgStack k) st.imgRef).1
        yData := Function.update ps.yData (st.base + k)
          (P.estimateShift (prm.imgStack k) st.imgRef).2
        minXShift := min ps.minXShift (P.estimateShift (prm.imgStack k) st.imgRef).1
        minYShift := min ps.minYShift (P.estimateShift (prm.imgStack k) st.imgRef).2
        maxXShift := max ps.maxXShift (P.estimateShift (prm.imgStack k) st.imgRef).1
        maxYShift := max ps.maxYShift (P.estimateShift (prm.imgStack k) st.imgRef).2
        frmTemp := r.2.1
        imgShifted :=
          if ps.isFirst then r.1.set ps.iMedian r.2.2
          else r.1.set ps.iMedian
            (P.AddImage32 r.2.2 (r.1.getD ps.iMedian (constImage prm P.zero)))
        isFirst := false } k b1 b2
    refine ⟨c1, c2, ?_, ?_⟩
    · rw [f1, f3, f4]; exact ax.nonempty he'
    · rw [f2, f5, f6]; exact ay.nonempty he'

theorem framesLoop_spec {Pix : Type} (P : Prims Pix) (prm : Params Pix) (st : LoopState Pix)
    (iPrev : Nat) (hr : 1 ≤ prm.medianRebin) :
    ∃ ps, forLoop (frameStep P prm st.imgRef st.base iPrev) prm.numFrames (passStart st)
        = some ps ∧
      PassInv P prm st prm.numFrames ps :=
  forLoop_inv (frameStep P prm st.imgRef st.base iPrev) (PassInv P prm st) prm.numFrames
    (fun k ps hk h => frameStep_spec P prm st iPrev k ps hr hk h) (passStart st)
    ⟨by simp [passStart], by simp only [passStart]; omega, AxisInv.init _ _ _ _,
      AxisInv.init _ _ _ _⟩
    prm.numFrames (le_refl _)

theorem buildReference_total {Pix : Type} (P : Prims Pix) (prm : Params Pix)
    (medWeight : List ℚ) (st : LoopState Pix) :
    ∃ r, buildReference P prm medWeight st = some r := by
  unfold buildReference
  simp only
  split
  · split
    · split
      · exact ⟨_, rfl⟩
      · obtain ⟨t, e, -⟩ := CopyShiftedImage32_wrapped st.imgRef
          (P.MedianVecMat32 ((List.range prm.numMedian).foldl
            (fun l iMedian => l.set iMedian
              (P.scale (l.getD iMedian (constImage prm P.zero)) (medWeight.getD iMedian 1)))
            st.imgShifted))
          st.midYShift st.midXShift prm.emptyValue
        rw [e]
        exact ⟨_, rfl⟩
    · exact ⟨_, rfl⟩
  · exact ⟨_, rfl⟩

theorem runPass_spec {Pix : Type} (P : Prims Pix) (prm : Params Pix) (st : LoopState Pix)
    (iPrev : Nat) (hr : 1 ≤ prm.medianRebin) :
    ∃ ps st2, runPass P prm iPrev st = some st2 ∧ PassInv P prm st prm.numFrames ps ∧
      st2.iteration = st.iteration + 1 ∧ st2.base = st.base + prm.numFrames ∧
      st2.relLog = st.relLog ∧ st2.refLog = st.refLog ++ [st.imgRef] ∧
      st2.maxRelShift = ps.maxRelShift ∧
      st2.midXShift = (if prm.centerShifts then (ps.minXShift + ps.maxXShift) / 2
        else st.midXShift) ∧
      st2.midYShift = (if prm.centerShifts then (ps.minYShift + ps.maxYShift) / 2
        else st.midYShift) ∧
      st2.xData = (if prm.centerShifts then
          subtractMid prm.numFrames st.base ((ps.minXShift + ps.maxXShift) / 2) ps.xData
        else ps.xData) ∧
      st2.yData = (if prm.centerShifts then
          subtractMid prm.numFrames st.base ((ps.minYShift + ps.maxYShift) / 2) ps.yData
        else ps.yData) := by
  obtain ⟨ps, e, inv⟩ := framesLoop_spec P prm st iPrev hr
  refine ⟨ps, ?_⟩
  simp only [runPass, e, Option.map_some']
  refine ⟨_, rfl, inv, rfl, rfl, rfl, rfl, rfl, rfl, rfl, ?_, ?_⟩
  · by_cases hc : prm.centerShifts = true <;> simp [hc]
  · by_cases hc : prm.centerShifts = true <;> simp [hc]

theorem iterate_inv {Pix : Type} (P : Prims Pix) (prm : Params Pix) (medWeight : List ℚ)
    (L T : LoopState Pix → Prop)
    (hbuild : ∀ st r, L st → buildReference P prm medWeight st = some r →
      T { st with
          imgShifted := r.1, frmTemp := r.2.1, imgRef := r.2.2
          relLog := st.relLog ++ [st.maxRelShift] })
    (hpass : ∀ st1, T st1 → ¬ (st1.maxRelShift < prm.stopBelowShift) →
      ¬ ((st1.iteration : Int) ≥ prm.maxIter) →
      ∃ st2, runPass P prm (if st1.iteration < 1 then 0 else prm.numFrames) st1 = some st2 ∧
        L st2 ∧ st2.iteration = st1.iteration + 1) :
    ∀ (fuel : Nat) (st : LoopState Pix), L st → prm.maxIter.toNat - st.iteration < fuel →
      ∃ stf, iterate P prm medWeight fuel st = some stf ∧ T stf ∧
        (stf.maxRelShift < prm.stopBelowShift ∨ (stf.iteration : Int) ≥ prm.maxIter) := by
  intro fuel
  induction fuel with
  | zero => intro st _ h; omega
  | succ n ih =>
    intro st hL hfuel
    obtain ⟨r, er⟩ := buildReference_total P prm medWeight st
    have hT := hbuild st r hL er
    unfold iterate
    simp only [er, Option.some_bind]
    by_cases h1 : st.maxRelShift < prm.stopBelowShift
    · rw [if_pos h1]
      exact ⟨_, rfl, hT, Or.inl h1⟩
    · rw [if_neg h1]
      by_cases h2 : (st.iteration : Int) ≥ prm.maxIter
      · rw [if_pos h2]
        exact ⟨_, rfl, hT, Or.inr h2⟩
      · rw [if_neg h2]
        obtain ⟨st2, e2, hL2, hit⟩ := hpass _ hT h1 h2
        simp only at e2 hit
        rw [e2]
        simp only [Option.some_bind]
        exact ih st2 hL2 (by omega)

theorem initBin_total {Pix : Type} (P : Prims Pix) (prm : Params Pix) :
    ∀ (fuel iBin : Nat) (s : Nat × Nat × Mat Pix), prm.medianRebin - iBin < fuel →
      ∃ r, initBin P prm fuel iBin s = some r := by
  intro fuel
  induction fuel with
  | zero => intro iBin s h; omega
  | succ n ih =>
    intro iBin s hfuel
    obtain ⟨iFrame, count, img⟩ := s
    unfold initBin
    split
    · split
      · exact ih _ _ (by omega)
      · exact ih _ _ (by omega)
    · exact ⟨_, rfl⟩

theorem initGroups_total {Pix : Type} (P : Prims Pix) (prm : Params Pix) :
    ∃ g, initGroups P prm = some g := by
  obtain ⟨s, e, -⟩ := forLoop_inv (initGroup P prm) (fun _ _ => True) prm.numMedian
    (fun i s _ _ => by
      obtain ⟨r, er⟩ := initBin_total P prm (prm.medianRebin + 1) 0
        (s.1, 0, constImage prm P.zero) (by omega)
      unfold initGroup
      rw [er]
      simp only [Option.some_bind]
      split <;> exact ⟨_, rfl, trivial⟩)
    (0, List.replicate prm.numMedian (constImage prm P.zero), List.replicate prm.numMedian 1)
    trivial prm.numMedian (le_refl _)
  exact ⟨s.2, by simp [initGroups, e]⟩

/-- Every run of the loop returns: `motionCorrect` is `some` output whose fields are those
of a final loop state satisfying `T`, for any pair of invariants `L` (before the reference
is built) and `T` (after it is built) that the loop preserves. -/
theorem motionCorrect_inv {Pix : Type} (P : Prims Pix) (prm : Params Pix)
    (L T : List ℚ → LoopState Pix → Prop) (hr : 1 ≤ prm.medianRebin)
    (hstart : ∀ g, initGroups P prm = some g → L g.2 (loopStart P prm g.1))
    (hbuild : ∀ w st r, L w st → buildReference P prm w st = some r →
      T w { st with
          imgShifted := r.1, frmTemp := r.2.1, imgRef := r.2.2
          relLog := st.relLog ++ [st.maxRelShift] })
    (hpass : ∀ w st1 ps st2, T w st1 → ¬ (st1.maxRelShift < prm.stopBelowShift) →
      ¬ ((st1.iteration : Int) ≥ prm.maxIter) →
      runPass P prm (if st1.iteration < 1 then 0 else prm.numFrames) st1 = some st2 →
      PassInv P prm st1 prm.numFrames ps →
      st2.iteration = st1.iteration + 1 → st2.base = st1.base + prm.numFrames →
      st2.relLog = st1.relLog → st2.refLog = st1.refLog ++ [st1.imgRef] →
      st2.maxRelShift = ps.maxRelShift →
      st2.midXShift = (if prm.centerShifts then (ps.minXShift + ps.maxXShift) / 2
        else st1.midXShift) →
      st2.midYShift = (if prm.centerShifts then (ps.minYShift + ps.maxYShift) / 2
        else st1.midYShift) →
      st2.xData = (if prm.centerShifts then
          subtractMid prm.numFrames st1.base ((ps.minXShift + ps.maxXShift) / 2) ps.xData
        else ps.xData) →
      st2.yData = (if prm.centerShifts then
          subtractMid prm.numFrames st1.base ((ps.minYShift + ps.maxYShift) / 2) ps.yData
        else ps.yData) →
      L w st2) :
    ∃ out w stf, motionCorrect P prm = some out ∧ T w stf ∧
      (stf.maxRelShift < prm.stopBelowShift ∨ (stf.iteration : Int) ≥ prm.maxIter) ∧
      out.iteration = stf.iteration ∧
      out.shiftCols = (if (stf.iteration : Int) < prm.maxIter then (stf.iteration : Int)
        else prm.maxIter) ∧
      out.xShifts = stf.xData ∧ out.yShifts = stf.yData ∧ out.reference = stf.imgRef ∧
      out.midXShift = stf.midXShift ∧ out.midYShift = stf.midYShift ∧
      out.imgShifted = stf.imgShifted ∧ out.refLog = stf.refLog ∧
      out.relLog = stf.relLog := by
  obtain ⟨g, eg⟩ := initGroups_total P prm
  obtain ⟨stf, ef, hT, hexit⟩ := iterate_inv P prm g.2 (L g.2) (T g.2) (hbuild g.2)
    (fun st1 hT1 h1 h2 => by
      obtain ⟨ps, st2, e2, inv, a1, a2, a3, a4, a5, a6, a7, a8, a9⟩ := runPass_spec P prm st1
        (if st1.iteration < 1 then 0 else prm.numFrames) hr
      exact ⟨st2, e2, hpass g.2 st1 ps st2 hT1 h1 h2 e2 inv a1 a2 a3 a4 a5 a6 a7 a8 a9, a1⟩)
    (prm.maxIter.toNat + 1) (loopStart P prm g.1) (hstart g eg)
    (by simp only [loopStart]; omega)
  simp only [motionCorrect, eg, ef, Option.some_bind, Option.map_some']
  exact ⟨_, g.2, stf, rfl, hT, hexit, rfl, rfl, rfl, rfl, rfl, rfl, rfl, rfl, rfl, rfl⟩

/-! ## C8: the loop exit rule -/

/-- C8: for a run with `medianRebin ≥ 1` and `maxIter ≥ 0` the loop over iterations
terminates and `mexFunction` returns.  With `relLog[k]` the value of `maxRelShift` tested
after `k` completed passes (`1e308` for `k = 0`), a further pass is started after `k`
passes if and only if `relLog[k]` is not below `stopBelowShift` and `k < maxIter`; the
number of completed passes does not exceed `maxIter`, and the shift tables are returned
with one column per completed pass. -/
theorem loop_exit_rule {Pix : Type} (P : Prims Pix) (prm : Params Pix)
    (hr : 1 ≤ prm.medianRebin) (hmax : 0 ≤ prm.maxIter) :
    ∃ out, motionCorrect P prm = some out ∧
      (out.iteration : Int) ≤ prm.maxIter ∧
      out.shiftCols = out.iteration ∧
      out.refLog.length = out.iteration ∧
      out.relLog.length = out.iteration + 1 ∧
      out.relLog.getD 0 0 = huge ∧
      ∀ k, k ≤ out.iteration →
        (k < out.iteration ↔
          (¬ (out.relLog.getD k 0 < prm.stopBelowShift) ∧ (k : Int) < prm.maxIter)) := by
  obtain ⟨out, w, stf, e, ⟨t1, t2, t3, t4, t5, t6⟩, hexit, o1, o2, -, -, -, -, -, -, o3, o4⟩ :=
    motionCorrect_inv P prm
      (fun _ st => st.relLog.length = st.iteration ∧
        (∀ k, k < st.iteration →
          ¬ (st.relLog.getD k 0 < prm.stopBelowShift) ∧ (k : Int) < prm.maxIter) ∧
        (st.iteration = 0 → st.maxRelShift = huge) ∧
        (0 < st.iteration → st.relLog.getD 0 0 = huge) ∧
        (st.iteration : Int) ≤ prm.maxIter ∧ st.refLog.length = st.iteration)
      (fun _ st => st.relLog.length = st.iteration + 1 ∧
        (∀ k, k < st.iteration →
          ¬ (st.relLog.getD k 0 < prm.stopBelowShift) ∧ (k : Int) < prm.maxIter) ∧
        st.relLog.getD st.iteration 0 = st.maxRelShift ∧
        st.relLog.getD 0 0 = huge ∧
        (st.iteration : Int) ≤ prm.maxIter ∧ st.refLog.length = st.iteration)
      hr
      (fun g _ => ⟨rfl, fun k hk => by simp only [loopStart] at hk; omega, fun _ => rfl,
        fun h => by simp only [loopStart] at h; omega, by simpa [loopStart] using hmax, rfl⟩)
      (fun w st r ⟨l1, l2, l3, l4, l5, l6⟩ _ => by
        refine ⟨by simp [l1], fun k hk => ?_, ?_, ?_, l5, l6⟩
        · simp only at hk ⊢
          rw [List.getD_append _ _ _ _ (by omega)]
          exact l2 k hk
        · simp only
          rw [List.getD_append_right _ _ _ _ (by omega), l1]
          simp
        · simp only
          by_cases h0 : st.iteration = 0
          · rw [List.getD_append_right _ _ _ _ (by omega), l1, h0, l3 h0]
            simp
          · rw [List.getD_append _ _ _ _ (by omega)]
            exact l4 (by omega))
      (fun w st1 ps st2 ⟨t1, t2, t3, t4, t5, t6⟩ h1 h2 _ _ a1 _ a3 a4 _ _ _ _ _ => by
        refine ⟨by rw [a3, a1, t1], fun k hk => ?_, fun h => by omega, fun _ => ?_,
          by rw [a1]; push_cast; omega, by rw [a4, a1]; simp [t6]⟩
        · rw [a3]
          rw [a1] at hk
          rcases Nat.lt_succ_iff_lt_or_eq.mp hk with hk | hk
          · exact t2 k hk
          · subst hk
            rw [t3]
            exact ⟨h1, by omega⟩
        · rw [a3]; exact t4)
  refine ⟨out, e, by rw [o1]; exact t5, ?_, by rw [o3, o1]; exact t6, by rw [o4, o1]; exact t1,
    by rw [o4]; exact t4, fun k hk => ?_⟩
  · rw [o2, o1]
    split
    · rfl
    · omega
  · rw [o1] at hk ⊢
    rw [o4]
    constructor
    · intro hlt
      exact t2 k hlt
    · rintro ⟨h1, h2⟩
      by_contra hge
      have hk' : k = stf.iteration := by omega
      subst hk'
      rw [t3] at h1
      rcases hexit with h | h
      · exact h1 h
      · omega

/-- C8 at a concrete input: one frame, `maxIter = 2`, threshold 0. -/
theorem loop_exit_rule_witness :
    ∃ out, motionCorrect samplePrims sampleRun = some out ∧
      (out.iteration : Int) ≤ sampleRun.maxIter ∧
      out.shiftCols = out.iteration ∧
      out.refLog.length = out.iteration ∧
      out.relLog.length = out.iteration + 1 ∧
      out.relLog.getD 0 0 = huge ∧
      ∀ k, k ≤ out.iteration →
        (k < out.iteration ↔
          (¬ (out.relLog.getD k 0 < sampleRun.stopBelowShift) ∧
            (k : Int) < sampleRun.maxIter)) :=
  loop_exit_rule samplePrims sampleRun (by decide) (by decide)

/-! ## C6: centering -/

theorem SymmetricSpan.congr {isEmpty : Nat → Bool} {numFrames : Nat} {data data1 : Nat → ℚ}
    {k : Nat} (h : SymmetricSpan isEmpty numFrames data k)
    (he : ∀ l, l < numFrames → data1 (k * numFrames + l) = data (k * numFrames + l)) :
    SymmetricSpan isEmpty numFrames data1 k := by
  obtain ⟨i, j, hi, hj, ei, ej, hb, hs⟩ := h
  refine ⟨i, j, hi, hj, ei, ej, fun l hl hle => ?_, ?_⟩
  · rw [he i hi, he j hj, he l hl]
    exact hb l hl hle
  · rw [he i hi, he j hj]
    exact hs

theorem AxisInv.symmetric {isEmpty : Nat → Bool} {b n : Nat} {data0 val data : Nat → ℚ}
    {mn mx : ℚ} (k : Nat) (h : AxisInv isEmpty b data0 val n data mn mx) (hb : b = k * n)
    (hval : ∀ l, |val l| ≤ huge) (hne : ∃ l, l < n ∧ isEmpty l = false) :
    SymmetricSpan isEmpty n (subtractMid n b ((mn + mx) / 2) data) k := by
  obtain ⟨h1, h2, h3, -⟩ := h
  obtain ⟨i, j, hi, hj, ei, ej, e1, e2⟩ := h3 (fun l _ => hval l) hne
  have hd : ∀ l, l < n → isEmpty l = false →
      subtractMid n b ((mn + mx) / 2) data (k * n + l) = val l - (mn + mx) / 2 := by
    intro l hl hle
    unfold subtractMid
    rw [if_pos (by omega), h1, if_pos ⟨by omega, by omega, by rw [← hb]; simpa using hle⟩,
      ← hb]
    simp
  refine ⟨i, j, hi, hj, ei, ej, fun l hl hle => ?_, ?_⟩
  · rw [hd i hi ei, hd j hj ej, hd l hl hle, ← e1, ← e2]
    have := h2 l hl hle
    constructor <;> linarith [this.1, this.2]
  · rw [hd i hi ei, hd j hj ej, ← e1, ← e2]
    ring

/-- C6, the claim at a concrete input: three non-empty frames with estimated column shifts
0, 0 and -2, centering enabled.  After the pass the stored shifts are 1, 1 and -1; their
mean is 1/3, not 0. -/
theorem centering_mean_not_zero :
    centredRun.centerShifts = true ∧
    (motionCorrect samplePrims centredRun).map
      (fun out => (out.iteration, [out.xShifts 0, out.xShifts 1, out.xShifts 2]))
      = some (1, [1, 1, -1]) ∧
    (motionCorrect samplePrims centredRun).map
      (fun out => (out.xShifts 0 + out.xShifts 1 + out.xShifts 2) / 3) ≠ some 0 := by
  refine ⟨by decide, by decide!, by decide!⟩

/-- C6 as amended: with centering enabled, at least one non-empty frame and estimated
shifts of magnitude at most `1e308`, the run returns and, for every completed pass, the
stored shifts of the non-empty frames span a range symmetric about zero on both axes:
their minimum and their maximum add up to exactly 0 (the midpoint of the range is 0; the
mean need not be). -/
theorem centering_symmetric_span {Pix : Type} (P : Prims Pix) (prm : Params Pix)
    (hr : 1 ≤ prm.medianRebin) (hc : prm.centerShifts = true)
    (hne : ∃ l, l < prm.numFrames ∧ prm.isEmpty l = false)
    (hest : ∀ f r, |(P.estimateShift f r).1| ≤ huge ∧ |(P.estimateShift f r).2| ≤ huge) :
    ∃ out, motionCorrect P prm = some out ∧
      ∀ k, k < out.iteration →
        SymmetricSpan prm.isEmpty prm.numFrames out.xShifts k ∧
        SymmetricSpan prm.isEmpty prm.numFrames out.yShifts k := by
  obtain ⟨out, w, stf, e, ⟨-, t2⟩, -, o1, -, o3, o4, -⟩ :=
    motionCorrect_inv P prm
      (fun _ st => st.base = st.iteration * prm.numFrames ∧
        ∀ k, k < st.iteration →
          SymmetricSpan prm.isEmpty prm.numFrames st.xData k ∧
          SymmetricSpan prm.isEmpty prm.numFrames st.yData k)
      (fun _ st => st.base = st.iteration * prm.numFrames ∧
        ∀ k, k < st.iteration →
          SymmetricSpan prm.isEmpty prm.numFrames st.xData k ∧
          SymmetricSpan prm.isEmpty prm.numFrames st.yData k)
      hr
      (fun g _ => ⟨by simp [loopStart], fun k hk => by simp only [loopStart] at hk; omega⟩)
      (fun w st r hL _ => hL)
      (fun w st1 ps st2 ⟨t1, t2⟩ _ _ _ ⟨_, _, ax, ay⟩ a1 a2 _ _ _ _ _ a8 a9 => by
        rw [if_pos hc] at a8 a9
        refine ⟨by rw [a2, a1, t1, Nat.succ_mul], fun k hk => ?_⟩
        rw [a1] at hk
        rcases Nat.lt_succ_iff_lt_or_eq.mp hk with hk | hk
        · have hlt : ∀ l, l < prm.numFrames → k * prm.numFrames + l < st1.base := by
            intro l hl
            have := Nat.mul_le_mul_right prm.numFrames (Nat.succ_le_of_lt hk)
            rw [Nat.succ_mul] at this
            omega
          refine ⟨(t2 k hk).1.congr fun l hl => ?_, (t2 k hk).2.congr fun l hl => ?_⟩
          · rw [a8]
            unfold subtractMid
            rw [if_neg (by have := hlt l hl; omega), ax.1, if_neg (by have := hlt l hl; omega)]
          · rw [a9]
            unfold subtractMid
            rw [if_neg (by have := hlt l hl; omega), ay.1, if_neg (by have := hlt l hl; omega)]
        · subst hk
          rw [a8, a9]
          exact ⟨ax.symmetric _ t1 (fun l => (hest _ _).1) hne,
            ay.symmetric _ t1 (fun l => (hest _ _).2) hne⟩)
  refine ⟨out, e, fun k hk => ?_⟩
  rw [o3, o4]
  exact t2 k (by rw [← o1]; exact hk)

theorem samplePrims_bound (f r : Mat ℚ) :
    |(samplePrims.estimateShift f r).1| ≤ huge ∧ |(samplePrims.estimateShift f r).2| ≤ huge := by
  have h2 : (2 : ℚ) ≤ huge := by unfold huge; norm_num
  constructor
  · simp only [samplePrims]
    rw [abs_le]
    exact ⟨le_trans (by linarith) (le_max_left _ _),
      le_trans (max_le (by linarith) (min_le_left _ _)) h2⟩
  · simp only [samplePrims, abs_zero]
    linarith

/-- C6 as amended, at a concrete input: the run `centredRun`. -/
theorem centering_symmetric_span_witness :
    ∃ out, motionCorrect samplePrims centredRun = some out ∧
      ∀ k, k < out.iteration →
        SymmetricSpan centredRun.isEmpty centredRun.numFrames out.xShifts k ∧
        SymmetricSpan centredRun.isEmpty centredRun.numFrames out.yShifts k :=
  centering_symmetric_span samplePrims centredRun (by decide) (by decide)
    ⟨0, by decide, rfl⟩ samplePrims_bound

/-! ## C7: shift reported for an empty frame -/

/-- C7 at the failing input `emptyFrameRun`: frame 0 is flagged empty and centering is
enabled; the non-empty frames get the estimated column shifts 0, 0 and -2, the midpoint
-1 is subtracted from the whole column, and the shift stored for the empty frame in the
returned table is (1, 0), not (0, 0). -/
theorem empty_frame_shift_recentred :
    emptyFrameRun.isEmpty 0 = true ∧ emptyFrameRun.centerShifts = true ∧
    (motionCorrect samplePrims emptyFrameRun).map
      (fun out => (out.iteration, out.shiftCols,
        [out.xShifts 0, out.xShifts 1, out.xShifts 2, out.xShifts 3], out.yShifts 0))
      = some (1, 1, [1, 1, 1, -1], 0) := by
  refine ⟨by decide, by decide, by decide!⟩

/-! ## C9: external template -/

/-- What the loop does with an external template, for every run: the first pass and,
when there is one, the second pass are both run against `MedianVecMat32(refStack)`. -/
theorem template_reference_of_first_two_passes {Pix : Type} (P : Prims Pix)
    (prm : Params Pix) (hr : 1 ≤ prm.medianRebin) (ht : prm.refStack.isEmpty = false) :
    ∃ out, motionCorrect P prm = some out ∧ out.refLog.length = out.iteration ∧
      ∀ k, k < out.iteration → k < 2 →
        out.refLog.getD k (constImage prm P.zero) = P.MedianVecMat32 prm.refStack := by
  obtain ⟨out, w, stf, e, ⟨t1, t2, -⟩, -, o1, -, -, -, -, -, -, -, o3, -⟩ :=
    motionCorrect_inv P prm
      (fun _ st => st.refLog.length = st.iteration ∧
        ∀ k, k < st.iteration → k < 2 →
          st.refLog.getD k (constImage prm P.zero) = P.MedianVecMat32 prm.refStack)
      (fun _ st => st.refLog.length = st.iteration ∧
        (∀ k, k < st.iteration → k < 2 →
          st.refLog.getD k (constImage prm P.zero) = P.MedianVecMat32 prm.refStack) ∧
        (st.iteration < 2 → st.imgRef = P.MedianVecMat32 prm.refStack))
      hr
      (fun g _ => ⟨rfl, fun k hk => by simp only [loopStart] at hk; omega⟩)
      (fun w st r ⟨l1, l2⟩ hb => by
        refine ⟨l1, l2, fun hlt => ?_⟩
        simp only at hlt ⊢
        unfold buildReference at hb
        rw [if_neg (by simp only [ht, Bool.false_eq_true, or_false]; omega)] at hb
        simp only [Option.some.injEq] at hb
        rw [← hb])
      (fun w st1 ps st2 ⟨t1, t2, t3⟩ _ _ _ _ a1 _ _ a4 _ _ _ _ _ => by
        refine ⟨by rw [a4, a1]; simp [t1], fun k hk hk2 => ?_⟩
        rw [a4]
        rw [a1] at hk
        rcases Nat.lt_succ_iff_lt_or_eq.mp hk with hk | hk
        · rw [List.getD_append _ _ _ _ (by omega)]
          exact t2 k hk hk2
        · subst hk
          rw [List.getD_append_right _ _ _ _ (by omega), t1]
          simpa using t3 hk2)
  exact ⟨out, e, by rw [o3, o1]; exact t1, fun k hk hk2 => by
    rw [o3]; exact t2 k (by rw [← o1]; exact hk) hk2⟩

/-- C9 at the failing input `templateRun 2`: both passes are run against the external
template (pixel (0, 1) equal to 5), although the corrected frame produced by the first
pass, whose median the second pass should be aligned against, has the value 9 there. -/
theorem template_used_for_second_pass :
    (motionCorrect samplePrims (templateRun 2)).map
      (fun out => (out.iteration, out.refLog.map row0))
      = some (2, [[0, 5, 0, 0, 0], [0, 5, 0, 0, 0]]) ∧
    (motionCorrect samplePrims (templateRun 1)).map
      (fun out => (out.iteration, row0 (samplePrims.MedianVecMat32 out.imgShifted)))
      = some (1, [0, 9, 0, 0, 0]) := by
  refine ⟨by decide!, by decide!⟩

/-! ## C10: placement of the reference under centering, integer-only mode -/

/-- What lines 432-444 do in integer-only mode with a non-zero running offset, for every
state: the reference is built from the median image by `CopyShiftedImage32` with the
shifts `(midYShift, midXShift)`, so that `reference[r][c] = median[r - round(midY)][c -
round(midX)]` where that pixel exists and the fill value elsewhere. -/
theorem buildReference_integer_mode {Pix : Type} (P : Prims Pix) (prm : Params Pix)
    (medWeight : List ℚ) (st : LoopState Pix) (r : List (Mat Pix) × Mat Pix × Mat Pix)
    (hb : buildReference P prm medWeight st = some r)
    (hs : prm.subPixelReg = false) (hm : st.iteration > 1 ∨ prm.refStack.isEmpty = true)
    (hmid : st.midXShift ≠ 0 ∨ st.midYShift ≠ 0)
    (hR : st.imgRef.rows = (P.MedianVecMat32 r.1).rows)
    (hC : st.imgRef.cols = (P.MedianVecMat32 r.1).cols)
    (hRi : (P.MedianVecMat32 r.1).rows < 2147483648)
    (hCi : (P.MedianVecMat32 r.1).cols < 2147483648)
    (hdR : -2147483648 ≤ cvRound st.midYShift ∧ cvRound st.midYShift < 2147483648)
    (hdC : -2147483648 ≤ cvRound st.midXShift ∧ cvRound st.midXShift < 2147483648) :
    r.2.1 = P.MedianVecMat32 r.1 ∧
    ∀ i j, i < st.imgRef.rows → j < st.imgRef.cols →
      r.2.2.px i j = shiftedPixel (P.MedianVecMat32 r.1) (cvRound st.midYShift)
        (cvRound st.midXShift) prm.emptyValue i j := by
  unfold buildReference at hb
  rw [if_pos hm] at hb
  simp only [if_pos hmid, hs, Bool.false_eq_true, if_false, Option.map_eq_some'] at hb
  obtain ⟨imgRef, e1, e2⟩ := hb
  subst e2
  simp only at hR hC hRi hCi ⊢
  obtain ⟨t, e, -, -, hp⟩ := CopyShiftedImage32_shiftedPixel st.imgRef _ st.midYShift
    st.midXShift prm.emptyValue hR hC hRi hCi hdR hdC
  rw [e1] at e
  simp only [Option.some.injEq] at e
  subst e
  exact ⟨trivial, hp⟩

/-- C10 at the failing input `centredRun`: after the pass the running offset is
`(midX, midY) = (-1, 0)` and the median of the corrected frames has its bright pixel at
column 1.  The returned reference has it at column 0, that is `reference[r][c] =
median[r - round(midY)][c - round(midX)]`, whereas `median[r + round(midY)][c +
round(midX)]` has it at column 2. -/
theorem reference_shifted_by_plus_mid :
    (motionCorrect samplePrims centredRun).map
      (fun out => (out.midXShift, out.midYShift,
        row0 (samplePrims.MedianVecMat32 out.imgShifted), row0 out.reference))
      = some (-1, 0, [0, 9, 0, 0, 0], [9, 0, 0, 0, 0]) ∧
    (motionCorrect samplePrims centredRun).map
      (fun out => (List.range 5).map fun c =>
        shiftedPixel (samplePrims.MedianVecMat32 out.imgShifted)
          (-cvRound out.midYShift) (-cvRound out.midXShift) 0 0 c)
      = some [0, 0, 9, 0, 0] := by
  refine ⟨by decide!, by decide!⟩

/-! ## C11: fill value -/

/-- What lines 186-187 and 403 compute for every accepted argument count: the fill value
is the mean of the stack, whether or not a 13th argument is given. -/
theorem emptyValueOf_accepted (nrhs nlhs : Int) (displayProgress : Bool)
    (stackMean unsetMean prhs12 : ℚ) (h : argsAccepted nrhs nlhs = true) :
    emptyValueOf nrhs displayProgress stackMean unsetMean prhs12 = stackMean := by
  have h13 : nrhs ≤ 13 := by
    unfold argsAccepted at h
    simp only [Bool.not_eq_true', Bool.or_eq_false_iff, decide_eq_false_iff_not] at h
    omega
  simp [emptyValueOf, emptyIsMean, h13]

/-- C11 at the failing input: the call has 13 arguments, the 13th being the fill value 7,
and the stack has the mean intensity 3.  The call is accepted, `usrEmptyValue` is 7, but
`emptyIsMean` is true and the fill value is 3. -/
theorem fill_value_argument_ignored :
    argsAccepted 13 1 = true ∧ usrEmptyValue 13 7 = 7 ∧ emptyIsMean 13 = true ∧
    emptyValueOf 13 false 3 0 7 = 3 ∧ emptyValueOf 13 false 3 0 7 ≠ 7 := by
  refine ⟨by decide, by decide!, by decide, by decide!, by decide!⟩

/-! ## C16: the table of squared radii -/

/-- C16 at the failing input, the 5 x 5 surface (`a = b = 2`): the entry of the centre cell
(2, 2) is 1/2, not 0, and the cells (2, 3), (3, 2) and (3, 3) have the same entry, so the
centre cell is not strictly nearest; the entry of the corner cell (0, 0) is 25/2, not
`(0-2)^2 + (0-2)^2 = 8`. -/
theorem radius2_centre_off_by_half :
    entry (radius2Table 5 5) (2 * 5 + 2) = 1 / 2 ∧
    entry (radius2Table 5 5) (2 * 5 + 3) = 1 / 2 ∧
    entry (radius2Table 5 5) (3 * 5 + 2) = 1 / 2 ∧
    entry (radius2Table 5 5) (3 * 5 + 3) = 1 / 2 ∧
    entry (radius2Table 5 5) (0 * 5 + 0) = 25 / 2 := by
  refine ⟨by decide!, by decide!, by decide!, by decide!, by decide!⟩

/-! ## C14 and C18: the sub-pixel peak fit -/

theorem zeroIfNaN_nan {K : Type} [LinearOrderedField K] :
    zeroIfNaN (FVal.nan : FVal K) = .fin 0 := by
  simp [zeroIfNaN, FVal.ne]

theorem zeroIfNaN_fin {K : Type} [LinearOrderedField K] (x : K) :
    zeroIfNaN (FVal.fin x) = .fin x := by
  simp [zeroIfNaN, FVal.ne]

theorem gaussPeak_nan_left {K : Type} [LinearOrderedField K] (l0 lp : FVal K) :
    gaussPeak .nan l0 lp = .nan := by
  cases lp <;> simp [gaussPeak, FVal.sub, FVal.add, FVal.div, FVal.neg]

theorem gaussPeak_nan_right {K : Type} [LinearOrderedField K] (lm l0 : FVal K) :
    gaussPeak lm l0 .nan = .nan := by
  cases lm <;> simp [gaussPeak, FVal.sub, FVal.add, FVal.div, FVal.neg]

theorem gaussPeak_fin {K : Type} [LinearOrderedField K] (lm l0 lp : K) :
    gaussPeak (.fin lm) (.fin l0) (.fin lp) =
      if 2 * lm - 4 * l0 + 2 * lp = 0 then
        (if lm - lp = 0 then .nan else .inf (decide (0 < lm - lp)))
      else .fin (peakFormula lm l0 lp) := by
  simp only [gaussPeak, FVal.sub, FVal.add, FVal.div, FVal.neg, FVal.mul, peakFormula,
    ← sub_eq_add_neg]

theorem add_zero_neg {K : Type} [LinearOrderedField K] (d : K) :
    ((FVal.fin d).add (.fin 0)).neg = .fin (-d) := by
  simp [FVal.add, FVal.neg]

/-- Denominator of the peak formula at an optimum: it vanishes only when the three values
are equal, and has the sign opposite to the curvature. -/
theorem peak_denominator {K : Type} [LinearOrderedField K] (lm l0 lp : K)
    (hne : ¬ (lm = l0 ∧ lp = l0)) :
    ((lm ≤ l0 ∧ lp ≤ l0) → 2 * lm - 4 * l0 + 2 * lp < 0) ∧
    ((l0 ≤ lm ∧ l0 ≤ lp) → 0 < 2 * lm - 4 * l0 + 2 * lp) := by
  constructor
  · rintro ⟨h1, h2⟩
    rcases lt_or_eq_of_le h1 with h | h
    · linarith
    · rcases lt_or_eq_of_le h2 with h' | h'
      · linarith
      · exact absurd ⟨h, h'⟩ hne
  · rintro ⟨h1, h2⟩
    rcases lt_or_eq_of_le h1 with h | h
    · linarith
    · rcases lt_or_eq_of_le h2 with h' | h'
      · linarith
      · exact absurd ⟨h.symm, h'.symm⟩ hne

theorem peakFormula_abs_le {K : Type} [LinearOrderedField K] (lm l0 lp : K)
    (hden : 2 * lm - 4 * l0 + 2 * lp ≠ 0)
    (hopt : (lm ≤ l0 ∧ lp ≤ l0) ∨ (l0 ≤ lm ∧ l0 ≤ lp)) :
    |peakFormula lm l0 lp| ≤ 1 / 2 := by
  unfold peakFormula
  rw [abs_div, div_le_iff₀ (abs_pos.mpr hden), abs_le]
  rcases hopt with ⟨h1, h2⟩ | ⟨h1, h2⟩
  · have hd : 2 * lm - 4 * l0 + 2 * lp ≤ 0 := by linarith
    rw [abs_of_nonpos hd]
    constructor <;> linarith
  · have hd : 0 ≤ 2 * lm - 4 * l0 + 2 * lp := by linarith
    rw [abs_of_nonneg hd]
    constructor <;> linarith

/-- C18: for log-values `lm`, `l0`, `lp` (in the reals or any ordered field) of the cells
before, at and after the optimum, not all equal, with `l0` not worse than both
neighbours: the denominator of the fitted peak is non-zero, the code computes the finite
value `(lm - lp) / (2*lm - 4*l0 + 2*lp)` and keeps it, its magnitude is at most 1/2, and
its sign moves toward the better neighbour (the larger one when maximising, the smaller
one when minimising); hence the reported shift `-(d + peak)` differs from the integer
result `-d` by at most half a pixel. -/
theorem subPixel_peak_bound {K : Type} [LinearOrderedField K] (lm l0 lp : K)
    (hne : ¬ (lm = l0 ∧ lp = l0))
    (hopt : (lm ≤ l0 ∧ lp ≤ l0) ∨ (l0 ≤ lm ∧ l0 ≤ lp)) :
    2 * lm - 4 * l0 + 2 * lp ≠ 0 ∧
    zeroIfNaN (gaussPeak (.fin lm) (.fin l0) (.fin lp)) = .fin (peakFormula lm l0 lp) ∧
    |peakFormula lm l0 lp| ≤ 1 / 2 ∧
    ((lm ≤ l0 ∧ lp ≤ l0) →
      (lm < lp → 0 < peakFormula lm l0 lp) ∧ (lp < lm → peakFormula lm l0 lp < 0)) ∧
    ((l0 ≤ lm ∧ l0 ≤ lp) →
      (lp < lm → 0 < peakFormula lm l0 lp) ∧ (lm < lp → peakFormula lm l0 lp < 0)) ∧
    ∀ d : K,
      ((FVal.fin d).add (zeroIfNaN (gaussPeak (.fin lm) (.fin l0) (.fin lp)))).neg
        = .fin (-(d + peakFormula lm l0 lp)) ∧
      |-(d + peakFormula lm l0 lp) - -d| ≤ 1 / 2 := by
  obtain ⟨dmax, dmin⟩ := peak_denominator lm l0 lp hne
  have hden : 2 * lm - 4 * l0 + 2 * lp ≠ 0 := by
    rcases hopt with h | h
    · exact ne_of_lt (dmax h)
    · exact ne_of_gt (dmin h)
  have hfit : zeroIfNaN (gaussPeak (.fin lm) (.fin l0) (.fin lp))
      = .fin (peakFormula lm l0 lp) := by
    rw [gaussPeak_fin, if_neg hden, zeroIfNaN_fin]
  have habs := peakFormula_abs_le lm l0 lp hden hopt
  refine ⟨hden, hfit, habs, fun h => ⟨fun hlt => ?_, fun hlt => ?_⟩,
    fun h => ⟨fun hlt => ?_, fun hlt => ?_⟩, fun d => ⟨?_, ?_⟩⟩
  · exact div_pos_of_neg_of_neg (by linarith) (dmax h)
  · exact div_neg_of_pos_of_neg (by linarith) (dmax h)
  · exact div_pos (by linarith) (dmin h)
  · exact div_neg_of_neg_of_pos (by linarith) (dmin h)
  · rw [hfit]
    simp [FVal.add, FVal.neg]
  · have : -(d + peakFormula lm l0 lp) - -d = -peakFormula lm l0 lp := by ring
    rw [this, abs_neg]
    exact habs

/-- C18 at a concrete input: the log-values 1, 3, 2 around a maximum, over the rationals;
the fitted peak is 1/6. -/
theorem subPixel_peak_bound_witness :
    (2 : ℚ) * 1 - 4 * 3 + 2 * 2 ≠ 0 ∧
    zeroIfNaN (gaussPeak (.fin (1 : ℚ)) (.fin 3) (.fin 2)) = .fin (peakFormula 1 3 2) ∧
    |peakFormula (1 : ℚ) 3 2| ≤ 1 / 2 ∧
    (((1 : ℚ) ≤ 3 ∧ (2 : ℚ) ≤ 3) →
      ((1 : ℚ) < 2 → 0 < peakFormula (1 : ℚ) 3 2) ∧
      ((2 : ℚ) < 1 → peakFormula (1 : ℚ) 3 2 < 0)) ∧
    (((3 : ℚ) ≤ 1 ∧ (3 : ℚ) ≤ 2) →
      ((2 : ℚ) < 1 → 0 < peakFormula (1 : ℚ) 3 2) ∧
      ((1 : ℚ) < 2 → peakFormula (1 : ℚ) 3 2 < 0)) ∧
    ∀ d : ℚ,
      ((FVal.fin d).add (zeroIfNaN (gaussPeak (.fin (1 : ℚ)) (.fin 3) (.fin 2)))).neg
        = .fin (-(d + peakFormula 1 3 2)) ∧
      |-(d + peakFormula (1 : ℚ) 3 2) - -d| ≤ 1 / 2 :=
  subPixel_peak_bound 1 3 2 (by norm_num) (Or.inl ⟨by norm_num, by norm_num⟩)

/-- C14: for every metric surface and optimum, on each axis: when the optimum lies on the
first or last column (respectively row) of the surface, or when the peak formula gives
not-a-number, the peak offset used is 0 and the reported shift is exactly
`-(optimum index - search radius)`, the result of the integer-only mode; a zero
denominator at an optimum of finite log-values is such a case; and in every case the
reported shift is `-(integer offset + peak)`. -/
theorem subPixel_fallback {α K : Type} [LinearOrderedField K] (ln : α → FVal K)
    (metric : Mat α) (optimum : Point) (firstRefCol firstRefRow : Int) :
    ((optimum.x = 0 ∨ (optimum.x : Int) = (metric.cols : Int) - 1) →
      xPeakRaw ln metric optimum = .nan) ∧
    ((optimum.y = 0 ∨ (optimum.y : Int) = (metric.rows : Int) - 1) →
      yPeakRaw ln metric optimum = .nan) ∧
    (xPeakRaw ln metric optimum = .nan →
      xPeakOf ln metric optimum = .fin 0 ∧
      (subPixelShift ln metric optimum firstRefCol firstRefRow).1
        = .fin (((integerShift optimum firstRefCol firstRefRow).1 : Int) : K)) ∧
    (yPeakRaw ln metric optimum = .nan →
      yPeakOf ln metric optimum = .fin 0 ∧
      (subPixelShift ln metric optimum firstRefCol firstRefRow).2
        = .fin (((integerShift optimum firstRefCol firstRefRow).2 : Int) : K)) ∧
    (∀ lm l0 lp : K, ((lm ≤ l0 ∧ lp ≤ l0) ∨ (l0 ≤ lm ∧ l0 ≤ lp)) →
      2 * lm - 4 * l0 + 2 * lp = 0 →
      gaussPeak (.fin lm) (.fin l0) (.fin lp) = .nan) ∧
    (subPixelShift ln metric optimum firstRefCol firstRefRow).1
      = ((FVal.fin ((((optimum.x : Int) - firstRefCol : Int) : K))).add
          (xPeakOf ln metric optimum)).neg ∧
    (subPixelShift ln metric optimum firstRefCol firstRefRow).2
      = ((FVal.fin ((((optimum.y : Int) - firstRefRow : Int) : K))).add
          (yPeakOf ln metric optimum)).neg := by
  refine ⟨fun h => ?_, fun h => ?_, fun h => ?_, fun h => ?_, fun lm l0 lp hopt hden => ?_,
    rfl, rfl⟩
  · rcases h with h | h
    · simp only [xPeakRaw, h, gt_iff_lt, lt_self_iff_false, if_false]
      exact gaussPeak_nan_left _ _
    · have hc : ¬ ((optimum.x : Int) < (metric.cols : Int) - 1) := by omega
      simp only [xPeakRaw, hc, if_false]
      exact gaussPeak_nan_right _ _
  · rcases h with h | h
    · simp only [yPeakRaw, h, gt_iff_lt, lt_self_iff_false, if_false]
      exact gaussPeak_nan_left _ _
    · have hc : ¬ ((optimum.y : Int) < (metric.rows : Int) - 1) := by omega
      simp only [yPeakRaw, hc, if_false]
      exact gaussPeak_nan_right _ _
  · have hp : xPeakOf ln metric optimum = .fin 0 := by
      unfold xPeakOf
      rw [h, zeroIfNaN_nan]
    refine ⟨hp, ?_⟩
    simp only [subPixelShift, hp, add_zero_neg, integerShift]
    push_cast
    rfl
  · have hp : yPeakOf ln metric optimum = .fin 0 := by
      unfold yPeakOf
      rw [h, zeroIfNaN_nan]
    refine ⟨hp, ?_⟩
    simp only [subPixelShift, hp, add_zero_neg, integerShift]
    push_cast
    rfl
  · have hnum : lm - lp = 0 := by
      by_contra hne
      have hne' : ¬ (lm = l0 ∧ lp = l0) := fun h => hne (by rw [h.1, h.2, sub_self])
      obtain ⟨dmax, dmin⟩ := peak_denominator lm l0 lp hne'
      rcases hopt with h | h
      · exact absurd hden (ne_of_lt (dmax h))
      · exact absurd hden (ne_of_gt (dmin h))
    rw [gaussPeak_fin, if_pos hden, if_pos hnum]

/-- C14 at a concrete input: the surface `cornerPeak` with its optimum in the corner cell
(0, 0), search radius 2 on both axes. -/
theorem subPixel_fallback_witness :
    (subPixelShift sampleLn cornerPeak ⟨0, 0⟩ 2 2).1 = .fin 2 ∧
    (subPixelShift sampleLn cornerPeak ⟨0, 0⟩ 2 2).2 = .fin 2 := by
  have h := subPixel_fallback sampleLn cornerPeak ⟨0, 0⟩ 2 2
  obtain ⟨hx, hy, hsx, hsy, -⟩ := h
  refine ⟨?_, ?_⟩
  · rw [(hsx (hx (Or.inl rfl))).2]
    decide!
  · rw [(hsy (hy (Or.inl rfl))).2]
    decide!

/-! ## C15: frame subsampling -/

theorem subsampleLoop_spec {α : Type} (orig : List α) (offset skip : Nat)
    (hN : orig.length < 2147483648) (ho : offset < 2147483648) (hs : skip < 2147483648) :
    ∀ (fuel : Nat) (stack : List α) (k : Nat) (iInput : Int),
      stack.length = orig.length → k ≤ orig.length → orig.length - k < fuel →
      (∀ j, j < k → stack[j]? = orig[offset + j * (1 + skip)]?) →
      (∀ j, k ≤ j → stack[j]? = orig[j]?) →
      (∀ j, j < k → offset + j * (1 + skip) < orig.length) →
      ((iInput = ((offset + k * (1 + skip) : Nat) : Int) ∧ iInput < 2147483648) ∨
        (-2147483648 ≤ iInput ∧ iInput < 0 ∧ orig.length ≤ offset + k * (1 + skip))) →
      ∃ (stack1 : List α) (k1 : Nat),
        subsampleLoop (skip : Int) fuel stack iInput k = some (stack1, k1) ∧
        stack1.length = orig.length ∧ k1 ≤ orig.length ∧
        (∀ j, j < k1 → stack1[j]? = orig[offset + j * (1 + skip)]?) ∧
        (∀ j, j < k1 → offset + j * (1 + skip) < orig.length) ∧
        orig.length ≤ offset + k1 * (1 + skip) := by
  intro fuel
  induction fuel with
  | zero => intro stack k iInput _ _ h; omega
  | succ n ih =>
    intro stack k iInput hlen hk hfuel hdone hrest hlt hin
    unfold subsampleLoop
    have hks : k ≤ k * (1 + skip) := Nat.le_mul_of_pos_right k (by omega)
    by_cases hcond : toSizeT iInput < (stack.length : Int)
    · rw [if_pos hcond]
      have hval : iInput = ((offset + k * (1 + skip) : Nat) : Int) ∧
          offset + k * (1 + skip) < orig.length := by
        unfold toSizeT at hcond
        rw [hlen] at hcond
        rcases hin with ⟨h1, h2⟩ | ⟨h1, h2, h3⟩
        · exact ⟨h1, by omega⟩
        · omega
      have hidx : (toSizeT iInput).toNat = offset + k * (1 + skip) := by
        unfold toSizeT
        omega
      have hkN : k < orig.length := by omega
      obtain ⟨frame, hframe⟩ : ∃ frame, orig[offset + k * (1 + skip)]? = some frame :=
        ⟨_, List.getElem?_eq_getElem hval.2⟩
      have hread : stack.get? (toSizeT iInput).toNat = some frame := by
        rw [hidx, List.get?_eq_getElem?, hrest _ (by omega), hframe]
      rw [hread]
      simp only [Option.some_bind]
      rw [if_pos (by rw [hlen]; exact hkN)]
      have hsucc : (k + 1) * (1 + skip) = k * (1 + skip) + (1 + skip) := Nat.succ_mul _ _
      obtain ⟨stack1, k1, e, r1, r2, r3, r4, r5⟩ := ih (stack.set k frame) (k + 1)
        (wrap32 (iInput + wrap32 (1 + (skip : Int)))) (by simp [hlen]) (by omega) (by omega)
        (fun j hj => by
          rcases Nat.lt_succ_iff_lt_or_eq.mp hj with hj | hj
          · rw [List.getElem?_set_ne (by omega)]
            exact hdone j hj
          · subst hj
            rw [List.getElem?_set_self (by rw [hlen]; exact hkN), hframe])
        (fun j hj => by
          rw [List.getElem?_set_ne (by omega)]
          exact hrest j (by omega))
        (fun j hj => by
          rcases Nat.lt_succ_iff_lt_or_eq.mp hj with hj | hj
          · exact hlt j hj
          · subst hj
            exact hval.2)
        (by
          rw [hsucc]
          unfold wrap32
          omega)
      exact ⟨stack1, k1, e, r1, r2, r3, r4, r5⟩
    · rw [if_neg hcond]
      refine ⟨stack, k, rfl, hlen, hk, hdone, hlt, ?_⟩
      unfold toSizeT at hcond
      rw [hlen] at hcond
      rcases hin with ⟨h1, h2⟩ | ⟨h1, h2, h3⟩
      · omega
      · exact h3

/-- The frames kept by the subsampling loop and their number. -/
theorem subsampleFrames_spec {α : Type} (imgStack : List α) (offset skip : Nat)
    (hN : imgStack.length < 2147483648) (ho : offset < 2147483648)
    (hs : skip < 2147483648) :
    ∃ out, subsampleFrames imgStack (offset : Int) (skip : Int) = some out ∧
      (∀ k, k < out.length →
        offset + k * (1 + skip) < imgStack.length ∧
        out[k]? = imgStack[offset + k * (1 + skip)]?) ∧
      imgStack.length ≤ offset + out.length * (1 + skip) ∧
      (offset < imgStack.length →
        out.length = (imgStack.length - offset + skip) / (1 + skip)) ∧
      (imgStack.length ≤ offset → out.length = 0) := by
  obtain ⟨stack1, k1, e, r1, r2, r3, r4, r5⟩ := subsampleLoop_spec imgStack offset skip hN ho
    hs (imgStack.length + 1) imgStack 0 (offset : Int) rfl (Nat.zero_le _) (by omega)
    (fun j hj => by omega) (fun j _ => rfl) (fun j hj => by omega)
    (Or.inl ⟨by simp, by omega⟩)
  have hlen : (stack1.take k1).length = k1 := by
    rw [List.length_take, r1]
    omega
  refine ⟨stack1.take k1, by simp only [subsampleFrames, e, Option.map_some'], ?_, ?_, ?_, ?_⟩
  · intro k hk
    rw [hlen] at hk
    exact ⟨r4 k hk, by rw [List.getElem?_take_of_lt hk]; exact r3 k hk⟩
  · rw [hlen]; exact r5
  · intro hlt
    rw [hlen]
    have hk1 : 0 < k1 := by
      by_contra h0
      have : k1 = 0 := by omega
      rw [this] at r5
      omega
    have hprev := r4 (k1 - 1) (by omega)
    have hmul : k1 * (1 + skip) = (k1 - 1) * (1 + skip) + (1 + skip) := by
      have : k1 = (k1 - 1) + 1 := by omega
      conv_lhs => rw [this, Nat.succ_mul]
    symm
    apply Nat.div_eq_of_lt_le
    · omega
    · rw [Nat.succ_mul]
      omega
  · intro hge
    rw [hlen]
    by_contra h0
    have := r4 0 (by omega)
    omega

/-- C15: for a loaded stack of `N` frames and `frameSkip = [offset, skip]` with
non-negative entries (all three being C `int` values) the subsampling loop returns the
frames `imgStack[offset + k*(1+skip)]`, `k = 0, 1, ...`, for exactly the indices of that
form below `N`, in that order and unaltered; their number is `ceil((N-offset)/(1+skip))`,
written `(N - offset + skip) / (1 + skip)` with the division of natural numbers, when
`offset < N`, and 0 otherwise.  With `frameSkip = [1 1]` the frames kept are the
even-numbered ones, `imgStack[2*k + 1]` (the second, the fourth, ...), `N / 2` in number. -/
theorem frame_subsampling {α : Type} (imgStack : List α) (offset skip : Nat)
    (hN : imgStack.length < 2147483648) (ho : offset < 2147483648)
    (hs : skip < 2147483648) :
    (∃ out, subsampleFrames imgStack (offset : Int) (skip : Int) = some out ∧
      (∀ k, k < out.length →
        offset + k * (1 + skip) < imgStack.length ∧
        out[k]? = imgStack[offset + k * (1 + skip)]?) ∧
      imgStack.length ≤ offset + out.length * (1 + skip) ∧
      (offset < imgStack.length →
        out.length = (imgStack.length - offset + skip) / (1 + skip)) ∧
      (imgStack.length ≤ offset → out.length = 0)) ∧
    (∃ out, subsampleFrames imgStack 1 1 = some out ∧
      out.length = imgStack.length / 2 ∧
      ∀ k, k < out.length → out[k]? = imgStack[2 * k + 1]?) := by
  refine ⟨subsampleFrames_spec imgStack offset skip hN ho hs, ?_⟩
  obtain ⟨out, e, h1, h2, h3, h4⟩ := subsampleFrames_spec imgStack 1 1 hN (by omega) (by omega)
  refine ⟨out, by simpa using e, ?_, fun k hk => ?_⟩
  · by_cases hlt : 1 < imgStack.length
    · rw [h3 hlt]
      have : imgStack.length - 1 + 1 = imgStack.length := by omega
      rw [this]
    · rw [h4 (by omega)]
      omega
  · rw [(h1 k hk).2]
    congr 1
    omega

/-- C15 at a concrete input: a stack of 7 frames with `frameSkip = [1 1]`; the frames
kept are the second, the fourth and the sixth. -/
theorem frame_subsampling_witness :
    subsampleFrames [10, 11, 12, 13, 14, 15, 16] 1 1 = some [11, 13, 15] ∧
    ((∃ out, subsampleFrames [10, 11, 12, 13, 14, 15, 16] ((1 : Nat) : Int) ((1 : Nat) : Int)
        = some out ∧
      (∀ k, k < out.length →
        1 + k * (1 + 1) < [10, 11, 12, 13, 14, 15, 16].length ∧
        out[k]? = [10, 11, 12, 13, 14, 15, 16][1 + k * (1 + 1)]?) ∧
      [10, 11, 12, 13, 14, 15, 16].length ≤ 1 + out.length * (1 + 1) ∧
      (1 < [10, 11, 12, 13, 14, 15, 16].length →
        out.length = ([10, 11, 12, 13, 14, 15, 16].length - 1 + 1) / (1 + 1)) ∧
      ([10, 11, 12, 13, 14, 15, 16].length ≤ 1 → out.length = 0)) ∧
    (∃ out, subsampleFrames [10, 11, 12, 13, 14, 15, 16] 1 1 = some out ∧
      out.length = [10, 11, 12, 13, 14, 15, 16].length / 2 ∧
      ∀ k, k < out.length → out[k]? = [10, 11, 12, 13, 14, 15, 16][2 * k + 1]?)) :=
  ⟨by decide, frame_subsampling [10, 11, 12, 13, 14, 15, 16] 1 1 (by decide) (by decide)
    (by decide)⟩

/-! ## C12: rebin group indexing -/

theorem numMedian_eq {Pix : Type} (prm : Params Pix) (hr : 1 ≤ prm.medianRebin) :
    prm.numMedian = (prm.numFrames + prm.medianRebin - 1) / prm.medianRebin := by
  have hpos : (0 : ℚ) < (prm.medianRebin : ℚ) := by exact_mod_cast hr
  apply le_antisymm
  · unfold Params.numMedian
    rw [Nat.ceil_le, div_le_iff₀ hpos]
    have h1 := Nat.div_add_mod (prm.numFrames + prm.medianRebin - 1) prm.medianRebin
    have h2 := Nat.mod_lt (prm.numFrames + prm.medianRebin - 1) (by omega : prm.medianRebin > 0)
    have h3 : prm.numFrames ≤
        (prm.numFrames + prm.medianRebin - 1) / prm.medianRebin * prm.medianRebin := by
      rw [Nat.mul_comm]
      omega
    exact_mod_cast h3
  · have h1 : (prm.numFrames : ℚ) / (prm.medianRebin : ℚ) ≤ (prm.numMedian : ℚ) :=
      Nat.le_ceil _
    rw [div_le_iff₀ hpos] at h1
    have h2 : prm.numFrames ≤ prm.numMedian * prm.medianRebin := by exact_mod_cast h1
    have h3 : (prm.numFrames + prm.medianRebin - 1) / prm.medianRebin < prm.numMedian + 1 := by
      rw [Nat.div_lt_iff_lt_mul (by omega), Nat.succ_mul]
      omega
    omega

theorem bins_div_mod (iMedian iBin m k : Nat) (h : iMedian * m + iBin = k) (hb : iBin < m) :
    iMedian = k / m ∧ iBin = k % m := by
  have hd : k / m = iMedian :=
    Nat.div_eq_of_lt_le (by omega) (by rw [Nat.succ_mul]; omega)
  refine ⟨hd.symm, ?_⟩
  have := Nat.div_add_mod k m
  rw [hd, Nat.mul_comm] at this
  omega

/-- C12: for `medianRebin ≥ 1`, every assignment of empty flags and every pass (started
in any loop state `st`): the number of groups is `ceil(numFrames / medianRebin)`, the
loop over frames reaches every frame `i < numFrames` with the group index `iMedian =
floor(i / medianRebin)` (and `iBin = i mod medianRebin`), which is below the number of
groups, frame `i` is processed without reaching the fatal branch of lines 558-559, and the
pass completes. -/
theorem rebin_group_index {Pix : Type} (P : Prims Pix) (prm : Params Pix)
    (st : LoopState Pix) (iPrev : Nat) (hr : 1 ≤ prm.medianRebin) :
    prm.numMedian = (prm.numFrames + prm.medianRebin - 1) / prm.medianRebin ∧
    (∀ i, i < prm.numFrames →
      ∃ ps, forLoop (frameStep P prm st.imgRef st.base iPrev) i (passStart st) = some ps ∧
        ps.iMedian = i / prm.medianRebin ∧ ps.iBin = i % prm.medianRebin ∧
        ps.iMedian < prm.numMedian ∧
        ∃ ps1, frameStep P prm st.imgRef st.base iPrev i ps = some ps1) ∧
    ∃ ps, forLoop (frameStep P prm st.imgRef st.base iPrev) prm.numFrames (passStart st)
      = some ps := by
  have hloop := forLoop_inv (frameStep P prm st.imgRef st.base iPrev) (PassInv P prm st)
    prm.numFrames (fun k ps hk h => frameStep_spec P prm st iPrev k ps hr hk h) (passStart st)
    ⟨by simp [passStart], by simp only [passStart]; omega, AxisInv.init _ _ _ _,
      AxisInv.init _ _ _ _⟩
  refine ⟨numMedian_eq prm hr, fun i hi => ?_, ?_⟩
  · obtain ⟨ps, e, inv⟩ := hloop i (by omega)
    obtain ⟨hd, hm⟩ := bins_div_mod ps.iMedian ps.iBin prm.medianRebin i inv.1 inv.2.1
    obtain ⟨ps1, e1, -⟩ := frameStep_spec P prm st iPrev i ps hr hi inv
    exact ⟨ps, e, hd, hm, iMedian_lt_numMedian prm ps.iMedian i hr hi (by have := inv.1; omega),
      ps1, e1⟩
  · obtain ⟨ps, e, -⟩ := hloop prm.numFrames (le_refl _)
    exact ⟨ps, e⟩

/-- C12 at a concrete input: the pass of `emptyFrameRun` (four frames in groups of four,
the first one empty) started in its initial loop state. -/
theorem rebin_group_index_witness :
    emptyFrameRun.numMedian
      = (emptyFrameRun.numFrames + emptyFrameRun.medianRebin - 1) / emptyFrameRun.medianRebin ∧
    (∀ i, i < emptyFrameRun.numFrames →
      ∃ ps, forLoop (frameStep samplePrims emptyFrameRun
            (loopStart samplePrims emptyFrameRun []).imgRef
            (loopStart samplePrims emptyFrameRun []).base 0) i
          (passStart (loopStart samplePrims emptyFrameRun [])) = some ps ∧
        ps.iMedian = i / emptyFrameRun.medianRebin ∧
        ps.iBin = i % emptyFrameRun.medianRebin ∧
        ps.iMedian < emptyFrameRun.numMedian ∧
        ∃ ps1, frameStep samplePrims emptyFrameRun
          (loopStart samplePrims emptyFrameRun []).imgRef
          (loopStart samplePrims emptyFrameRun []).base 0 i ps = some ps1) ∧
    ∃ ps, forLoop (frameStep samplePrims emptyFrameRun
          (loopStart samplePrims emptyFrameRun []).imgRef
          (loopStart samplePrims emptyFrameRun []).base 0) emptyFrameRun.numFrames
        (passStart (loopStart samplePrims emptyFrameRun [])) = some ps :=
  rebin_group_index samplePrims emptyFrameRun (loopStart samplePrims emptyFrameRun []) 0
    (by decide)

/-! ## C17: symmetric span after centering -/

theorem AxisInv.recentred {isEmpty : Nat → Bool} {b n : Nat} {data0 val data : Nat → ℚ}
    {mn mx : ℚ} (h : AxisInv isEmpty b data0 val n data mn mx)
    (hval : ∀ l, |val l| ≤ huge) (hne : ∃ l, l < n ∧ isEmpty l = false) :
    RecentredAxis isEmpty n b val ((mn + mx) / 2)
      (subtractMid n b ((mn + mx) / 2) data) := by
  obtain ⟨h1, h2, h3, -⟩ := h
  obtain ⟨i, j, hi, hj, ei, ej, e1, e2⟩ := h3 (fun l _ => hval l) hne
  have hd : ∀ l, l < n → isEmpty l = false →
      subtractMid n b ((mn + mx) / 2) data (b + l) = val l - (mn + mx) / 2 := by
    intro l hl hle
    unfold subtractMid
    rw [if_pos (by omega), h1, if_pos ⟨by omega, by omega, by simpa using hle⟩]
    simp
  refine ⟨i, j, hi, hj, ei, ej, fun l hl hle => ?_, by rw [e1, e2], hd, fun l hl hle => ?_, ?_⟩
  · rw [← e1, ← e2]
    exact h2 l hl hle
  · rw [hd i hi ei, hd j hj ej, hd l hl hle, ← e1, ← e2]
    have := h2 l hl hle
    constructor <;> linarith [this.1, this.2]
  · rw [hd i hi ei, hd j hj ej, ← e1, ← e2]
    ring

/-- C17: with centering enabled and at least one non-empty frame (and estimated shifts of
magnitude at most `1e308`), every pass returns and, on each axis, its running offset is
the midpoint `(min + max) / 2` of the shifts estimated in that pass for the non-empty
frames, every non-empty frame stores its estimate minus the offset, and the stored shifts
of the non-empty frames satisfy `min + max = 0` in exact arithmetic. -/
theorem recenter_symmetric_span {Pix : Type} (P : Prims Pix) (prm : Params Pix)
    (st : LoopState Pix) (iPrev : Nat) (hr : 1 ≤ prm.medianRebin)
    (hc : prm.centerShifts = true)
    (hne : ∃ l, l < prm.numFrames ∧ prm.isEmpty l = false)
    (hest : ∀ l, |(P.estimateShift (prm.imgStack l) st.imgRef).1| ≤ huge ∧
      |(P.estimateShift (prm.imgStack l) st.imgRef).2| ≤ huge) :
    ∃ st2, runPass P prm iPrev st = some st2 ∧
      RecentredAxis prm.isEmpty prm.numFrames st.base
        (fun l => (P.estimateShift (prm.imgStack l) st.imgRef).1) st2.midXShift st2.xData ∧
      RecentredAxis prm.isEmpty prm.numFrames st.base
        (fun l => (P.estimateShift (prm.imgStack l) st.imgRef).2) st2.midYShift st2.yData := by
  obtain ⟨ps, st2, e, ⟨-, -, ax, ay⟩, -, -, -, -, -, a6, a7, a8, a9⟩ :=
    runPass_spec P prm st iPrev hr
  rw [if_pos hc] at a6 a7 a8 a9
  refine ⟨st2, e, ?_, ?_⟩
  · rw [a6, a8]
    exact ax.recentred (fun l => (hest l).1) hne
  · rw [a7, a9]
    exact ay.recentred (fun l => (hest l).2) hne

/-- C17 at a concrete input: the pass of `centredRun` started in its initial loop state
with the reference `spot 1 9`. -/
theorem recenter_symmetric_span_witness :
    ∃ st2, runPass samplePrims centredRun 0
        { loopStart samplePrims centredRun [] with imgRef := spot 1 9 } = some st2 ∧
      RecentredAxis centredRun.isEmpty centredRun.numFrames 0
        (fun l => (samplePrims.estimateShift (centredRun.imgStack l) (spot 1 9)).1)
        st2.midXShift st2.xData ∧
      RecentredAxis centredRun.isEmpty centredRun.numFrames 0
        (fun l => (samplePrims.estimateShift (centredRun.imgStack l) (spot 1 9)).2)
        st2.midYShift st2.yData :=
  recenter_symmetric_span samplePrims centredRun
    { loopStart samplePrims centredRun [] with imgRef := spot 1 9 } 0 (by decide) (by decide)
    ⟨0, by decide, rfl⟩ (fun _ => samplePrims_bound _ _)

/-! ## C19: default threshold -/

/-- Partial-correctness form of the loop rule: an invariant preserved by every step that
returns holds for the result of the loop. -/
theorem forLoop_result {σ : Type} (body : Nat → σ → Option σ) (Inv : Nat → σ → Prop)
    (hstep : ∀ i s s1, Inv i s → body i s = some s1 → Inv (i + 1) s1)
    (s0 : σ) (h0 : Inv 0 s0) :
    ∀ k s, forLoop body k s0 = some s → Inv k s := by
  intro k
  induction k with
  | zero =>
    intro s h
    simp only [forLoop, Option.some.injEq] at h
    rw [← h]
    exact h0
  | succ k ih =>
    intro s h
    simp only [forLoop] at h
    cases hk : forLoop body k s0 with
    | none => rw [hk] at h; simp at h
    | some s1 =>
      rw [hk] at h
      simp only [Option.some_bind] at h
      exact hstep k s1 s (ih s1 hk) h

theorem frameStep_maxRel {Pix : Type} (P : Prims Pix) (prm : Params Pix) (imgRef : Mat Pix)
    (base iPrev k : Nat) (ps ps1 : PassState Pix)
    (h : frameStep P prm imgRef base iPrev k ps = some ps1) :
    (prm.isEmpty k = true → ps1.maxRelShift = ps.maxRelShift) ∧
    (prm.isEmpty k = false → 0 ≤ ps1.maxRelShift) := by
  unfold frameStep at h
  by_cases he : prm.isEmpty k = true
  · rw [if_pos he] at h
    simp only [Option.some.injEq] at h
    rw [← h]
    exact ⟨fun _ => (advanceBin_fields prm ps).2.2.2.2.2.2.1, fun h' => by rw [he] at h'; simp at h'⟩
  · rw [if_neg he] at h
    refine ⟨fun h' => absurd h' he, fun _ => ?_⟩
    split at h
    · simp at h
    · simp only [Option.map_eq_some'] at h
      obtain ⟨r, -, hr⟩ := h
      rw [← hr, (advanceBin_fields prm _).2.2.2.2.2.2.1]
      exact le_trans (abs_nonneg _) (le_max_right _ _)

theorem runPass_maxRel_nonneg {Pix : Type} (P : Prims Pix) (prm : Params Pix) (iPrev : Nat)
    (st st2 : LoopState Pix) (h : runPass P prm iPrev st = some st2)
    (hne : ∃ l, l < prm.numFrames ∧ prm.isEmpty l = false) : 0 ≤ st2.maxRelShift := by
  unfold runPass at h
  simp only [Option.map_eq_some'] at h
  obtain ⟨ps, e, hst⟩ := h
  have := forLoop_result (frameStep P prm st.imgRef st.base iPrev)
    (fun k ps => (∃ l, l < k ∧ prm.isEmpty l = false) → 0 ≤ ps.maxRelShift)
    (fun i s s1 hinv hs => by
      obtain ⟨m1, m2⟩ := frameStep_maxRel P prm st.imgRef st.base iPrev i s s1 hs
      rintro ⟨l, hl, hle⟩
      by_cases he : prm.isEmpty i = true
      · rw [m1 he]
        refine hinv ⟨l, ?_, hle⟩
        rcases Nat.lt_succ_iff_lt_or_eq.mp hl with h | h
        · exact h
        · rw [h, he] at hle; simp at hle
      · exact m2 (by simpa using he))
    (passStart st) (fun ⟨l, hl, _⟩ => by omega) prm.numFrames ps e hne
  rw [← hst]
  exact this

/-- C19: for a run with `stopBelowShift ≤ 0`, `maxIter ≥ 0`, `medianRebin ≥ 1` and at least
one non-empty frame, every value of `maxRelShift` tested at line 450 (`1e308` before the
first pass, then the value of each pass) is `≥ 0` and so not below the threshold; exactly
`maxIter` passes are performed and the shift tables are returned with `maxIter` columns. -/
theorem default_threshold_runs_maxIter {Pix : Type} (P : Prims Pix) (prm : Params Pix)
    (hr : 1 ≤ prm.medianRebin) (hstop : prm.stopBelowShift ≤ 0) (hmax : 0 ≤ prm.maxIter)
    (hne : ∃ l, l < prm.numFrames ∧ prm.isEmpty l = false) :
    ∃ out, motionCorrect P prm = some out ∧
      (out.iteration : Int) = prm.maxIter ∧ out.shiftCols = prm.maxIter ∧
      out.relLog.length = out.iteration + 1 ∧
      ∀ k, k ≤ out.iteration →
        0 ≤ out.relLog.getD k 0 ∧ ¬ (out.relLog.getD k 0 < prm.stopBelowShift) := by
  obtain ⟨out, w, stf, e, ⟨t1, t2, t3, t4⟩, hexit, o1, o2, -, -, -, -, -, -, -, o4⟩ :=
    motionCorrect_inv P prm
      (fun _ st => st.relLog.length = st.iteration ∧
        (∀ k, k < st.iteration → 0 ≤ st.relLog.getD k 0) ∧
        0 ≤ st.maxRelShift ∧ (st.iteration : Int) ≤ prm.maxIter)
      (fun _ st => st.relLog.length = st.iteration + 1 ∧
        (∀ k, k ≤ st.iteration → 0 ≤ st.relLog.getD k 0) ∧
        0 ≤ st.maxRelShift ∧ (st.iteration : Int) ≤ prm.maxIter)
      hr
      (fun g _ => ⟨rfl, fun k hk => by simp only [loopStart] at hk; omega,
        le_of_lt huge_pos, by simpa [loopStart] using hmax⟩)
      (fun w st r ⟨l1, l2, l3, l4⟩ _ => by
        refine ⟨by simp [l1], fun k hk => ?_, l3, l4⟩
        simp only at hk ⊢
        rcases Nat.lt_or_ge k st.iteration with hlt | hge
        · rw [List.getD_append _ _ _ _ (by omega)]
          exact l2 k hlt
        · rw [List.getD_append_right _ _ _ _ (by omega), l1]
          have : k - st.iteration = 0 := by omega
          rw [this]
          simpa using l3)
      (fun w st1 ps st2 ⟨t1, t2, t3, t4⟩ h1 h2 hrun _ a1 _ a3 _ _ _ _ _ _ => by
        refine ⟨by rw [a3, a1, t1], fun k hk => ?_,
          runPass_maxRel_nonneg P prm _ st1 st2 hrun hne, by rw [a1]; push_cast; omega⟩
        rw [a3]
        exact t2 k (by omega))
  have hit : (stf.iteration : Int) = prm.maxIter := by
    rcases hexit with h | h
    · exact absurd h (not_lt.mpr (le_trans hstop t3))
    · omega
  refine ⟨out, e, by rw [o1]; exact hit, ?_, by rw [o4, o1]; exact t1, fun k hk => ?_⟩
  · rw [o2, if_neg (by omega)]
  · rw [o4]
    have := t2 k (by rw [← o1]; exact hk)
    exact ⟨this, not_lt.mpr (le_trans hstop this)⟩

/-- C19 at a concrete input: the run `sampleRun` (threshold 0, `maxIter = 2`). -/
theorem default_threshold_runs_maxIter_witness :
    ∃ out, motionCorrect samplePrims sampleRun = some out ∧
      (out.iteration : Int) = sampleRun.maxIter ∧ out.shiftCols = sampleRun.maxIter ∧
      out.relLog.length = out.iteration + 1 ∧
      ∀ k, k ≤ out.iteration →
        0 ≤ out.relLog.getD k 0 ∧ ¬ (out.relLog.getD k 0 < sampleRun.stopBelowShift) :=
  default_threshold_runs_maxIter samplePrims sampleRun (by decide) (by decide) (by decide)
    ⟨0, by decide, rfl⟩

/-! ## C13: rebin group accumulation -/

theorem div_eq_iff_bounds (m i g : Nat) (hm : 0 < m) :
    i / m = g ↔ g * m ≤ i ∧ i < (g + 1) * m := by
  constructor
  · intro h
    subst h
    have h1 := Nat.div_add_mod i m
    have h2 := Nat.mod_lt i hm
    rw [Nat.succ_mul, Nat.mul_comm]
    omega
  · rintro ⟨h1, h2⟩
    exact Nat.div_eq_of_lt_le h1 h2

theorem memberOf_false_of_lt {Pix : Type} (prm : Params Pix) (grp k : Nat)
    (hr : 1 ≤ prm.medianRebin) (h : k < grp * prm.medianRebin) : memberOf prm grp k = false := by
  unfold memberOf
  have : ¬ (k / prm.medianRebin = grp) := by
    rw [div_eq_iff_bounds _ _ _ (by omega)]
    omega
  simp [this]

theorem memberOf_false_of_ge {Pix : Type} (prm : Params Pix) (grp k : Nat)
    (hr : 1 ≤ prm.medianRebin) (h : (grp + 1) * prm.medianRebin ≤ k) :
    memberOf prm grp k = false := by
  unfold memberOf
  have : ¬ (k / prm.medianRebin = grp) := by
    rw [div_eq_iff_bounds _ _ _ (by omega)]
    omega
  simp [this]

theorem groupSum_none_of_le {Pix : Type} (P : Prims Pix) (prm : Params Pix)
    (F : Nat → Mat Pix) (grp : Nat) (hr : 1 ≤ prm.medianRebin) :
    ∀ k, k ≤ grp * prm.medianRebin → groupSum P prm F grp k = none := by
  intro k
  induction k with
  | zero => intro _; rfl
  | succ k ih =>
    intro h
    rw [groupSum, memberOf_false_of_lt prm grp k hr (by omega)]
    simpa using ih (by omega)

theorem groupSum_eq_none_iff {Pix : Type} (P : Prims Pix) (prm : Params Pix)
    (F : Nat → Mat Pix) (grp : Nat) :
    ∀ k, groupSum P prm F grp k = none ↔ groupCount prm grp k = 0 := by
  intro k
  induction k with
  | zero => simp [groupSum, groupCount]
  | succ k ih =>
    rw [groupSum, groupCount]
    by_cases hm : memberOf prm grp k = true
    · simp [hm]
    · simp only [hm, Bool.false_eq_true, if_false, Nat.add_zero]
      exact ih

theorem groupCount_stable {Pix : Type} (prm : Params Pix) (grp k : Nat)
    (hr : 1 ≤ prm.medianRebin) (h : (grp + 1) * prm.medianRebin ≤ k) :
    ∀ n, groupCount prm grp (k + n) = groupCount prm grp k := by
  intro n
  induction n with
  | zero => rfl
  | succ n ih =>
    rw [← Nat.add_assoc, groupCount, memberOf_false_of_ge prm grp (k + n) hr (by omega)]
    simpa using ih

theorem correctFrame_fields {Pix : Type} (P : Prims Pix) (prm : Params Pix)
    (ps : PassState Pix) (frmInput : Mat Pix) (colShift rowShift : ℚ)
    (r : List (Mat Pix) × Mat Pix × Mat Pix)
    (h : correctFrame P prm ps frmInput colShift rowShift = some r) :
    r.1 = (if prm.medianRebin > 1 then ps.imgShifted
      else ps.imgShifted.set ps.iMedian r.2.2) := by
  unfold correctFrame at h
  simp only [Option.map_eq_some'] at h
  obtain ⟨f, -, hf⟩ := h
  rw [← hf]
  split <;> rfl

theorem advanceBin_counters {Pix : Type} (prm : Params Pix) (ps : PassState Pix) :
    (advanceBin prm ps).isFirst = (decide (ps.iBin + 1 ≥ prm.medianRebin) || ps.isFirst) ∧
    (advanceBin prm ps).iMedian
      = (if ps.iBin + 1 ≥ prm.medianRebin then ps.iMedian + 1 else ps.iMedian) := by
  unfold advanceBin
  split <;> simp [*]

theorem getD_set_self {α : Type} (l : List α) (i : Nat) (a d : α) (h : i < l.length) :
    (l.set i a).getD i d = a := by
  simp [List.getD_eq_getElem?_getD, List.getElem?_set_self h]

theorem getD_set_ne {α : Type} (l : List α) (i j : Nat) (a d : α) (h : i ≠ j) :
    (l.set i a).getD j d = l.getD j d := by
  simp [List.getD_eq_getElem?_getD, List.getElem?_set_ne h]

theorem frameStep_empty_fields {Pix : Type} (P : Prims Pix) (prm : Params Pix)
    (imgRef : Mat Pix) (base iPrev k : Nat) (ps ps1 : PassState Pix)
    (h : frameStep P prm imgRef base iPrev k ps = some ps1) (he : prm.isEmpty k = true) :
    ps1.imgShifted = ps.imgShifted ∧
    ps1.isFirst = (decide (ps.iBin + 1 ≥ prm.medianRebin) || ps.isFirst) := by
  unfold frameStep at h
  rw [if_pos he] at h
  simp only [Option.some.injEq] at h
  rw [← h]
  exact ⟨(advanceBin_fields prm ps).2.2.2.2.2.2.2.1, (advanceBin_counters prm ps).1⟩

theorem frameStep_nonempty_fields {Pix : Type} (P : Prims Pix) (prm : Params Pix)
    (imgRef : Mat Pix) (base iPrev k : Nat) (ps ps1 : PassState Pix)
    (h : frameStep P prm imgRef base iPrev k ps = some ps1) (he : prm.isEmpty k = false) :
    ∃ r, correctFrame P prm ps (prm.imgStack k)
        (P.estimateShift (prm.imgStack k) imgRef).1
        (P.estimateShift (prm.imgStack k) imgRef).2 = some r ∧
      ps.iMedian < prm.numMedian ∧
      ps1.imgShifted = (if ps.isFirst then r.1.set ps.iMedian r.2.2
        else r.1.set ps.iMedian
          (P.AddImage32 r.2.2 (r.1.getD ps.iMedian (constImage prm P.zero)))) ∧
      ps1.isFirst = decide (ps.iBin + 1 ≥ prm.medianRebin) := by
  unfold frameStep at h
  rw [if_neg (by rw [he]; simp)] at h
  split at h
  · simp at h
  · rename_i hlt
    simp only [Option.map_eq_some'] at h
    obtain ⟨r, hr, hps⟩ := h
    refine ⟨r, hr, by omega, ?_, ?_⟩
    · rw [← hps, (advanceBin_fields prm _).2.2.2.2.2.2.2.1]
    · rw [← hps, (advanceBin_counters prm _).1]
      simp

theorem frmShiftedAt_eq {Pix : Type} (P : Prims Pix) (prm : Params Pix) (st : LoopState Pix)
    (iPrev k : Nat) (ps : PassState Pix) (r : List (Mat Pix) × Mat Pix × Mat Pix)
    (hloop : forLoop (frameStep P prm st.imgRef st.base iPrev) k (passStart st) = some ps)
    (hr : correctFrame P prm ps (prm.imgStack k)
        (P.estimateShift (prm.imgStack k) st.imgRef).1
        (P.estimateShift (prm.imgStack k) st.imgRef).2 = some r) :
    frmShiftedAt P prm st iPrev k = r.2.2 := by
  unfold frmShiftedAt
  rw [hloop]
  simp only [hr]

theorem frameStep_groups {Pix : Type} (P : Prims Pix) (prm : Params Pix) (st : LoopState Pix)
    (iPrev k : Nat) (ps ps1 : PassState Pix) (hr : 1 ≤ prm.medianRebin)
    (hp : PassInv P prm st k ps) (hg : GroupInv P prm st iPrev k ps)
    (h : frameStep P prm st.imgRef st.base iPrev k ps = some ps1) :
    GroupInv P prm st iPrev (k + 1) ps1 := by
  obtain ⟨hloop, hlen, himg, hfirst⟩ := hg
  obtain ⟨b1, b2, -, -⟩ := hp
  have hiM : k / prm.medianRebin = ps.iMedian := (bins_div_mod _ _ _ _ b1 b2).1.symm
  have hnext : (k + 1) / prm.medianRebin
      = (if ps.iBin + 1 ≥ prm.medianRebin then ps.iMedian + 1 else ps.iMedian) := by
    split
    · rw [div_eq_iff_bounds _ _ _ (by omega)]
      simp only [Nat.add_mul, Nat.one_mul]
      omega
    · rw [div_eq_iff_bounds _ _ _ (by omega)]
      simp only [Nat.add_mul, Nat.one_mul]
      omega
  have hnone : ps.iBin + 1 ≥ prm.medianRebin →
      groupSum P prm (frmShiftedAt P prm st iPrev) (ps.iMedian + 1) (k + 1) = none := by
    intro hb
    apply groupSum_none_of_le P prm _ _ hr
    simp only [Nat.add_mul, Nat.one_mul]
    omega
  have hloop1 : forLoop (frameStep P prm st.imgRef st.base iPrev) (k + 1) (passStart st)
      = some ps1 := by
    simp [forLoop, hloop, h]
  by_cases he : prm.isEmpty k = true
  · obtain ⟨e1, e2⟩ := frameStep_empty_fields P prm _ _ _ _ _ _ h he
    have hsum : ∀ grp, groupSum P prm (frmShiftedAt P prm st iPrev) grp (k + 1)
        = groupSum P prm (frmShiftedAt P prm st iPrev) grp k := by
      intro grp
      rw [groupSum]
      simp [memberOf, he]
    refine ⟨hloop1, by rw [e1]; exact hlen, ?_, ?_⟩
    · intro grp hgrp
      rw [e1, hsum]
      exact himg grp hgrp
    · rw [e2, hnext]
      by_cases hb : ps.iBin + 1 ≥ prm.medianRebin
      · simp [hb, hnone hb]
      · simp only [hb, decide_False, Bool.false_or, if_false]
        rw [hsum, ← hiM]
        exact hfirst
  · have he1 : prm.isEmpty k = false := by simpa using he
    obtain ⟨r, hcf, hlt, e1, e2⟩ := frameStep_nonempty_fields P prm _ _ _ _ _ _ h he1
    have hF : frmShiftedAt P prm st iPrev k = r.2.2 :=
      frmShiftedAt_eq P prm st iPrev k ps r hloop hcf
    have hr1 := correctFrame_fields P prm ps _ _ _ r hcf
    have hsumne : ∀ grp, grp ≠ ps.iMedian →
        groupSum P prm (frmShiftedAt P prm st iPrev) grp (k + 1)
          = groupSum P prm (frmShiftedAt P prm st iPrev) grp k := by
      intro grp hne
      rw [groupSum]
      have : ¬ (ps.iMedian = grp) := fun e => hne e.symm
      simp [memberOf, hiM, this]
    have hsumeq : groupSum P prm (frmShiftedAt P prm st iPrev) ps.iMedian (k + 1)
        = some (match groupSum P prm (frmShiftedAt P prm st iPrev) ps.iMedian k with
          | none => r.2.2
          | some a => P.AddImage32 r.2.2 a) := by
      rw [groupSum]
      simp [memberOf, hiM, he1, hF]
    have hr1len : r.1.length = prm.numMedian := by
      rw [hr1]
      split <;> simp [hlen]
    have hr1ne : ∀ grp, grp ≠ ps.iMedian →
        r.1.getD grp (constImage prm P.zero)
          = ps.imgShifted.getD grp (constImage prm P.zero) := by
      intro grp hne
      rw [hr1]
      split
      · rfl
      · exact getD_set_ne _ _ _ _ _ (Ne.symm hne)
    refine ⟨hloop1, ?_, ?_, ?_⟩
    · rw [e1]
      split <;> simp [hr1len]
    · intro grp hgrp
      by_cases hgi : grp = ps.iMedian
      · subst hgi
        rw [e1, hsumeq]
        by_cases hf : ps.isFirst = true
        · have hn := hfirst.1 hf
          rw [hiM] at hn
          rw [if_pos hf, getD_set_self _ _ _ _ (by omega), hn]
          rfl
        · have hsome : groupSum P prm (frmShiftedAt P prm st iPrev) ps.iMedian k ≠ none :=
            fun hn => hf (hfirst.2 (by rw [hiM]; exact hn))
          obtain ⟨a, ha⟩ := Option.ne_none_iff_exists'.1 hsome
          have hm1 : prm.medianRebin > 1 := by
            by_contra hle
            apply hsome
            apply groupSum_none_of_le P prm _ _ hr
            omega
          rw [if_neg hf, getD_set_self _ _ _ _ (by omega), ha]
          simp only [Option.getD_some]
          rw [hr1, if_pos hm1, himg _ hlt, ha]
          rfl
      · rw [e1, hsumne grp hgi]
        have hset : (if ps.isFirst = true then r.1.set ps.iMedian r.2.2
            else r.1.set ps.iMedian
              (P.AddImage32 r.2.2 (r.1.getD ps.iMedian (constImage prm P.zero)))).getD grp
              (constImage prm P.zero) = r.1.getD grp (constImage prm P.zero) := by
          split <;> exact getD_set_ne _ _ _ _ _ (Ne.symm hgi)
        rw [hset, hr1ne grp hgi]
        exact himg grp hgrp
    · rw [e2, hnext]
      by_cases hb : ps.iBin + 1 ≥ prm.medianRebin
      · simp [hb, hnone hb]
      · simp [hb, hsumeq]

theorem framesLoop_groups {Pix : Type} (P : Prims Pix) (prm : Params Pix)
    (st : LoopState Pix) (iPrev : Nat) (hr : 1 ≤ prm.medianRebin)
    (hlen : st.imgShifted.length = prm.numMedian) :
    ∃ ps, PassInv P prm st prm.numFrames ps ∧ GroupInv P prm st iPrev prm.numFrames ps := by
  obtain ⟨ps, -, hp, hg⟩ := forLoop_inv (frameStep P prm st.imgRef st.base iPrev)
    (fun k ps => PassInv P prm st k ps ∧ GroupInv P prm st iPrev k ps) prm.numFrames
    (fun k ps hk h => by
      obtain ⟨ps1, e, hp1⟩ := frameStep_spec P prm st iPrev k ps hr hk h.1
      exact ⟨ps1, e, hp1, frameStep_groups P prm st iPrev k ps ps1 hr h.1 h.2 e⟩)
    (passStart st)
    ⟨⟨by simp [passStart], by simp only [passStart]; omega, AxisInv.init _ _ _ _,
        AxisInv.init _ _ _ _⟩,
      rfl, hlen, fun grp _ => rfl, by simp [passStart, groupSum]⟩
    prm.numFrames (le_refl _)
  exact ⟨ps, hp, hg⟩

theorem runPass_groups {Pix : Type} (P : Prims Pix) (prm : Params Pix)
    (st : LoopState Pix) (iPrev : Nat) (hr : 1 ≤ prm.medianRebin)
    (hlen : st.imgShifted.length = prm.numMedian) :
    ∃ st2, runPass P prm iPrev st = some st2 ∧ st2.iteration = st.iteration + 1 ∧
      st2.imgShifted.length = prm.numMedian ∧
      ∀ grp, grp < prm.numMedian →
        st2.imgShifted.getD grp (constImage prm P.zero) =
          (groupSum P prm (frmShiftedAt P prm st iPrev) grp prm.numFrames).getD
            (st.imgShifted.getD grp (constImage prm P.zero)) := by
  obtain ⟨ps, -, hloop, hl, himg, -⟩ := framesLoop_groups P prm st iPrev hr hlen
  unfold runPass
  rw [hloop]
  exact ⟨_, rfl, rfl, hl, himg⟩

theorem scaleGroups_spec {Pix : Type} (P : Prims Pix) (D : Mat Pix) (w : List ℚ)
    (l : List (Mat Pix)) :
    ∀ n, ((List.range n).foldl
        (fun l iMedian => l.set iMedian (P.scale (l.getD iMedian D) (w.getD iMedian 1)))
        l).length = l.length ∧
      ∀ grp, ((List.range n).foldl
        (fun l iMedian => l.set iMedian (P.scale (l.getD iMedian D) (w.getD iMedian 1)))
        l).getD grp D =
        if grp < n ∧ grp < l.length then P.scale (l.getD grp D) (w.getD grp 1)
        else l.getD grp D := by
  intro n
  induction n with
  | zero => simp
  | succ n ih =>
    obtain ⟨ihl, ihg⟩ := ih
    rw [List.range_succ, List.foldl_append]
    simp only [List.foldl_cons, List.foldl_nil]
    refine ⟨by rw [List.length_set]; exact ihl, ?_⟩
    intro grp
    by_cases hgn : grp = n
    · subst hgn
      by_cases hlt : grp < l.length
      · rw [getD_set_self _ _ _ _ (by omega), ihg]
        simp [hlt]
      · rw [List.getD_eq_default _ _ (by rw [List.length_set]; omega),
          List.getD_eq_default l D (by omega)]
        simp [hlt]
    · rw [getD_set_ne _ _ _ _ _ (Ne.symm hgn), ihg]
      have : (grp < n + 1 ∧ grp < l.length) ↔ (grp < n ∧ grp < l.length) := by omega
      simp only [this]

theorem buildReference_groups {Pix : Type} (P : Prims Pix) (prm : Params Pix)
    (medWeight : List ℚ) (st : LoopState Pix)
    (hit : st.iteration > 1 ∨ prm.refStack.isEmpty = true)
    (hlen : st.imgShifted.length = prm.numMedian) :
    ∃ r, buildReference P prm medWeight st = some r ∧ r.1.length = prm.numMedian ∧
      ∀ grp, grp < prm.numMedian →
        r.1.getD grp (constImage prm P.zero) =
          P.scale (st.imgShifted.getD grp (constImage prm P.zero)) (medWeight.getD grp 1) := by
  obtain ⟨sl, sg⟩ := scaleGroups_spec P (constImage prm P.zero) medWeight st.imgShifted
    prm.numMedian
  have hg : ∀ grp, grp < prm.numMedian →
      ((List.range prm.numMedian).foldl
        (fun l iMedian => l.set iMedian
          (P.scale (l.getD iMedian (constImage prm P.zero)) (medWeight.getD iMedian 1)))
        st.imgShifted).getD grp (constImage prm P.zero) =
        P.scale (st.imgShifted.getD grp (constImage prm P.zero)) (medWeight.getD grp 1) := by
    intro grp hgrp
    rw [sg, if_pos ⟨hgrp, by omega⟩]
  unfold buildReference
  simp only
  rw [if_pos hit]
  split
  · split
    · exact ⟨_, rfl, by rw [sl]; exact hlen, hg⟩
    · obtain ⟨t, e, -⟩ := CopyShiftedImage32_wrapped st.imgRef
        (P.MedianVecMat32 ((List.range prm.numMedian).foldl
          (fun l iMedian => l.set iMedian
            (P.scale (l.getD iMedian (constImage prm P.zero)) (medWeight.getD iMedian 1)))
          st.imgShifted))
        st.midYShift st.midXShift prm.emptyValue
      rw [e]
      exact ⟨_, rfl, by rw [sl]; exact hlen, hg⟩
  · exact ⟨_, rfl, by rw [sl]; exact hlen, hg⟩

theorem initBin_spec {Pix : Type} (P : Prims Pix) (prm : Params Pix) (gidx : Nat)
    (hr : 1 ≤ prm.medianRebin) :
    ∀ (fuel iBin iFrame count : Nat) (img : Mat Pix), prm.medianRebin - iBin < fuel →
      iBin ≤ prm.medianRebin → iFrame = gidx * prm.medianRebin + iBin →
      iFrame ≤ prm.numFrames → count = groupCount prm gidx iFrame →
      ∃ r, initBin P prm fuel iBin (iFrame, count, img) = some r ∧
        r.1 = min ((gidx + 1) * prm.medianRebin) prm.numFrames ∧
        r.2.1 = groupCount prm gidx r.1 := by
  intro fuel
  induction fuel with
  | zero => intro iBin iFrame count img h; omega
  | succ n ih =>
    intro iBin iFrame count img hfuel hb hf hN hc
    unfold initBin
    by_cases hcond : iBin < prm.medianRebin ∧ iFrame < prm.numFrames
    · rw [if_pos hcond]
      by_cases he : prm.isEmpty iFrame = true
      · rw [if_pos he]
        apply ih _ _ _ _ (by omega) (by omega) (by omega) (by omega)
        simpa [groupCount, memberOf, he] using hc
      · rw [if_neg he]
        apply ih _ _ _ _ (by omega) (by omega) (by omega) (by omega)
        have hdiv : iFrame / prm.medianRebin = gidx := by
          rw [div_eq_iff_bounds _ _ _ (by omega)]
          simp only [Nat.add_mul, Nat.one_mul]
          omega
        simpa [groupCount, memberOf, he, hdiv] using hc
    · rw [if_neg hcond]
      refine ⟨_, rfl, ?_, hc⟩
      simp only [Nat.add_mul, Nat.one_mul]
      omega

theorem group_start_lt {Pix : Type} (prm : Params Pix) (i : Nat) (hr : 1 ≤ prm.medianRebin)
    (hi : i < prm.numMedian) : i * prm.medianRebin < prm.numFrames := by
  by_contra hge
  have hpos : (0 : ℚ) < (prm.medianRebin : ℚ) := by exact_mod_cast hr
  have : prm.numMedian ≤ i := by
    unfold Params.numMedian
    rw [Nat.ceil_le, div_le_iff₀ hpos]
    have h3 : prm.numFrames ≤ i * prm.medianRebin := by omega
    exact_mod_cast h3
  omega

theorem initGroup_spec {Pix : Type} (P : Prims Pix) (prm : Params Pix)
    (hr : 1 ≤ prm.medianRebin) (i : Nat) (s : Nat × List (Mat Pix) × List ℚ)
    (hi : i < prm.numMedian) (h : InitInv P prm i s) :
    ∃ s1, initGroup P prm i s = some s1 ∧ InitInv P prm (i + 1) s1 := by
  obtain ⟨h1, h2, h3, h4⟩ := h
  have hlt := group_start_lt prm i hr hi
  have hs1 : s.1 = i * prm.medianRebin := by rw [h1]; omega
  have hc0 : 0 = groupCount prm i (i * prm.medianRebin) :=
    ((groupSum_eq_none_iff P prm (fun _ => constImage prm P.zero) i
      (i * prm.medianRebin)).1
      (groupSum_none_of_le P prm _ i hr _ (le_refl _))).symm
  obtain ⟨r, er, r1, r2⟩ := initBin_spec P prm i hr (prm.medianRebin + 1) 0 s.1 0
    (constImage prm P.zero) (by omega) (by omega) (by omega) (by omega)
    (by rw [hs1]; exact hc0)
  have hcount : r.2.1 = groupCount prm i prm.numFrames := by
    rw [r2, r1]
    by_cases hle : (i + 1) * prm.medianRebin ≤ prm.numFrames
    · rw [Nat.min_eq_left hle]
      have hst := groupCount_stable prm i ((i + 1) * prm.medianRebin) hr (le_refl _)
        (prm.numFrames - (i + 1) * prm.medianRebin)
      rw [Nat.add_sub_cancel' hle] at hst
      exact hst.symm
    · rw [Nat.min_eq_right (by omega)]
  unfold initGroup
  rw [er]
  simp only [Option.some_bind]
  by_cases hz : r.2.1 ≠ 0
  · rw [if_pos hz]
    refine ⟨_, rfl, r1, by simp [h2], by simp [h3], ?_⟩
    intro grp hgrp
    by_cases hgi : grp = i
    · subst hgi
      refine ⟨fun _ => ⟨?_, fun h0 => absurd (hcount.trans h0) hz⟩, fun hle => by omega⟩
      simp only
      rw [getD_set_self _ _ _ _ (by omega), ← hcount, groupWeight, if_neg hz]
    · simp only
      rw [getD_set_ne _ _ _ _ _ (Ne.symm hgi), getD_set_ne _ _ _ _ _ (Ne.symm hgi)]
      exact ⟨fun hl => (h4 grp hgrp).1 (by omega), fun hl => (h4 grp hgrp).2 (by omega)⟩
  · rw [if_neg hz]
    have hz0 : r.2.1 = 0 := by simpa using hz
    refine ⟨_, rfl, r1, by simp [h2], h3, ?_⟩
    intro grp hgrp
    by_cases hgi : grp = i
    · subst hgi
      refine ⟨fun _ => ⟨?_, fun _ => ?_⟩, fun hle => by omega⟩
      · simp only
        rw [(h4 grp hgrp).2 (le_refl _), ← hcount, hz0]
        rfl
      · simp only
        rw [getD_set_self _ _ _ _ (by omega)]
    · simp only
      rw [getD_set_ne _ _ _ _ _ (Ne.symm hgi)]
      exact ⟨fun hl => (h4 grp hgrp).1 (by omega), fun hl => (h4 grp hgrp).2 (by omega)⟩

theorem initGroups_spec {Pix : Type} (P : Prims Pix) (prm : Params Pix)
    (hr : 1 ≤ prm.medianRebin) :
    ∃ g, initGroups P prm = some g ∧ g.1.length = prm.numMedian ∧
      g.2.length = prm.numMedian ∧
      ∀ grp, grp < prm.numMedian →
        g.2.getD grp 1 = groupWeight (groupCount prm grp prm.numFrames) ∧
        (groupCount prm grp prm.numFrames = 0 →
          g.1.getD grp (constImage prm P.zero) = constImage prm P.nan) := by
  obtain ⟨s, e, -, h2, h3, h4⟩ := forLoop_inv (initGroup P prm) (InitInv P prm) prm.numMedian
    (fun i s hi h => initGroup_spec P prm hr i s hi h)
    (0, List.replicate prm.numMedian (constImage prm P.zero), List.replicate prm.numMedian 1)
    ⟨by simp, by simp, by simp, fun grp hgrp =>
      ⟨fun hl => by omega, fun _ => by simp [List.getD_eq_getElem?_getD, hgrp]⟩⟩
    prm.numMedian (le_refl _)
  exact ⟨s.2, by simp [initGroups, e], h2, h3, fun grp hgrp => (h4 grp hgrp).1 hgrp⟩

theorem buildReference_unscaled {Pix : Type} (P : Prims Pix) (prm : Params Pix)
    (medWeight : List ℚ) (st : LoopState Pix) (r : List (Mat Pix) × Mat Pix × Mat Pix)
    (hit : ¬ (st.iteration > 1 ∨ prm.refStack.isEmpty = true))
    (h : buildReference P prm medWeight st = some r) : r.1 = st.imgShifted := by
  unfold buildReference at h
  simp only at h
  rw [if_neg hit] at h
  simp only [Option.some.injEq] at h
  rw [← h]

theorem EmptyGroupsInv.build {Pix : Type} {P : Prims Pix} {prm : Params Pix} {w : List ℚ}
    {st : LoopState Pix} (h : EmptyGroupsInv P prm w st)
    (hnan : P.scale (constImage prm P.nan) 1 = constImage prm P.nan)
    (r : List (Mat Pix) × Mat Pix × Mat Pix) (hb : buildReference P prm w st = some r) :
    r.1.length = prm.numMedian ∧
    ∀ grp, grp < prm.numMedian → groupCount prm grp prm.numFrames = 0 →
      w.getD grp 1 = 1 ∧ r.1.getD grp (constImage prm P.zero) = constImage prm P.nan := by
  obtain ⟨hlen, hg⟩ := h
  by_cases hit : st.iteration > 1 ∨ prm.refStack.isEmpty = true
  · obtain ⟨r1, e1, l1, g1⟩ := buildReference_groups P prm w st hit hlen
    rw [hb] at e1
    simp only [Option.some.injEq] at e1
    subst e1
    refine ⟨l1, fun grp hgrp h0 => ⟨(hg grp hgrp h0).1, ?_⟩⟩
    rw [g1 grp hgrp, (hg grp hgrp h0).1, (hg grp hgrp h0).2, hnan]
  · rw [buildReference_unscaled P prm w st r hit hb]
    exact ⟨hlen, hg⟩

theorem EmptyGroupsInv.pass {Pix : Type} {P : Prims Pix} {prm : Params Pix} {w : List ℚ}
    {st : LoopState Pix} (h : EmptyGroupsInv P prm w st) (hr : 1 ≤ prm.medianRebin)
    (iPrev : Nat) (st2 : LoopState Pix) (hp : runPass P prm iPrev st = some st2) :
    EmptyGroupsInv P prm w st2 := by
  obtain ⟨hlen, hg⟩ := h
  obtain ⟨s2, e2, -, l2, g2⟩ := runPass_groups P prm st iPrev hr hlen
  rw [hp] at e2
  simp only [Option.some.injEq] at e2
  subst e2
  refine ⟨l2, fun grp hgrp h0 => ⟨(hg grp hgrp h0).1, ?_⟩⟩
  rw [g2 grp hgrp, (groupSum_eq_none_iff P prm _ grp prm.numFrames).2 h0]
  exact (hg grp hgrp h0).2

theorem emptyGroups_nan {Pix : Type} (P : Prims Pix) (prm : Params Pix)
    (hr : 1 ≤ prm.medianRebin)
    (hnan : P.scale (constImage prm P.nan) 1 = constImage prm P.nan) :
    ∃ out, motionCorrect P prm = some out ∧
      ∀ grp, grp < prm.numMedian → groupCount prm grp prm.numFrames = 0 →
        out.imgShifted.getD grp (constImage prm P.zero) = constImage prm P.nan := by
  obtain ⟨out, w, stf, e, hT, -, -, -, -, -, -, -, -, hi, -, -⟩ :=
    motionCorrect_inv P prm (EmptyGroupsInv P prm) (EmptyGroupsInv P prm) hr
      (fun g hg => by
        obtain ⟨g1, e1, l1, -, w1⟩ := initGroups_spec P prm hr
        rw [hg] at e1
        simp only [Option.some.injEq] at e1
        subst e1
        refine ⟨l1, fun grp hgrp h0 => ⟨?_, (w1 grp hgrp).2 h0⟩⟩
        rw [(w1 grp hgrp).1, h0]
        rfl)
      (fun w st r hL hb => hL.build hnan r hb)
      (fun w st1 ps st2 hT _ _ hp _ _ _ _ _ _ _ _ _ _ => hT.pass hr _ st2 hp)
  refine ⟨out, e, fun grp hgrp h0 => ?_⟩
  rw [hi]
  exact (hT.2 grp hgrp h0).2

theorem groupSum_congr {Pix : Type} (P : Prims Pix) (prm : Params Pix)
    (F G : Nat → Mat Pix) (grp : Nat) :
    ∀ n, (∀ k, k < n → memberOf prm grp k = true → F k = G k) →
      groupSum P prm F grp n = groupSum P prm G grp n := by
  intro n
  induction n with
  | zero => intro _; rfl
  | succ n ih =>
    intro h
    have e := ih (fun k hk hm => h k (by omega) hm)
    rw [groupSum, groupSum, e]
    by_cases hm : memberOf prm grp n = true
    · rw [h n (by omega) hm]
    · simp [hm]

/-- C13: for `medianRebin ≥ 1`, every assignment of empty flags and every pass, started in
a loop state `st` with one image per group, that is followed by the weight scaling of
lines 428-430 (the scaling is made when `iteration > 1` after the pass or no template is
given): the pass and the reference build return, and the scaled image of a group with at
least one non-empty member is the sum (`groupSum`, added in frame order) of the corrected
frames of its non-empty members times `1 / count`, `count` being the number of its
non-empty members.  The sum reads the corrected frames of the non-empty members of the
group only.  A group whose members are all empty is filled with not-a-number by lines
366-380, keeps that image in the pass and in the scaling (its weight is 1, and a
not-a-number image times 1 is taken to be a not-a-number image, as for floats), and
is filled with not-a-number in the group images at the end of the run. -/
theorem rebin_group_accumulation {Pix : Type} (P : Prims Pix) (prm : Params Pix)
    (st : LoopState Pix) (iPrev : Nat) (hr : 1 ≤ prm.medianRebin)
    (hlen : st.imgShifted.length = prm.numMedian)
    (hit : 1 ≤ st.iteration ∨ prm.refStack.isEmpty = true)
    (hnan : P.scale (constImage prm P.nan) 1 = constImage prm P.nan) :
    ∃ g st2 r out, initGroups P prm = some g ∧ runPass P prm iPrev st = some st2 ∧
      buildReference P prm g.2 st2 = some r ∧ motionCorrect P prm = some out ∧
      ∀ grp, grp < prm.numMedian →
        (groupCount prm grp prm.numFrames ≠ 0 →
          ∃ S, groupSum P prm (frmShiftedAt P prm st iPrev) grp prm.numFrames = some S ∧
            r.1.getD grp (constImage prm P.zero)
              = P.scale S (1 / (groupCount prm grp prm.numFrames : ℚ))) ∧
        (∀ G : Nat → Mat Pix,
          (∀ k, k < prm.numFrames → k / prm.medianRebin = grp → prm.isEmpty k = false →
            G k = frmShiftedAt P prm st iPrev k) →
          groupSum P prm G grp prm.numFrames
            = groupSum P prm (frmShiftedAt P prm st iPrev) grp prm.numFrames) ∧
        (groupCount prm grp prm.numFrames = 0 →
          g.1.getD grp (constImage prm P.zero) = constImage prm P.nan ∧
          (st.imgShifted.getD grp (constImage prm P.zero) = constImage prm P.nan →
            r.1.getD grp (constImage prm P.zero) = constImage prm P.nan) ∧
          out.imgShifted.getD grp (constImage prm P.zero) = constImage prm P.nan) := by
  obtain ⟨g, eg, -, -, hw⟩ := initGroups_spec P prm hr
  obtain ⟨st2, e2, hi2, l2, g2⟩ := runPass_groups P prm st iPrev hr hlen
  obtain ⟨r, er, -, gr⟩ := buildReference_groups P prm g.2 st2
    (by rcases hit with h | h
        · exact Or.inl (by omega)
        · exact Or.inr h) l2
  obtain ⟨out, eo, ho⟩ := emptyGroups_nan P prm hr hnan
  refine ⟨g, st2, r, out, eg, e2, er, eo, fun grp hgrp => ⟨fun hne => ?_, fun G hG => ?_,
    fun h0 => ⟨(hw grp hgrp).2 h0, fun hst => ?_, ho grp hgrp h0⟩⟩⟩
  · have hsome : groupSum P prm (frmShiftedAt P prm st iPrev) grp prm.numFrames ≠ none :=
      fun hn => hne ((groupSum_eq_none_iff P prm _ grp prm.numFrames).1 hn)
    obtain ⟨S, hS⟩ := Option.ne_none_iff_exists'.1 hsome
    refine ⟨S, hS, ?_⟩
    rw [gr grp hgrp, g2 grp hgrp, hS, (hw grp hgrp).1, groupWeight, if_neg hne]
    rfl
  · apply groupSum_congr
    intro k hk hm
    simp only [memberOf, Bool.and_eq_true, decide_eq_true_eq, Bool.not_eq_true'] at hm
    exact hG k hk hm.1 hm.2
  · rw [gr grp hgrp, g2 grp hgrp, (groupSum_eq_none_iff P prm _ grp prm.numFrames).2 h0,
      (hw grp hgrp).1, h0]
    simp only [Option.getD_none, groupWeight, if_true]
    rw [hst, hnan]

/-- C13 at a concrete input: the pass of `emptyGroupRun` (four frames in groups of two, the
second group all empty) started in the loop state `emptyGroupState`. -/
theorem rebin_group_accumulation_witness :
    ∃ g st2 r out, initGroups samplePrims emptyGroupRun = some g ∧
      runPass samplePrims emptyGroupRun 0 emptyGroupState = some st2 ∧
      buildReference samplePrims emptyGroupRun g.2 st2 = some r ∧
      motionCorrect samplePrims emptyGroupRun = some out ∧
      ∀ grp, grp < emptyGroupRun.numMedian →
        (groupCount emptyGroupRun grp emptyGroupRun.numFrames ≠ 0 →
          ∃ S, groupSum samplePrims emptyGroupRun
              (frmShiftedAt samplePrims emptyGroupRun emptyGroupState 0) grp
              emptyGroupRun.numFrames = some S ∧
            r.1.getD grp (constImage emptyGroupRun samplePrims.zero)
              = samplePrims.scale S
                (1 / (groupCount emptyGroupRun grp emptyGroupRun.numFrames : ℚ))) ∧
        (∀ G : Nat → Mat ℚ,
          (∀ k, k < emptyGroupRun.numFrames → k / emptyGroupRun.medianRebin = grp →
            emptyGroupRun.isEmpty k = false →
            G k = frmShiftedAt samplePrims emptyGroupRun emptyGroupState 0 k) →
          groupSum samplePrims emptyGroupRun G grp emptyGroupRun.numFrames
            = groupSum samplePrims emptyGroupRun
              (frmShiftedAt samplePrims emptyGroupRun emptyGroupState 0) grp
              emptyGroupRun.numFrames) ∧
        (groupCount emptyGroupRun grp emptyGroupRun.numFrames = 0 →
          g.1.getD grp (constImage emptyGroupRun samplePrims.zero)
            = constImage emptyGroupRun samplePrims.nan ∧
          (emptyGroupState.imgShifted.getD grp (constImage emptyGroupRun samplePrims.zero)
              = constImage emptyGroupRun samplePrims.nan →
            r.1.getD grp (constImage emptyGroupRun samplePrims.zero)
              = constImage emptyGroupRun samplePrims.nan) ∧
          out.imgShifted.getD grp (constImage emptyGroupRun samplePrims.zero)
            = constImage emptyGroupRun samplePrims.nan) :=
  rebin_group_accumulation samplePrims emptyGroupRun emptyGroupState 0 (by decide)
    (by rw [numMedian_eq emptyGroupRun (by decide)]; rfl) (Or.inr rfl)
    (by simp [samplePrims, constImage])

/-! ## The table of squared radii, every entry -/

theorem blocks_length (f : Nat → Nat → ℚ) (cols : Nat) :
    ∀ rows, ((List.range rows).flatMap fun r => (List.range cols).map (f r)).length
      = rows * cols := by
  intro rows
  induction rows with
  | zero => simp
  | succ n ih =>
    rw [List.range_succ, List.flatMap_append, List.length_append, ih]
    simp [Nat.succ_mul]

theorem blocks_getD (f : Nat → Nat → ℚ) (cols : Nat) :
    ∀ rows row col, row < rows → col < cols →
      ((List.range rows).flatMap fun r => (List.range cols).map (f r)).getD
        (row * cols + col) 0 = f row col := by
  intro rows
  induction rows with
  | zero => intro row col h; omega
  | succ n ih =>
    intro row col hr hc
    rw [List.range_succ, List.flatMap_append]
    by_cases hlt : row < n
    · have hidx : row * cols + col < n * cols := by
        have : (row + 1) * cols ≤ n * cols := Nat.mul_le_mul_right _ hlt
        rw [Nat.succ_mul] at this
        omega
      rw [List.getD_append _ _ _ _ (by rw [blocks_length]; exact hidx)]
      exact ih row col hlt hc
    · have hrn : row = n := by omega
      subst hrn
      rw [List.getD_append_right _ _ _ _ (by rw [blocks_length]; omega), blocks_length]
      simp [List.getD_eq_getElem?_getD, hc]

theorem flatMap_cast (l : List Nat) :
    (l.flatMap fun (a : Nat) => [(a : ℚ)]) = List.map (fun (a : Nat) => (a : ℚ)) l := by
  induction l with
  | nil => rfl
  | cons x xs ih =>
    rw [List.flatMap_cons, ih]
    rfl

theorem radius2Table_blocks (rows cols : Nat) :
    radius2Table rows cols = (List.range rows).flatMap fun r => (List.range cols).map
      (fun (col : Nat) =>
        sqr ((r : ℚ) - (1 / 2) * (rows : ℚ)) + sqr ((col : ℚ) - (1 / 2) * (cols : ℚ))) := by
  unfold radius2Table
  congr 1
  funext row
  have h : (do let a ← List.range cols; pure (a : ℚ))
      = List.map (fun (a : Nat) => (a : ℚ)) (List.range cols) :=
    flatMap_cast _
  rw [h, List.map_map]
  rfl

/-- Every entry of the table of lines 347-352 for a surface of `(2a+1) x (2b+1)` cells: the
entry of the cell `(row, col)` is `(row - a - 1/2)^2 + (col - b - 1/2)^2`, the squared
distance from the point `(a + 1/2, b + 1/2)`; the centre cell `(a, b)` has the entry
`1/2`, and so has the cell `(a + 1, b + 1)`. -/
theorem radius2Table_entry (a b row col : Nat) (hrow : row < 2 * a + 1)
    (hcol : col < 2 * b + 1) :
    entry (radius2Table (2 * a + 1) (2 * b + 1)) (row * (2 * b + 1) + col)
      = ((row : ℚ) - (a : ℚ) - 1 / 2) ^ 2 + ((col : ℚ) - (b : ℚ) - 1 / 2) ^ 2 ∧
    entry (radius2Table (2 * a + 1) (2 * b + 1)) (a * (2 * b + 1) + b) = 1 / 2 ∧
    (0 < a → 0 < b →
      entry (radius2Table (2 * a + 1) (2 * b + 1)) ((a + 1) * (2 * b + 1) + (b + 1))
        = 1 / 2) := by
  have key : ∀ r c, r < 2 * a + 1 → c < 2 * b + 1 →
      entry (radius2Table (2 * a + 1) (2 * b + 1)) (r * (2 * b + 1) + c)
        = ((r : ℚ) - (a : ℚ) - 1 / 2) ^ 2 + ((c : ℚ) - (b : ℚ) - 1 / 2) ^ 2 := by
    intro r c hr hc
    unfold entry
    rw [radius2Table_blocks, blocks_getD _ _ _ r c hr hc]
    simp only [sqr]
    push_cast
    ring
  refine ⟨key row col hrow hcol, ?_, fun ha hb => ?_⟩
  · rw [key a b (by omega) (by omega)]
    ring
  · rw [key (a + 1) (b + 1) (by omega) (by omega)]
    push_cast
    ring

end MotionCorrect
